import Mathlib

set_option autoImplicit false
set_option maxRecDepth 8000

/-!
Shallow embedding of the AlphaZero repository's core data structures and
operations, with theorems checking the natural-language specification
against them.  Machine integers of the source (`u32`, `u8`, `u64`, `usize`)
are modelled as `ℕ` (with explicit 32-bit masking where the source relies
on wraparound or complement), and `f32` arithmetic is modelled with exact
rationals `ℚ`.
-/

namespace Spec2Proof

namespace Sttt

/-! Embedding of the Super-Tic-Tac-Toe board, `src/board.rs`. -/

/-- `Player` in `src/board.rs`. -/
inductive Player where
| x
| o
| neutral
deriving DecidableEq, Repr

/-- `Player::other`. -/
def Player.other : Player → Player
| .x => .o
| .o => .x
| .neutral => .neutral

/-- `Player::index`.  The source panics on `Neutral`; the operations embedded
below only ever apply it to `X` or `O`, and the `Neutral` case is mapped to 0. -/
def Player.index : Player → ℕ
| .x => 0
| .o => 1
| .neutral => 0

/-- `Coord` in `src/board.rs`: a cell coordinate stored as `9 * om + os`. -/
structure Coord where
val : ℕ
deriving DecidableEq, Repr

/-- `Coord::from_oo`. -/
def Coord.fromOO (om os : ℕ) : Coord := ⟨9 * om + os⟩

/-- `Coord::om`. -/
def Coord.om (c : Coord) : ℕ := c.val / 9

/-- `Coord::os`. -/
def Coord.os (c : Coord) : ℕ := c.val % 9

/-- `Board::FULL_MASK`. -/
def FULL_MASK : ℕ := 0b111111111

/-- All 32 bits set; used to model `u32` bitwise complement. -/
def U32_MASK : ℕ := 2 ^ 32 - 1

/-- `has_bit` in `src/board.rs`. -/
def hasBit (x : ℕ) (i : ℕ) : Bool := x.testBit i

/-- `compact_grid` in `src/board.rs`. -/
def compactGrid (grid : ℕ) : ℕ := (grid ||| (grid >>> 9)) &&& FULL_MASK

/-- `u32::count_ones` for the (at most 32-bit) grid values of the source. -/
def countOnes (x : ℕ) : ℕ := ((List.range 32).filter (fun i => x.testBit i)).length

/-- The `WIN_GRIDS` lookup table of `is_win_grid` in `src/board.rs`. -/
def WIN_GRIDS : List ℕ :=
[2155905152, 4286611584, 4210076288, 4293962368,
 3435954304, 4291592320, 4277971584, 4294748800,
 2863300736, 4294635760, 4210731648, 4294638320,
 4008607872, 4294897904, 4294967295, 4294967295]

/-- `is_win_grid` in `src/board.rs`. -/
def isWinGrid (grid : ℕ) : Bool := hasBit (WIN_GRIDS.getD (grid / 32) 0) (grid % 32)

/-- `Board` in `src/board.rs`.  The two macro masks keep their source names
`macro_mask` and `macro_open` in the doc comments of the operations. -/
structure Board where
grids : List ℕ
mainGrid : ℕ
lastMove : Option Coord
nextPlayer : Player
wonBy : Option Player
mcMask : ℕ
mcOpen : ℕ
deriving DecidableEq, Repr

/-- `Board::new`. -/
def Board.new : Board :=
{ grids := List.replicate 9 0
  mainGrid := 0
  lastMove := none
  nextPlayer := .x
  wonBy := none
  mcMask := FULL_MASK
  mcOpen := FULL_MASK }

/-- `Board::is_done`. -/
def Board.isDone (b : Board) : Bool := b.wonBy != none

/-- `Board::calc_macro_mask`. -/
def Board.calcMcMask (b : Board) (os : ℕ) : ℕ :=
if hasBit b.mcOpen os then 1 <<< os else b.mcOpen

/-- `Board::set_tile_and_update`.  Returns the updated board together with the
`grid_win` flag the source returns. -/
def Board.setTileAndUpdate (b : Board) (player : Player) (coord : Coord) : Board × Bool :=
let om := coord.om
let os := coord.os
let p := 9 * player.index
let newGrid := b.grids.getD om 0 ||| (1 <<< (os + p))
let grids := b.grids.set om newGrid
let gridWin := isWinGrid ((newGrid >>> p) &&& FULL_MASK)
let mainGrid := if gridWin then b.mainGrid ||| (1 <<< (om + p)) else b.mainGrid
let wonBy :=
  if gridWin && isWinGrid ((mainGrid >>> p) &&& FULL_MASK) then some player else b.wonBy
let mcOpen :=
  if gridWin || countOnes newGrid == 9 then b.mcOpen &&& (U32_MASK ^^^ (1 <<< om)) else b.mcOpen
let wonBy :=
  if (gridWin || countOnes newGrid == 9) && mcOpen == 0 && wonBy == none then
    some Player.neutral
  else wonBy
let b1 : Board :=
  { b with grids := grids, mainGrid := mainGrid, wonBy := wonBy, mcOpen := mcOpen }
({ b1 with mcMask := b1.calcMcMask os }, gridWin)

/-- `Board::play`.  Returns the updated board together with the `won_grid`
flag the source returns. -/
def Board.play (b : Board) (coord : Coord) : Board × Bool :=
let r := b.setTileAndUpdate b.nextPlayer coord
({ r.1 with lastMove := some coord, nextPlayer := b.nextPlayer.other }, r.2)

/-- `Board::is_available_move`. -/
def Board.isAvailableMove (b : Board) (c : Coord) : Bool :=
hasBit b.mcMask c.om && !hasBit (compactGrid (b.grids.getD c.om 0)) c.os

/-- The set bits of a 9-bit mask in ascending order, as produced by the
`trailing_zeros` / clear-lowest-bit loops of `BoardMoveIterator` and `BitIter`. -/
def bitsAsc (x : ℕ) : List ℕ := (List.range 9).filter (fun i => x.testBit i)

/-- `Board::available_moves`: the moves yielded by `BoardMoveIterator` in order
(open macro grids ascending, free cells of each grid ascending). -/
def Board.availableMoves (b : Board) : List Coord :=
if b.isDone then []
else
  (bitsAsc b.mcMask).flatMap fun om =>
    (bitsAsc (FULL_MASK ^^^ compactGrid (b.grids.getD om 0))).map fun os =>
      Coord.fromOO om os

/-- `Symmetry` in `src/board.rs`. -/
structure Symmetry where
transpose : Bool
flipX : Bool
flipY : Bool
deriving DecidableEq, Repr

/-- `Default::default()` for `Symmetry`: the identity transformation. -/
def Symmetry.idSym : Symmetry := ⟨false, false, false⟩

/-- `Symmetry::inverse`. -/
def Symmetry.inverse (s : Symmetry) : Symmetry :=
{ transpose := s.transpose
  flipX := if s.transpose then s.flipY else s.flipX
  flipY := if s.transpose then s.flipX else s.flipY }

/-- `Symmetry::map_oo`. -/
def Symmetry.mapOO (s : Symmetry) (oo : ℕ) : ℕ :=
let x := oo % 3
let y := oo / 3
let x' := if s.transpose then y else x
let y' := if s.transpose then x else y
let x'' := if s.flipX then 2 - x' else x'
let y'' := if s.flipY then 2 - y' else y'
x'' + y'' * 3

/-- `Symmetry::map_coord`. -/
def Symmetry.mapCoord (s : Symmetry) (c : Coord) : Coord :=
Coord.fromOO (s.mapOO c.om) (s.mapOO c.os)

/-- `Symmetry::map_grid`. -/
def Symmetry.mapGrid (s : Symmetry) (grid : ℕ) : ℕ :=
(List.range 9).foldl
  (fun result oo => result ||| (((grid >>> oo) &&& 0b1000000001) <<< s.mapOO oo)) 0

/-- `Board::map_symmetry`.  Note that the source sets the `main_grid` field of
the result to `0` instead of mapping it. -/
def Board.mapSymmetry (b : Board) (sym : Symmetry) : Board :=
{ grids :=
    (List.range 9).foldl
      (fun gs oo => gs.set (sym.mapOO oo) (sym.mapGrid (b.grids.getD oo 0)))
      (List.replicate 9 0)
  mainGrid := 0
  lastMove := b.lastMove.map sym.mapCoord
  nextPlayer := b.nextPlayer
  wonBy := b.wonBy
  mcMask := sym.mapGrid b.mcMask
  mcOpen := sym.mapGrid b.mcOpen }

/-- A board on which `X` has already won macro grid 0, reached from the start
position by the legal move sequence
`X (0,1)`, `O (1,0)`, `X (0,2)`, `O (2,0)`, `X (0,0)`. -/
def boardWonGrid : Board :=
(((((Board.new.play (Coord.fromOO 0 1)).1.play (Coord.fromOO 1 0)).1.play
  (Coord.fromOO 0 2)).1.play (Coord.fromOO 2 0)).1.play (Coord.fromOO 0 0)).1

end Sttt

/-! The search embeddings model `f32` arithmetic with exact, unnormalized
fractions so that every embedded computation reduces inside the kernel.  All
denominators produced by the embedded operations are positive (literals have
denominator 1 and the only divisions are by positive visit counts), which is
what the comparison operators below assume. -/

/-- An exact unnormalized fraction `num / den`, modelling `f32` values. -/
structure F where
num : ℤ
den : ℤ
deriving DecidableEq, Repr

def F.add (a b : F) : F := ⟨a.num * b.den + b.num * a.den, a.den * b.den⟩

def F.sub (a b : F) : F := ⟨a.num * b.den - b.num * a.den, a.den * b.den⟩

def F.mul (a b : F) : F := ⟨a.num * b.num, a.den * b.den⟩

def F.div (a b : F) : F := ⟨a.num * b.den, a.den * b.num⟩

def F.neg (a : F) : F := ⟨-a.num, a.den⟩

/-- Comparison, valid for positive denominators. -/
def F.le (a b : F) : Prop := a.num * b.den ≤ b.num * a.den

/-- Strict comparison, valid for positive denominators. -/
def F.lt (a b : F) : Prop := a.num * b.den < b.num * a.den

/-- Absolute value (for a positive denominator), `f32::abs`. -/
def F.abs (a : F) : F := ⟨a.num.natAbs, a.den⟩

instance : Add F := ⟨F.add⟩
instance : Sub F := ⟨F.sub⟩
instance : Mul F := ⟨F.mul⟩
instance : Div F := ⟨F.div⟩
instance : Neg F := ⟨F.neg⟩
instance : LE F := ⟨F.le⟩
instance : LT F := ⟨F.lt⟩
instance (a b : F) : Decidable (a ≤ b) := Int.decLe _ _
instance (a b : F) : Decidable (a < b) := Int.decLt _ _
instance (n : ℕ) : OfNat F n := ⟨⟨(n : ℤ), 1⟩⟩
instance : NatCast F := ⟨fun n => ⟨(n : ℤ), 1⟩⟩
instance : Zero F := ⟨⟨0, 1⟩⟩

/-! Shared value types of the `board_game` crate interface used by the search
(`Player`, `Outcome`, `OutcomeWDL`, `WDL`), as described in §6 of the spec and
used throughout `non_solve_zero.rs` and `zero/step.rs`. -/

/-- A player of a two-player game (`board_game::board::Player`). -/
inductive GPlayer where
| a
| b
deriving DecidableEq, Repr

/-- `board_game::board::Outcome`. -/
inductive Outcome where
| wonBy (p : GPlayer)
| draw
deriving DecidableEq, Repr

/-- `board_game::wdl::OutcomeWDL`. -/
inductive OutcomeWDL where
| win
| draw
| loss
deriving DecidableEq, Repr

/-- `Outcome::pov`: the outcome as seen by `pov`. -/
def Outcome.pov : Outcome → GPlayer → OutcomeWDL
| .draw, _ => .draw
| .wonBy p, q => if p = q then .win else .loss

/-- `board_game::wdl::WDL<f32>`, with `f32` modelled as `F`. -/
structure WDL where
win : F
draw : F
loss : F
deriving DecidableEq, Repr

/-- `WDL::default()`: all components zero. -/
def WDL.default : WDL := ⟨0, 0, 0⟩

/-- `Flip::flip` for `WDL`: swap the win and loss components. -/
def WDL.flip (w : WDL) : WDL := ⟨w.loss, w.draw, w.win⟩

/-- Component-wise addition of `WDL` values. -/
def WDL.add (v w : WDL) : WDL := ⟨v.win + w.win, v.draw + w.draw, v.loss + w.loss⟩

instance : Add WDL := ⟨WDL.add⟩

/-- Component-wise subtraction of `WDL` values. -/
def WDL.sub (v w : WDL) : WDL := ⟨v.win - w.win, v.draw - w.draw, v.loss - w.loss⟩

instance : Sub WDL := ⟨WDL.sub⟩

/-- Division of a `WDL` by a scalar. -/
def WDL.div (w : WDL) (q : F) : WDL := ⟨w.win / q, w.draw / q, w.loss / q⟩

/-- `WDL::value`: win minus loss probability. -/
def WDL.value (w : WDL) : F := w.win - w.loss

/-- `OutcomeWDL::to_wdl`: the one-hot `WDL` of a decided outcome. -/
def OutcomeWDL.toWdl : OutcomeWDL → WDL
| .win => ⟨1, 0, 0⟩
| .draw => ⟨0, 1, 0⟩
| .loss => ⟨0, 0, 1⟩

/-- The abstract game interface of §6 of the spec (`board_game::board::Board`),
given as explicit operations over a board type `B` with move type `M`.
`availableMoves` lists the legal moves in the board's native order. -/
structure GameOps (B M : Type) where
isDone : B → Bool
outcome : B → Option Outcome
nextPlayer : B → GPlayer
availableMoves : B → List M
play : B → M → B

/-- A well-behaved game: `is_done` agrees with `outcome().is_some()`, and a
board that is not done has at least one available move. -/
def GameOps.Wf {B M : Type} (g : GameOps B M) : Prop :=
∀ b : B, g.isDone b = (g.outcome b).isSome ∧ (g.isDone b = false → g.availableMoves b ≠ [])

/-- The network evaluation of one board (`ZeroEvaluation` of
`alpha-zero/src/network/mod.rs`): a WDL estimate plus one policy entry per
legal move of the board, in the board's native move order. -/
structure ZeroEvaluation where
wdl : WDL
policy : List F
deriving DecidableEq, Repr

/-- Rust's `Iterator::max_by_key`: the element with the maximal key, the
**last** one when several elements are equally maximal.  (`N32` of the source
only adjusts NaN ordering, which the exact `ℚ` model has no need for.) -/
def maxByKeyLast {α : Type} (l : List α) (key : α → F) : Option α :=
l.foldl
  (fun acc x =>
    match acc with
    | none => some x
    | some b => if key b ≤ key x then some x else some b)
  none

namespace NonSolve

/-! Embedding of `alpha-zero/src/non_solve_zero.rs`: the self-contained tree,
search state machine and driver.  Assertions and panics of the source are
modelled with `Except String`; loops whose termination depends on tree
well-formedness take an explicit fuel argument and report exhaustion as an
error. -/

/-- `IdxRange` in `non_solve_zero.rs`: a contiguous child range
`[start, start + length)`; `start` is a `NonZeroUsize` and `length` a `u8`. -/
structure IdxRange where
start : ℕ
length : ℕ
deriving DecidableEq, Repr

/-- `IdxRange::new`.  The source asserts `end > start`, that `start` is
nonzero, and that the length fits in a `u8`. -/
def IdxRange.new (start end_ : ℕ) : Except String IdxRange :=
if start < end_ ∧ start ≠ 0 ∧ end_ - start ≤ 255 then .ok ⟨start, end_ - start⟩
else .error "IdxRange::new"

/-- `IdxRange::iter`: the indices `start, start+1, …, start+length-1`. -/
def IdxRange.iter (r : IdxRange) : List ℕ := List.range' r.start r.length

/-- `IdxRange::get`: the `index`-th child (the source asserts
`index < length`). -/
def IdxRange.get (r : IdxRange) (index : ℕ) : ℕ := r.start + index

/-- `Node` in `non_solve_zero.rs`.  `parent` is a plain `usize` (the root
stores 0); `f32` fields are modelled as `ℚ`. -/
structure Node (M : Type) where
parent : ℕ
lastMove : Option M
children : Option IdxRange
netWdl : Option WDL
netPolicy : F
visits : ℕ
totalWdl : WDL
deriving DecidableEq, Repr

/-- `Node::new`. -/
def Node.new {M : Type} (parent : ℕ) (lastMove : Option M) (p : F) : Node M :=
{ parent := parent
  lastMove := lastMove
  children := none
  netWdl := none
  netPolicy := p
  visits := 0
  totalWdl := WDL.default }

instance {M : Type} : Inhabited (Node M) := ⟨Node.new 0 none 0⟩

/-- `Node::wdl`: the mean WDL, zero when the node was never visited. -/
def Node.wdl {M : Type} (n : Node M) : WDL :=
if n.visits = 0 then WDL.default else n.totalWdl.div (n.visits : F)

/-- `Node::uct`.  `fsqrt` interprets the `f32` square root
`(parent_visits as f32).sqrt()` of the source; all theorems below either
quantify over it or use it only where its exact value is irrelevant. -/
def Node.uct {M : Type} (n : Node M) (explorationWeight : F) (parentVisits : ℕ)
    (fsqrt : ℕ → F) : F :=
let q := n.wdl.value
let u := n.netPolicy * fsqrt parentVisits / (1 + (n.visits : F))
q + explorationWeight * u

/-- `Tree` in `non_solve_zero.rs`: a root board plus the flat node arena. -/
structure Tree (B M : Type) where
rootBoard : B
nodes : List (Node M)
deriving DecidableEq, Repr

/-- `tree[index]`; out-of-range access (a panic in the source) yields the
default node, and is never exercised by the theorems below. -/
def Tree.get {B M : Type} (t : Tree B M) (index : ℕ) : Node M :=
t.nodes.getD index default

/-- `Tree::len`. -/
def Tree.len {B M : Type} (t : Tree B M) : ℕ := t.nodes.length

/-- `Tree::new`: building a tree on a done board is rejected
(`assert!(!root_board.is_done(), "Cannot build tree for done board")`). -/
def Tree.new {B M : Type} (g : GameOps B M) (rootBoard : B) : Except String (Tree B M) :=
if g.isDone rootBoard then .error "Cannot build tree for done board"
else .ok { rootBoard := rootBoard, nodes := [Node.new 0 none 0] }

/-- `Tree::propagate_wdl`: flip the WDL, add it (and optionally a visit) to
the current node, stop at index 0, otherwise continue at the parent.  The
root's `net_policy` is `f32::NAN` in the source and `0` here; it is never
read. -/
def Tree.propagateWdl {B M : Type} :
    ℕ → Tree B M → ℕ → WDL → Bool → Except String (Tree B M)
| 0, _, _, _, _ => .error "propagate_wdl: fuel"
| fuel + 1, t, currIndex, wdl, countVisit =>
  let wdl := wdl.flip
  let n := t.get currIndex
  let n' := { n with
    visits := if countVisit then n.visits + 1 else n.visits
    totalWdl := n.totalWdl + wdl }
  let t' : Tree B M := { t with nodes := t.nodes.set currIndex n' }
  if currIndex = 0 then .ok t'
  else Tree.propagateWdl fuel t' n.parent wdl countVisit

/-- `KeepResult` in `non_solve_zero.rs`. -/
inductive KeepResult (B M : Type) where
| done (outcome : Outcome)
| tree (t : Tree B M)
deriving DecidableEq, Repr

/-- The breadth-first copy loop inside `Tree::keep_move`: `new_nodes` grows
while `i` scans it; a node with children has them copied from `old_nodes` and
its child range rewritten to the new locations. -/
def keepLoop {M : Type} :
    ℕ → List (Node M) → List (Node M) → ℕ → Except String (List (Node M))
| 0, _, _, _ => .error "keep_move: fuel"
| fuel + 1, oldNodes, newNodes, i =>
  if i < newNodes.length then
    match (newNodes.getD i default).children with
    | none => keepLoop fuel oldNodes newNodes (i + 1)
    | some oldChildren =>
      let newStart := newNodes.length
      let extended := newNodes ++ oldChildren.iter.map (fun c => oldNodes.getD c default)
      let newEnd := extended.length
      match IdxRange.new newStart newEnd with
      | .error e => .error e
      | .ok r =>
        keepLoop fuel oldNodes
          (extended.set i { extended.getD i default with children := some r }) (i + 1)
  else .ok newNodes

/-- `Tree::keep_move`: the new tree rooted at the child reached by `mv`, or
`Done(outcome)` when `mv` ends the game. -/
def Tree.keepMove {B M : Type} [DecidableEq M] (g : GameOps B M) (t : Tree B M)
    (mv : M) : Except String (KeepResult B M) :=
if t.len ≤ 1 then .error "Must have run for at least 1 iteration"
else
  let newRootBoard := g.play t.rootBoard mv
  match g.outcome newRootBoard with
  | some outcome => .ok (.done outcome)
  | none =>
    match (t.get 0).children with
    | none => .error "keep_move: root has no children"
    | some children =>
      match children.iter.find? (fun c => (t.get c).lastMove = some mv) with
      | none => .error "Child for move not found"
      | some pickedChild =>
        match keepLoop (t.len + 1) t.nodes [t.get pickedChild] 0 with
        | .error e => .error e
        | .ok newNodes => .ok (.tree { rootBoard := newRootBoard, nodes := newNodes })

/-- `ZeroSettings` in `non_solve_zero.rs`.  The embedding covers the
`random_symmetries = false` configuration (the identity symmetry), which is
the case the driver claims address. -/
structure ZeroSettings where
batchSize : ℕ
explorationWeight : F
deriving DecidableEq, Repr

/-- `SubRequest` with the identity symmetry: `board()` is `curr_board`
itself. -/
structure SubRequest (B : Type) where
currBoard : B
currNode : ℕ
deriving DecidableEq, Repr

/-- `SubResponse`. -/
structure SubResponse (B : Type) where
request : SubRequest B
evaluation : ZeroEvaluation
deriving DecidableEq, Repr

/-- `VIRTUAL_WDL`: the virtual-loss WDL applied while an evaluation is in
flight. -/
def VIRTUAL_WDL : WDL := ⟨0, 0, 1⟩

/-- `ZeroState` in `non_solve_zero.rs`. -/
structure ZeroState (B M : Type) where
tree : Tree B M
targetIterations : ℕ
settings : ZeroSettings
expectedNodes : List ℕ
deriving DecidableEq, Repr

/-- `ZeroState::new`. -/
def ZeroState.new {B M : Type} (tree : Tree B M) (targetIterations : ℕ)
    (settings : ZeroSettings) : ZeroState B M :=
{ tree := tree, targetIterations := targetIterations, settings := settings
  expectedNodes := [] }

/-- The result of one selection walk down the tree (the inner
`let wdl = loop { … }` of `run_until_result_from_root`): either a terminal
board was hit (yielding its WDL, to be propagated from `node`), or an
unexpanded node was expanded (the returned tree contains the new children)
and a request for it is due. -/
inductive WalkResult (B M : Type) where
| terminal (node : ℕ) (wdl : WDL)
| request (tree : Tree B M) (node : ℕ) (board : B)
deriving DecidableEq, Repr

/-- The selection walk of `run_until_result_from_root`: descend from
`(currNode, currBoard)`, expanding the first unexpanded node (children get
uniform prior `1.0`) or stopping at a terminal board. -/
def walk {B M : Type} (g : GameOps B M) (fsqrt : ℕ → F) (settings : ZeroSettings) :
    ℕ → Tree B M → ℕ → B → Except String (WalkResult B M)
| 0, _, _, _ => .error "walk: fuel"
| fuel + 1, t, currNode, currBoard =>
  match g.outcome currBoard with
  | some outcome => .ok (.terminal currNode ((outcome.pov (g.nextPlayer currBoard)).toWdl))
  | none =>
    match (t.get currNode).children with
    | none =>
      let start := t.len
      let nodes := t.nodes ++ (g.availableMoves currBoard).map
        (fun mv => Node.new currNode (some mv) 1)
      let end_ := nodes.length
      match IdxRange.new start end_ with
      | .error e => .error e
      | .ok r =>
        let updated := { nodes.getD currNode default with
          children := some r, netWdl := none }
        let t' : Tree B M := { t with nodes := nodes.set currNode updated }
        .ok (.request t' currNode currBoard)
    | some children =>
      let parentVisits := (t.get currNode).visits
      match maxByKeyLast children.iter
          (fun child => (t.get child).uct settings.explorationWeight parentVisits fsqrt) with
      | none => .error "Board is not done, this node should have a child"
      | some selected =>
        match (t.get selected).lastMove with
        | none => .error "selected child has no last_move"
        | some mv => walk g fsqrt settings fuel t selected (g.play currBoard mv)

/-- `RunResult` in `non_solve_zero.rs`. -/
inductive RunResult (B : Type) where
| request (subs : List (SubRequest B))
| done
deriving DecidableEq, Repr

/-- The `'outer` loop of `run_until_result_from_root`, with the trivial
`stop_cond` (always false) that the driver claims assume: while the root has
fewer than `target_iterations` visits and the batch is not full, run one walk;
a terminal walk propagates its WDL with a counted visit, an expansion walk
propagates `VIRTUAL_WDL` with a counted visit and records the request. -/
def runFromRootAux {B M : Type} (g : GameOps B M) (fsqrt : ℕ → F) :
    ℕ → ZeroState B M → List (SubRequest B) →
    Except String (ZeroState B M × List (SubRequest B))
| 0, _, _ => .error "run_until_result_from_root: fuel"
| fuel + 1, st, subs =>
  if (st.tree.get 0).visits < st.targetIterations then
    if subs.length = st.settings.batchSize then .ok (st, subs)
    else
      match walk g fsqrt st.settings (st.tree.len + 1) st.tree 0 st.tree.rootBoard with
      | .error e => .error e
      | .ok (.terminal node wdl) =>
        match st.tree.propagateWdl (st.tree.len + 1) node wdl true with
        | .error e => .error e
        | .ok t' => runFromRootAux g fsqrt fuel { st with tree := t' } subs
      | .ok (.request t' node board) =>
        match t'.propagateWdl (t'.len + 1) node VIRTUAL_WDL true with
        | .error e => .error e
        | .ok t'' =>
          runFromRootAux g fsqrt fuel
            { st with tree := t'', expectedNodes := st.expectedNodes ++ [node] }
            (subs ++ [⟨board, node⟩])
  else .ok (st, subs)

/-- `ZeroState::run_until_result_from_root`: collect walk requests and return
them, or `Done` when none were collected. -/
def runFromRoot {B M : Type} (g : GameOps B M) (fsqrt : ℕ → F) (fuel : ℕ)
    (st : ZeroState B M) : Except String (ZeroState B M × RunResult B) :=
match runFromRootAux g fsqrt fuel st [] with
| .error e => .error e
| .ok (st', subs) => .ok (st', if subs.isEmpty then .done else .request subs)

/-- A sequential fold in the `Except` monad, modelling a `for` loop whose body
can panic. -/
def exceptFoldl {A S : Type} (f : S -> A -> Except String S) : List A -> S -> Except String S
| [], s => .ok s
| a :: rest, s =>
  match f s a with
  | .error e => .error e
  | .ok s' => exceptFoldl f rest s'

/-- `for_each_original_move_and_policy` with the identity symmetry, fused with
the loop body of `apply_eval` that stores each prior onto the matching child:
asserts the policy length matches the move count and that the policy sums to
1 within `1e-3`, then writes `sym_policy[index_of(map_move(mv))]` — with the
identity symmetry, the entry at the first position of `mv` in the move
list — to child `i`. -/
def storePolicies {B M : Type} [DecidableEq M] (g : GameOps B M) (t : Tree B M)
    (currNode : ℕ) (board : B) (symPolicy : List F) : Except String (Tree B M) :=
if (g.availableMoves board).length ≠ symPolicy.length then
  .error "available move count differs from policy length"
else if ¬ (1 - symPolicy.sum).abs < 1 / 1000 then .error "Policy sum was not 1.0"
else
  let symMoves := g.availableMoves board
  exceptFoldl
    (fun (t : Tree B M) (i : ℕ) =>
      match (g.availableMoves board).get? i with
      | none => .error "move index out of range"
      | some mv =>
        match symMoves.indexOf? mv with
        | none => .error "mapped move not found"
        | some index =>
          match (t.get currNode).children with
          | none => .error "apply_eval: no children"
          | some children =>
            let child := children.get i
            let updated := { t.get child with netPolicy := symPolicy.getD index 0 }
            .ok { t with nodes := t.nodes.set child updated })
    (List.range (g.availableMoves board).length) t

/-- `ZeroState::apply_eval`: zip the responses with `expected_nodes`, check
each response targets the expected node and that the node was not already
evaluated, store `net_wdl`, store the child priors, and propagate
`wdl - VIRTUAL_WDL` without counting a visit. -/
def applyEval {B M : Type} [DecidableEq M] (g : GameOps B M)
    (st : ZeroState B M) (responses : List (SubResponse B)) :
    Except String (ZeroState B M) :=
if responses.length ≠ st.expectedNodes.length then .error "zip_eq: length mismatch"
else
  match exceptFoldl
    (fun (t : Tree B M) (pair : SubResponse B × ℕ) =>
      let response := pair.1
      let expectedNode := pair.2
      let currNode := response.request.currNode
      let currBoard := response.request.currBoard
      if expectedNode ≠ currNode then .error "Received response for wrong node"
      else if (t.get currNode).netWdl.isSome then .error "Node already has net_wdl"
      else
        let updated := { t.get currNode with netWdl := some response.evaluation.wdl }
        let t := { t with nodes := t.nodes.set currNode updated }
        match storePolicies g t currNode currBoard response.evaluation.policy with
        | .error e => .error e
        | .ok t =>
          t.propagateWdl (t.len + 1) currNode (response.evaluation.wdl - VIRTUAL_WDL) false)
    (responses.zip st.expectedNodes) st.tree with
  | .error e => .error e
  | .ok t' => .ok { st with tree := t', expectedNodes := [] }

/-- `ZeroState::run_until_result`: apply the previous responses if any, then
continue from the root. -/
def runUntilResult {B M : Type} [DecidableEq M] (g : GameOps B M) (fsqrt : ℕ → F)
    (fuel : ℕ) (st : ZeroState B M) (response : Option (List (SubResponse B))) :
    Except String (ZeroState B M × RunResult B) :=
match response with
| none =>
  if ¬ st.expectedNodes.isEmpty then .error "Expected evaluation response"
  else runFromRoot g fsqrt fuel st
| some responses =>
  if st.expectedNodes.isEmpty then .error "Unexpected evaluation response on first run call"
  else
    match applyEval g st responses with
    | .error e => .error e
    | .ok st' => runFromRoot g fsqrt fuel st'

/-- The driver loop of `zero_build_tree` with the trivial `stop_cond`,
instrumented with a ghost counter of how many evaluation requests were
submitted to the network over the whole run (the counter does not influence
control flow). -/
def buildLoop {B M : Type} [DecidableEq M] (g : GameOps B M) (fsqrt : ℕ → F)
    (network : B → ZeroEvaluation) (innerFuel : ℕ) :
    ℕ → ZeroState B M → Option (List (SubResponse B)) → ℕ →
    Except String (Tree B M × ℕ)
| 0, _, _, _ => .error "zero_build_tree: fuel"
| fuel + 1, st, response, requestCount =>
  match runUntilResult g fsqrt innerFuel st response with
  | .error e => .error e
  | .ok (st', .done) => .ok (st'.tree, requestCount)
  | .ok (st', .request subs) =>
    let responses := subs.map (fun sub => SubResponse.mk sub (network sub.currBoard))
    buildLoop g fsqrt network innerFuel fuel st' (some responses)
      (requestCount + subs.length)

/-- `zero_build_tree`: build a fresh tree on `board` and run the search until
`iterations` root visits, returning the tree and the ghost request counter. -/
def zeroBuildTree {B M : Type} [DecidableEq M] (g : GameOps B M) (fsqrt : ℕ → F)
    (network : B → ZeroEvaluation) (innerFuel outerFuel : ℕ) (board : B)
    (iterations : ℕ) (settings : ZeroSettings) : Except String (Tree B M × ℕ) :=
match Tree.new g board with
| .error e => .error e
| .ok t => buildLoop g fsqrt network innerFuel outerFuel
    (ZeroState.new t iterations settings) none 0

/-- Parent–child consistency of an arena: every child in every node's child
range is in bounds and stores its parent's index. -/
def parentConsistent {B M : Type} (t : Tree B M) : Prop :=
∀ i < t.len, ∀ r : IdxRange, (t.get i).children = some r →
  ∀ c ∈ r.iter, c < t.len ∧ (t.get c).parent = i

instance {B M : Type} (t : Tree B M) : Decidable (parentConsistent t) := by
unfold parentConsistent
infer_instance

/-- The `f32` square root of a visit count, interpreted with `Nat.sqrt`.
Wherever the theorems below depend on its value it is applied to perfect
squares (0 and 1), on which `f32` square root is also exact; the tie-breaking
statements additionally quantify over an arbitrary interpretation. -/
def fsqrtQ (n : ℕ) : F :=
((((List.range (n + 1)).filter fun k => k * k ≤ n).length - 1 : ℕ) : F)

/-- A one-move game: board `0` has a single move leading to board `1`, which
is a draw.  Used as a concrete instance of the game interface. -/
def lineGame : GameOps ℕ Unit :=
{ isDone := fun b => decide (b ≠ 0)
  outcome := fun b => if b = 0 then none else some .draw
  nextPlayer := fun _ => .a
  availableMoves := fun b => if b = 0 then [()] else []
  play := fun b _ => b + 1 }

/-- A uniform network for `lineGame`: every evaluated board has one legal
move. -/
def lineNetwork : ℕ → ZeroEvaluation := fun _ => ⟨⟨0, 1, 0⟩, [1]⟩

/-- A full search on `lineGame` with `target_visits = 3` and `batch_size = 2`. -/
def lineRun : Except String (Tree ℕ Unit × ℕ) :=
zeroBuildTree lineGame fsqrtQ lineNetwork 20 20 0 3 ⟨2, 2⟩

/-- A two-ply game: boards `0` and `1` offer the moves `false` and `true`
(both advancing the depth by one), board `2` is a draw. -/
def depth2Game : GameOps ℕ Bool :=
{ isDone := fun b => decide (2 ≤ b)
  outcome := fun b => if b < 2 then none else some .draw
  nextPlayer := fun _ => .a
  availableMoves := fun b => if b < 2 then [false, true] else []
  play := fun b _ => b + 1 }

/-- A uniform network for `depth2Game`: every evaluated (non-terminal) board
has two legal moves. -/
def depth2Network : ℕ → ZeroEvaluation := fun _ => ⟨⟨0, 1, 0⟩, [1/2, 1/2]⟩

/-- `batch_size = 1`, `exploration_weight = 2`. -/
def depth2Settings : ZeroSettings := ⟨1, 2⟩

/-- The empty tree, used only as the default of impossible match arms. -/
def noTreeB : Tree ℕ Bool := ⟨0, []⟩

/-- First driver step on `depth2Game` (target 2 visits): expands the root and
yields the first request. -/
def depth2Run1 : Except String (ZeroState ℕ Bool × RunResult ℕ) :=
match Tree.new depth2Game 0 with
| .error e => .error e
| .ok t => runUntilResult depth2Game fsqrtQ 20 (ZeroState.new t 2 depth2Settings) none

/-- Feed the pending requests of a `runUntilResult` result through
`depth2Network` and run the next step. -/
def depth2Step (prev : Except String (ZeroState ℕ Bool × RunResult ℕ)) :
    Except String (ZeroState ℕ Bool × RunResult ℕ) :=
match prev with
| .error e => .error e
| .ok (st, .request subs) =>
  runUntilResult depth2Game fsqrtQ 20 st
    (some (subs.map fun sub => ⟨sub, depth2Network sub.currBoard⟩))
| .ok (_, .done) => .error "unexpected done"

/-- Second driver step: applies the root evaluation, then walks again —
hitting the tie between the two fresh children — and yields the second
request. -/
def depth2Run2 : Except String (ZeroState ℕ Bool × RunResult ℕ) := depth2Step depth2Run1

/-- Third driver step: applies the second evaluation and finishes. -/
def depth2Run3 : Except String (ZeroState ℕ Bool × RunResult ℕ) := depth2Step depth2Run2

/-- The finished two-level tree of the `depth2Game` search. -/
def depth2FinalTree : Tree ℕ Bool :=
match depth2Run3 with
| .ok (st, _) => st.tree
| _ => noTreeB

/-- The search state right after the root evaluation has been applied (the
exact state in which the tie-breaking child selection of the second walk
runs). -/
def depth2AppliedState : ZeroState ℕ Bool :=
match depth2Run1 with
| .ok (st, .request subs) =>
  match applyEval depth2Game st (subs.map fun sub => ⟨sub, depth2Network sub.currBoard⟩) with
  | .ok st' => st'
  | .error _ => ZeroState.new noTreeB 0 ⟨0, 0⟩
| _ => ZeroState.new noTreeB 0 ⟨0, 0⟩

/-- The tree in which both root children have equal PUCT scores. -/
def tieTree : Tree ℕ Bool := depth2AppliedState.tree

/-- The node index for which a walk yielded an evaluation request, if any. -/
def walkRequestNode {B M : Type} : Except String (WalkResult B M) → Option ℕ
| .ok (.request _ n _) => some n
| _ => none

/-- The tree produced by the completed `lineGame` search. -/
def lineRunTree : Tree ℕ Unit :=
match lineRun with
| .ok p => p.1
| _ => ⟨0, []⟩

/-- `keep_move` applied to the finished two-level tree, keeping the move
`true` (the more-visited child). -/
def keepResult3 : Except String (KeepResult ℕ Bool) :=
Tree.keepMove depth2Game depth2FinalTree true

/-- The new tree produced by that `keep_move`. -/
def keptTree3 : Tree ℕ Bool :=
match keepResult3 with
| .ok (.tree t) => t
| _ => noTreeB

end NonSolve

namespace Step

/-! Embedding of `alpha-zero/src/zero/step.rs` (`tree_propagate_values` and
`zero_step_apply`).  The files `zero/node.rs`, `zero/tree.rs` and
`zero/range.rs` that this module uses are not under `src/`; the types they
define are modelled from the spec (§3 "Data model" and §4.2 "Step engine"),
reusing the `IdxRange` embedded from `non_solve_zero.rs` (the spec describes
the same `(start, length)` layout for both). -/

/-- Modelled from the spec: `ZeroValues` of the missing `zero/node.rs` — the
propagated value tuple "(value, WDL triple, moves-left)". -/
structure ZeroValues where
value : F
wdl : WDL
movesLeft : F
deriving DecidableEq, Repr

/-- Modelled from the spec: perspective flip of a value tuple (negate the
scalar value, swap win and loss). -/
def ZeroValues.flip (v : ZeroValues) : ZeroValues :=
{ value := -v.value, wdl := v.wdl.flip, movesLeft := v.movesLeft }

/-- Modelled from the spec: the per-hop transformation of propagation —
"perspective alternates on each hop", and the node is one move further from
the end of the game than its child. -/
def ZeroValues.parent (v : ZeroValues) : ZeroValues :=
{ value := -v.value, wdl := v.wdl.flip, movesLeft := v.movesLeft + 1 }

/-- Component-wise addition (`sum_values += values`). -/
def ZeroValues.add (v w : ZeroValues) : ZeroValues :=
{ value := v.value + w.value, wdl := v.wdl + w.wdl, movesLeft := v.movesLeft + w.movesLeft }

instance : Add ZeroValues := ⟨ZeroValues.add⟩

/-- The all-zero value tuple. -/
def ZeroValues.zero : ZeroValues := ⟨0, WDL.default, 0⟩

/-- `ZeroValues::from_outcome`: the exact value tuple of a decided outcome. -/
def ZeroValues.fromOutcome (o : OutcomeWDL) : ZeroValues :=
{ value := o.toWdl.value, wdl := o.toWdl, movesLeft := 0 }

/-- `v.parent` iterated `k` times. -/
def ZeroValues.parentIter (v : ZeroValues) : ℕ → ZeroValues
| 0 => v
| k + 1 => v.parent.parentIter k

/-- Modelled from the spec (§3): a node of the step-engine arena.  `parent`
is optional (the root has none), `children` is an optional contiguous range,
`net_values` is the optional network estimate, and the visit counters are
split into completed and in-flight ("virtual") visits. -/
structure Node (M : Type) where
parent : Option ℕ
lastMove : Option M
children : Option NonSolve.IdxRange
netValues : Option ZeroValues
netPolicy : F
completeVisits : ℕ
virtualVisits : ℕ
sumValues : ZeroValues
deriving DecidableEq, Repr

/-- `Node::new` as used by `zero_step_gather`: a fresh unexpanded, unvisited
node. -/
def Node.new {M : Type} (parent : Option ℕ) (lastMove : Option M) (p : F) : Node M :=
{ parent := parent
  lastMove := lastMove
  children := none
  netValues := none
  netPolicy := p
  completeVisits := 0
  virtualVisits := 0
  sumValues := ZeroValues.zero }

instance {M : Type} : Inhabited (Node M) := ⟨Node.new none none 0⟩

/-- Modelled from the spec (§3): a tree is a root board plus the node
arena. -/
structure Tree (B M : Type) where
rootBoard : B
nodes : List (Node M)
deriving DecidableEq, Repr

/-- `tree[index]`; out-of-range access (a panic in the source) yields the
default node, and is never exercised by the theorems below. -/
def Tree.get {B M : Type} (t : Tree B M) (index : ℕ) : Node M :=
t.nodes.getD index default

/-- `Tree::len`. -/
def Tree.len {B M : Type} (t : Tree B M) : ℕ := t.nodes.length

/-- `ZeroResponse` of `zero/step.rs`: the node a request was yielded for, its
board, and the network evaluation (values plus one policy entry per child). -/
structure ZeroResponse (B : Type) where
node : ℕ
board : B
values : ZeroValues
policy : List F
deriving DecidableEq, Repr

/-- `tree_propagate_values` of `alpha-zero/src/zero/step.rs`: walk from
`node` to the root; at each step first transform the value tuple with
`parent()`, then add it to the node's `sum_values`, complete one visit and
release one virtual visit (asserting one was pending). -/
def treePropagateValues {B M : Type} :
    ℕ → Tree B M → ℕ → ZeroValues → Except String (Tree B M)
| 0, _, _, _ => .error "tree_propagate_values: fuel"
| fuel + 1, t, currIndex, values =>
  let values := values.parent
  let n := t.get currIndex
  if n.virtualVisits = 0 then .error "assertion failed: virtual_visits > 0"
  else
    let n' := { n with
      completeVisits := n.completeVisits + 1
      virtualVisits := n.virtualVisits - 1
      sumValues := n.sumValues + values }
    let t' : Tree B M := { t with nodes := t.nodes.set currIndex n' }
    match n.parent with
    | some parent => treePropagateValues fuel t' parent values
    | none => .ok t'

/-- One iteration of the policy-copy loop of `zero_step_apply`: write
`policy[i]` to the `net_policy` of child `children.get(i)`. -/
def copyStep {B M : Type} (children : NonSolve.IdxRange) (policy : List F)
    (t : Tree B M) (i : ℕ) : Tree B M :=
let c := children.get i
let updated := { t.get c with netPolicy := policy.getD i 0 }
{ t with nodes := t.nodes.set c updated }

/-- The policy-copy loop of `zero_step_apply`. -/
def copyPolicies {B M : Type} (t : Tree B M) (children : NonSolve.IdxRange)
    (policy : List F) : Tree B M :=
(List.range policy.length).foldl (copyStep children policy) t

/-- `zero_step_apply` of `alpha-zero/src/zero/step.rs`: reject a node that
already has `net_values`, store the response values, propagate them to the
root, then check the child count against the policy length and copy the
priors onto the children. -/
def zeroStepApply {B M : Type} (fuel : ℕ) (t : Tree B M) (response : ZeroResponse B) :
    Except String (Tree B M) :=
let currNode := response.node
if (t.get currNode).netValues.isSome then
  .error "Node was already evaluated by the network"
else
  let updated := { t.get currNode with netValues := some response.values }
  let t := { t with nodes := t.nodes.set currNode updated }
  match treePropagateValues fuel t currNode response.values with
  | .error e => .error e
  | .ok t =>
    match (t.get currNode).children with
    | none => .error "Applied node should have initialized children"
    | some children =>
      if children.length ≠ response.policy.length then .error "Wrong children length"
      else .ok (copyPolicies t children response.policy)

/-- A concrete post-gather tree: the root has just been expanded by
`zero_step_gather` (two fresh children with uniform prior `1.0`, a recorded
child range, one pending virtual visit on the root, no `net_values` yet). -/
def freshRootTree : Tree Unit Unit :=
{ rootBoard := ()
  nodes :=
    [{ Node.new none none 0 with
        children := some ⟨1, 2⟩
        virtualVisits := 1 },
      Node.new (some 0) (some ()) 1,
      Node.new (some 0) (some ()) 1] }

/-- A response for the freshly expanded root: scalar value `1` (a win for
the player to move at the root), WDL `(1,0,0)`, two uniform policy entries. -/
def freshRootResponse : ZeroResponse Unit :=
{ node := 0
  board := ()
  values := ⟨1, ⟨1, 0, 0⟩, 0⟩
  policy := [1/2, 1/2] }

/-- The tree obtained by propagating the fresh root response's values from
the root of `freshRootTree`. -/
def freshPropagated : Tree Unit Unit :=
match treePropagateValues 5 freshRootTree 0 freshRootResponse.values with
| .ok t => t
| .error _ => freshRootTree

/-- The tree obtained by fully applying the fresh root response. -/
def appliedFresh : Tree Unit Unit :=
match zeroStepApply 5 freshRootTree freshRootResponse with
| .ok t => t
| .error _ => freshRootTree

end Step

namespace Chess

/-! Embedding of `alpha-zero/src/mapping/chess.rs`: the 73-plane chess policy
mapping and the board input encoding.  The `chess` crate's `Square`,
`ChessMove`, `Color`, `Piece` (external collaborators) are modelled
structurally; squares are valid by construction, as in the crate. -/

/-- `chess::Color`. -/
inductive Color where
| white
| black
deriving DecidableEq, Repr

/-- `!color`. -/
def Color.other : Color → Color
| .white => .black
| .black => .white

/-- `chess::Piece`, in the order of `chess::ALL_PIECES`. -/
inductive Piece where
| pawn
| knight
| bishop
| rook
| queen
| king
deriving DecidableEq, Repr

/-- `chess::Square`: a rank and a file, both in `0..8`. -/
structure Square where
rank : Fin 8
file : Fin 8
deriving DecidableEq, Repr

/-- `Square::to_index`: `rank * 8 + file`. -/
def Square.toIndex (sq : Square) : ℕ := sq.rank.val * 8 + sq.file.val

/-- `chess::ChessMove`: source, destination, optional promotion piece. -/
structure ChessMove where
source : Square
dest : Square
promotion : Option Piece
deriving DecidableEq, Repr

/-- `QUEEN_DIRECTIONS`: clockwise starting from N, as `(rank, file)` deltas. -/
def QUEEN_DIRECTIONS : List (ℤ × ℤ) :=
[(1, 0), (1, 1), (0, 1), (-1, 1), (-1, 0), (-1, -1), (0, -1), (1, -1)]

/-- `KNIGHT_DELTAS`: clockwise starting from NNE. -/
def KNIGHT_DELTAS : List (ℤ × ℤ) :=
[(2, 1), (1, 2), (-1, 2), (-2, 1), (-2, -1), (-1, -2), (1, -2), (2, -1)]

/-- `UNDERPROMOTION_PIECES`. -/
def UNDERPROMOTION_PIECES : List Piece := [.rook, .bishop, .knight]

/-- `QUEEN_CHANNELS = 8 × 7`. -/
def QUEEN_CHANNELS : ℕ := 7 * 8

/-- `KNIGHT_CHANNELS`. -/
def KNIGHT_CHANNELS : ℕ := 8

/-- `UNDERPROMOTION_CHANNELS = 3 × 3`. -/
def UNDERPROMOTION_CHANNELS : ℕ := 3 * 3

/-- `POLICY_CHANNELS = 56 + 8 + 9 = 73`. -/
def POLICY_CHANNELS : ℕ := QUEEN_CHANNELS + KNIGHT_CHANNELS + UNDERPROMOTION_CHANNELS

/-- `ChessStdMapper::POLICY_SIZE = 73 × 8 × 8`. -/
def POLICY_SIZE : ℕ := POLICY_CHANNELS * 8 * 8

/-- `square_from_index` (the source asserts `index < 64`). -/
def squareFromIndex (index : ℕ) : Option Square :=
if h : index < 64 then
  some ⟨⟨index / 8, by omega⟩, ⟨index % 8, by omega⟩⟩
else none

/-- `square(rank, file)`: `Some` exactly when both coordinates are on the
board. -/
def square (rank file : ℤ) : Option Square :=
if h : 0 ≤ rank ∧ rank < 8 ∧ 0 ≤ file ∧ file < 8 then
  some ⟨⟨rank.toNat, by omega⟩, ⟨file.toNat, by omega⟩⟩
else none

/-- `square_pov`: rank-flip for black, identity for white (usable in both
directions). -/
def squarePov (pov : Color) (sq : Square) : Square :=
match pov with
| .white => sq
| .black => ⟨⟨7 - sq.rank.val, by omega⟩, sq.file⟩

/-- `move_pov`. -/
def movePov (pov : Color) (mv : ChessMove) : ChessMove :=
{ source := squarePov pov mv.source
  dest := squarePov pov mv.dest
  promotion := mv.promotion }

/-- `ClassifiedPovMove`. -/
inductive ClassifiedPovMove where
| queen (direction : ℕ) (distanceM1 : ℕ)
| knight (direction : ℕ)
| underPromotion (direction : ℕ) (piece : ℕ)
deriving DecidableEq, Repr

/-- `ClassifiedPovMove::from_move`.  The source panics when no move type
matches; that case is `none` here. -/
def ClassifiedPovMove.fromMove (mv : ChessMove) : Option ClassifiedPovMove :=
let rankDelta : ℤ := (mv.dest.rank.val : ℤ) - (mv.source.rank.val : ℤ)
let fileDelta : ℤ := (mv.dest.file.val : ℤ) - (mv.source.file.val : ℤ)
let underpromo : Option ClassifiedPovMove :=
  match mv.promotion with
  | some piece =>
    (UNDERPROMOTION_PIECES.indexOf? piece).map
      (fun pieceIdx => .underPromotion (fileDelta.sign + 1).toNat pieceIdx)
  | none => none
match underpromo with
| some c => some c
| none =>
  let queenCase : Option ClassifiedPovMove :=
    match QUEEN_DIRECTIONS.indexOf? (rankDelta.sign, fileDelta.sign) with
    | some direction =>
      let distance : ℤ := (max rankDelta.natAbs fileDelta.natAbs : ℕ)
      let dir := QUEEN_DIRECTIONS.getD direction (0, 0)
      if rankDelta = dir.1 * distance ∧ fileDelta = dir.2 * distance then
        some (.queen direction (distance - 1).toNat)
      else none
    | none => none
  match queenCase with
  | some c => some c
  | none => (KNIGHT_DELTAS.indexOf? (rankDelta, fileDelta)).map .knight

/-- `ClassifiedPovMove::to_channel`; the `assert!`s become `none`. -/
def ClassifiedPovMove.toChannel : ClassifiedPovMove → Option ℕ
| .queen direction distanceM1 =>
  if direction < 8 ∧ distanceM1 < 7 then some (direction * 7 + distanceM1) else none
| .knight direction =>
  if direction < 8 then some (QUEEN_CHANNELS + direction) else none
| .underPromotion direction piece =>
  if direction < 3 ∧ piece < 3 then
    some (QUEEN_CHANNELS + KNIGHT_CHANNELS + direction * 3 + piece)
  else none

/-- `ClassifiedPovMove::from_channel` (the source asserts
`channel < POLICY_CHANNELS`). -/
def ClassifiedPovMove.fromChannel (channel : ℕ) : Option ClassifiedPovMove :=
if channel < QUEEN_CHANNELS then
  some (.queen (channel / 7) (channel % 7))
else if channel < QUEEN_CHANNELS + KNIGHT_CHANNELS then
  some (.knight (channel - QUEEN_CHANNELS))
else if channel < POLICY_CHANNELS then
  some (.underPromotion ((channel - (QUEEN_CHANNELS + KNIGHT_CHANNELS)) / 3)
    ((channel - (QUEEN_CHANNELS + KNIGHT_CHANNELS)) % 3))
else none

/-- `ClassifiedPovMove::to_move`: reconstruct the POV move from a
classification and the source square; out-of-board destinations (and
out-of-range table indices, which panic in the source) give `none`. -/
def ClassifiedPovMove.toMove (c : ClassifiedPovMove) (movingPawn : Bool)
    (from_ : Square) : Option ChessMove :=
match c with
| .queen direction distanceM1 =>
  match QUEEN_DIRECTIONS.get? direction with
  | none => none
  | some dir =>
    let distance : ℤ := (distanceM1 : ℤ) + 1
    match square ((from_.rank.val : ℤ) + distance * dir.1)
        ((from_.file.val : ℤ) + distance * dir.2) with
    | none => none
    | some toSq =>
      let toBackrank := toSq.rank.val = 7
      let promotion := if movingPawn ∧ toBackrank then some Piece.queen else none
      some ⟨from_, toSq, promotion⟩
| .knight direction =>
  match KNIGHT_DELTAS.get? direction with
  | none => none
  | some d =>
    match square ((from_.rank.val : ℤ) + d.1) ((from_.file.val : ℤ) + d.2) with
    | none => none
    | some toSq => some ⟨from_, toSq, none⟩
| .underPromotion direction piece =>
  match square 7 ((from_.file.val : ℤ) + ((direction : ℤ) - 1)) with
  | none => none
  | some toSq =>
    match UNDERPROMOTION_PIECES.get? piece with
    | none => none
    | some promo => some ⟨from_, toSq, some promo⟩

/-- The `board_game::games::chess::ChessBoard` state, given through exactly
the accessors the mapper queries (the chess rules themselves are an external
collaborator, spec §1). -/
structure ChessPos where
sideToMove : Color
pieceOn : Square → Option Piece
colorOn : Square → Option Color
enPassant : Option Square
castleKingside : Color → Bool
castleQueenside : Color → Bool
repetitions : ℕ
gameLength : ℕ
nonPawnOrCaptureMoves : ℕ

/-- `ChessStdMapper::move_to_index`. -/
def moveToIndex (pos : ChessPos) (mvAbs : ChessMove) : Option ℕ :=
let mv := movePov pos.sideToMove mvAbs
match ClassifiedPovMove.fromMove mv with
| none => none
| some classified =>
  match classified.toChannel with
  | none => none
  | some channel =>
    if channel < POLICY_CHANNELS then
      let fromIndex := mv.source.toIndex
      let index := channel * 8 * 8 + fromIndex
      if index < POLICY_SIZE then some index else none
    else none

/-- `ChessStdMapper::index_to_move`. -/
def indexToMove (pos : ChessPos) (index : ℕ) : Option ChessMove :=
let channel := index / (8 * 8)
let fromIndex := index % (8 * 8)
match ClassifiedPovMove.fromChannel channel with
| none => none
| some classified =>
  match squareFromIndex fromIndex with
  | none => none
  | some from_ =>
    let fromAbs := squarePov pos.sideToMove from_
    let movingPawn := pos.pieceOn fromAbs = some Piece.pawn
    match classified.toMove movingPawn from_ with
    | none => none
    | some mv => some (movePov pos.sideToMove mv)

/-- Modelled from the spec: the geometric facts that legality of a chess move
provides (the move generator itself lives in the external `chess` crate and
is out of scope, §1).  In POV coordinates a legal move is a knight jump
without promotion, a queen-line move whose promotion is a queen exactly when
a pawn reaches the last rank, or an under-promotion of a pawn stepping from
the seventh to the eighth rank. -/
def LegalShape (pos : ChessPos) (mvAbs : ChessMove) : Prop :=
let mv := movePov pos.sideToMove mvAbs
let dr : ℤ := (mv.dest.rank.val : ℤ) - (mv.source.rank.val : ℤ)
let df : ℤ := (mv.dest.file.val : ℤ) - (mv.source.file.val : ℤ)
((dr, df) ∈ KNIGHT_DELTAS ∧ mvAbs.promotion = none)
∨ (¬ (dr = 0 ∧ df = 0)
   ∧ dr = dr.sign * (max dr.natAbs df.natAbs : ℕ)
   ∧ df = df.sign * (max dr.natAbs df.natAbs : ℕ)
   ∧ mvAbs.promotion =
      (if pos.pieceOn mvAbs.source = some Piece.pawn ∧ mv.dest.rank.val = 7 then
        some Piece.queen
      else none))
∨ (∃ q ∈ UNDERPROMOTION_PIECES,
    mvAbs.promotion = some q
    ∧ pos.pieceOn mvAbs.source = some Piece.pawn
    ∧ dr = 1 ∧ df.natAbs ≤ 1 ∧ mv.source.rank.val = 6)

instance (pos : ChessPos) (mvAbs : ChessMove) : Decidable (LegalShape pos mvAbs) := by
unfold LegalShape
infer_instance

/-- `chess::ALL_COLORS`: White then Black. -/
def ALL_COLORS : List Color := [.white, .black]

/-- `chess::ALL_PIECES` in order. -/
def ALL_PIECES : List Piece := [.pawn, .knight, .bishop, .rook, .queen, .king]

/-- The ranks traversed by the encoder: `ALL_RANKS` for white to move,
`ALL_RANKS_REV` for black. -/
def povRanks (c : Color) : List (Fin 8) :=
match c with
| .white => List.finRange 8
| .black => (List.finRange 8).reverse

/-- The 64 squares in the encoder's traversal order (POV ranks outer, files
inner). -/
def squaresPov (c : Color) : List Square :=
(povRanks c).flatMap fun r => (List.finRange 8).map fun f => Square.mk r f

/-- `INPUT_CHANNELS = 2 + (2 * 6) + 1 + (2 * 2) + 4`. -/
def INPUT_CHANNELS : ℕ := 2 + (2 * 6) + 1 + (2 * 2) + 4

/-- The two leading side-to-move indicator planes of `append_board_to`
(the "absolute reference for the current player"). -/
def stmPlanes (pos : ChessPos) : List ℚ :=
ALL_COLORS.flatMap fun color =>
  List.replicate (8 * 8) (if pos.sideToMove = color then 1 else 0)

/-- The remaining planes of `append_board_to`, in order: piece planes for
`{us, them} × {P,N,B,R,Q,K}`, the en-passant plane, four castling planes,
two repetition planes, two move-counter planes. -/
def mainPlanes (pos : ChessPos) : List ℚ :=
let povColors := [pos.sideToMove, pos.sideToMove.other]
(povColors.flatMap fun color =>
  ALL_PIECES.flatMap fun piece =>
    (squaresPov pos.sideToMove).map fun sq =>
      if pos.colorOn sq = some color ∧ pos.pieceOn sq = some piece then 1 else 0)
++ ((squaresPov pos.sideToMove).map fun sq =>
    if pos.enPassant = some sq then 1 else 0)
++ (povColors.flatMap fun color =>
    List.replicate (8 * 8) (if pos.castleKingside color then (1 : ℚ) else 0)
    ++ List.replicate (8 * 8) (if pos.castleQueenside color then (1 : ℚ) else 0))
++ List.replicate (8 * 8) ((pos.repetitions % 2 : ℕ) : ℚ)
++ List.replicate (8 * 8) ((pos.repetitions / 2 : ℕ) : ℚ)
++ List.replicate (8 * 8) ((pos.gameLength : ℕ) : ℚ)
++ List.replicate (8 * 8) ((pos.nonPawnOrCaptureMoves : ℕ) : ℚ)

/-- `ChessStdMapper::append_board_to`: extend `result` with all planes of one
board. -/
def appendBoardTo (result : List ℚ) (pos : ChessPos) : List ℚ :=
result ++ stmPlanes pos ++ mainPlanes pos

/-- The plane list that §4.4 of the spec describes, written from the spec's
words: "for each side `{us, them}`, a 64-bit plane per piece type
`{P, N, B, R, Q, K}`; an en-passant plane; four castling-right scalar planes
broadcast across the board; two repetition-counter planes; two move-counter
planes" — with no side-to-move planes.
Its enumeration amounts to 21 channels (12 piece planes, 1 en-passant,
4 castling, 2 repetition, 2 move counters); the spec nevertheless counts
"19". -/
def specPlanes (pos : ChessPos) : List ℚ :=
let povColors := [pos.sideToMove, pos.sideToMove.other]
(povColors.flatMap fun color =>
  ALL_PIECES.flatMap fun piece =>
    (squaresPov pos.sideToMove).map fun sq =>
      if pos.colorOn sq = some color ∧ pos.pieceOn sq = some piece then 1 else 0)
++ ((squaresPov pos.sideToMove).map fun sq =>
    if pos.enPassant = some sq then 1 else 0)
++ (povColors.flatMap fun color =>
    List.replicate (8 * 8) (if pos.castleKingside color then (1 : ℚ) else 0)
    ++ List.replicate (8 * 8) (if pos.castleQueenside color then (1 : ℚ) else 0))
++ List.replicate (8 * 8) ((pos.repetitions % 2 : ℕ) : ℚ)
++ List.replicate (8 * 8) ((pos.repetitions / 2 : ℕ) : ℚ)
++ List.replicate (8 * 8) ((pos.gameLength : ℕ) : ℚ)
++ List.replicate (8 * 8) ((pos.nonPawnOrCaptureMoves : ℕ) : ℚ)

/-- An empty chess position with white to move; the simplest concrete input
for evaluating the encoder. -/
def emptyPos : ChessPos :=
{ sideToMove := .white
  pieceOn := fun _ => none
  colorOn := fun _ => none
  enPassant := none
  castleKingside := fun _ => false
  castleQueenside := fun _ => false
  repetitions := 0
  gameLength := 0
  nonPawnOrCaptureMoves := 0 }

/-- A position with a single white pawn on e2 (rank 1, file 4). -/
def e2PawnPos : ChessPos :=
{ emptyPos with
  pieceOn := fun sq => if sq = ⟨1, 4⟩ then some Piece.pawn else none
  colorOn := fun sq => if sq = ⟨1, 4⟩ then some Color.white else none }

/-- The double pawn push e2–e4. -/
def e2e4 : ChessMove := ⟨⟨1, 4⟩, ⟨3, 4⟩, none⟩

end Chess

namespace Proto

/-! Embedding of `kz-selfplay/src/server/protocol.rs`: the line-delimited
JSON command schema.  The deserializers follow serde's documented derive
semantics: a struct with `#[serde(deny_unknown_fields)]` rejects unknown
keys, a struct without it ignores them; an externally tagged enum rejects
unknown variant names; `Option` fields may be absent or `null`. -/

/-- A JSON value. -/
inductive Json where
| null
| bool (b : Bool)
| num (q : ℚ)
| str (s : String)
| arr (elems : List Json)
| obj (fields : List (String × Json))
deriving Repr

/-- Look up a key in a JSON object's field list. -/
def getField (fields : List (String × Json)) (name : String) : Option Json :=
(fields.find? (fun kv => kv.1 = name)).map (fun kv => kv.2)

/-- Deserialize a string. -/
def asStr : Json → Except String String
| .str s => .ok s
| _ => .error "expected string"

/-- Deserialize a boolean. -/
def asBool : Json → Except String Bool
| .bool b => .ok b
| _ => .error "expected bool"

/-- Deserialize an unsigned integer (`u32`, `u64`, `usize`). -/
def asNat : Json → Except String ℕ
| .num q => if q.den = 1 ∧ 0 ≤ q.num then .ok q.num.toNat else .error "expected unsigned integer"
| _ => .error "expected unsigned integer"

/-- Deserialize a float (`f32`, `f64`), modelled as `ℚ`. -/
def asNum : Json → Except String ℚ
| .num q => .ok q
| _ => .error "expected number"

/-- A required field of the given object. -/
def reqField (fields : List (String × Json)) (name : String) {A : Type}
    (parse : Json → Except String A) : Except String A :=
match getField fields name with
| none => .error ("missing field " ++ name)
| some j => parse j

/-- An `Option<T>` field: absent or `null` is `None`. -/
def optField (fields : List (String × Json)) (name : String) {A : Type}
    (parse : Json → Except String A) : Except String (Option A) :=
match getField fields name with
| none => .ok none
| some .null => .ok none
| some j => Except.map some (parse j)

/-- `StartupSettings` of `kz-selfplay/src/server/protocol.rs`. -/
structure StartupSettings where
game : String
muzero : Bool
firstGen : ℕ
outputFolder : String
gamesPerGen : ℕ
cpuThreadsPerDevice : ℕ
gpuThreadsPerDevice : ℕ
gpuBatchSize : ℕ
gpuBatchSizeRoot : ℕ
savedStateChannels : ℕ
deriving DecidableEq, Repr

/-- The field names of `StartupSettings`. -/
def startupFieldNames : List String :=
["game", "muzero", "first_gen", "output_folder", "games_per_gen",
 "cpu_threads_per_device", "gpu_threads_per_device", "gpu_batch_size",
 "gpu_batch_size_root", "saved_state_channels"]

/-- The derived deserializer of `StartupSettings`.  The struct does **not**
carry `#[serde(deny_unknown_fields)]`, so unknown keys are ignored. -/
def deserStartupSettings : Json → Except String StartupSettings
| .obj fields =>
  match reqField fields "game" asStr with
  | .error e => .error e
  | .ok game =>
  match reqField fields "muzero" asBool with
  | .error e => .error e
  | .ok muzero =>
  match reqField fields "first_gen" asNat with
  | .error e => .error e
  | .ok firstGen =>
  match reqField fields "output_folder" asStr with
  | .error e => .error e
  | .ok outputFolder =>
  match reqField fields "games_per_gen" asNat with
  | .error e => .error e
  | .ok gamesPerGen =>
  match reqField fields "cpu_threads_per_device" asNat with
  | .error e => .error e
  | .ok cpu =>
  match reqField fields "gpu_threads_per_device" asNat with
  | .error e => .error e
  | .ok gpu =>
  match reqField fields "gpu_batch_size" asNat with
  | .error e => .error e
  | .ok gpuBatch =>
  match reqField fields "gpu_batch_size_root" asNat with
  | .error e => .error e
  | .ok gpuBatchRoot =>
  match reqField fields "saved_state_channels" asNat with
  | .error e => .error e
  | .ok saved =>
    .ok ⟨game, muzero, firstGen, outputFolder, gamesPerGen, cpu, gpu, gpuBatch,
      gpuBatchRoot, saved⟩
| _ => .error "expected object"

/-- `Weights` (no `deny_unknown_fields`; all fields are `Option<f32>`). -/
structure Weights where
explorationWeight : Option ℚ
movesLeftWeight : Option ℚ
movesLeftClip : Option ℚ
movesLeftSharpness : Option ℚ
deriving DecidableEq, Repr

/-- The derived deserializer of `Weights`. -/
def deserWeights : Json → Except String Weights
| .obj fields => do
  let ew ← optField fields "exploration_weight" asNum
  let mlw ← optField fields "moves_left_weight" asNum
  let mlc ← optField fields "moves_left_clip" asNum
  let mls ← optField fields "moves_left_sharpness" asNum
  .ok ⟨ew, mlw, mlc, mls⟩
| _ => .error "expected object"

/-- `Settings` of `kz-selfplay/src/server/protocol.rs`. -/
structure Settings where
maxGameLength : Option ℕ
weights : Weights
useValue : Bool
randomSymmetries : Bool
temperature : ℚ
zeroTempMoveCount : ℕ
dirichletAlpha : ℚ
dirichletEps : ℚ
fullSearchProb : ℚ
fullIterations : ℕ
partIterations : ℕ
topMoves : ℕ
cacheSize : ℕ
deriving DecidableEq, Repr

/-- The field names of `Settings`. -/
def settingsFieldNames : List String :=
["max_game_length", "weights", "use_value", "random_symmetries", "temperature",
 "zero_temp_move_count", "dirichlet_alpha", "dirichlet_eps", "full_search_prob",
 "full_iterations", "part_iterations", "top_moves", "cache_size"]

/-- The derived deserializer of `Settings`: this struct **does** carry
`#[serde(deny_unknown_fields)]`, so any unknown key is an error. -/
def deserSettings : Json → Except String Settings
| .obj fields =>
  if ¬ fields.all (fun kv => kv.1 ∈ settingsFieldNames) then
    .error "unknown field"
  else do
    let mgl ← optField fields "max_game_length" asNat
    let weights ← reqField fields "weights" deserWeights
    let useValue ← reqField fields "use_value" asBool
    let randomSymmetries ← reqField fields "random_symmetries" asBool
    let temperature ← reqField fields "temperature" asNum
    let ztmc ← reqField fields "zero_temp_move_count" asNat
    let da ← reqField fields "dirichlet_alpha" asNum
    let de ← reqField fields "dirichlet_eps" asNum
    let fsp ← reqField fields "full_search_prob" asNum
    let fi ← reqField fields "full_iterations" asNat
    let pi_ ← reqField fields "part_iterations" asNat
    let tm ← reqField fields "top_moves" asNat
    let cs ← reqField fields "cache_size" asNat
    .ok ⟨mgl, weights, useValue, randomSymmetries, temperature, ztmc, da, de,
      fsp, fi, pi_, tm, cs⟩
| _ => .error "expected object"

/-- `Command` of `kz-selfplay/src/server/protocol.rs`. -/
inductive Command where
| startupSettings (s : StartupSettings)
| newSettings (s : Settings)
| newNetwork (path : String)
| waitForNewNetwork
| stop
deriving DecidableEq, Repr

/-- The derived deserializer of the externally-tagged `Command` enum: a bare
string names a unit variant, a one-key object names a data variant; anything
else — in particular an unknown variant name — is an error. -/
def deserCommand : Json → Except String Command
| .str s =>
  if s = "WaitForNewNetwork" then .ok .waitForNewNetwork
  else if s = "Stop" then .ok .stop
  else .error "unknown variant"
| .obj [(name, payload)] =>
  if name = "StartupSettings" then Except.map .startupSettings (deserStartupSettings payload)
  else if name = "NewSettings" then Except.map .newSettings (deserSettings payload)
  else if name = "NewNetwork" then Except.map .newNetwork (asStr payload)
  else if name = "WaitForNewNetwork" then
    match payload with
    | .null => .ok .waitForNewNetwork
    | _ => .error "invalid unit variant payload"
  else if name = "Stop" then
    match payload with
    | .null => .ok .stop
    | _ => .error "invalid unit variant payload"
  else .error "unknown variant"
| _ => .error "expected string or map"

/-- A `StartupSettings` command whose payload carries all schema fields plus
an extra unknown field `"bogus_field"`. -/
def startupWithUnknownField : Json :=
.obj [("StartupSettings", .obj
  [("game", .str "ataxx-7"),
   ("muzero", .bool false),
   ("first_gen", .num 0),
   ("output_folder", .str "out"),
   ("games_per_gen", .num 100),
   ("cpu_threads_per_device", .num 2),
   ("gpu_threads_per_device", .num 1),
   ("gpu_batch_size", .num 256),
   ("gpu_batch_size_root", .num 16),
   ("saved_state_channels", .num 32),
   ("bogus_field", .num 42)])]

end Proto

/-! ### Theorems -/

/-! Generic helper lemmas. -/

theorem getD_set {A : Type} (l : List A) (i j : ℕ) (a d : A) :
    (l.set i a).getD j d = if i = j ∧ j < l.length then a else l.getD j d := by
rw [List.getD_eq_getElem?_getD, List.getD_eq_getElem?_getD, List.getElem?_set]
by_cases hij : i = j
· subst hij
  by_cases hi : i < l.length
  · simp [hi]
  · simp [hi, List.getElem?_eq_none (by omega : l.length ≤ i)]
· simp [hij]

theorem exceptFoldl_preserve {A S : Type} (f : S → A → Except String S) (P : S → Prop)
    (hstep : ∀ s a s', P s → f s a = .ok s' → P s') :
    ∀ (l : List A) (s s' : S), P s → NonSolve.exceptFoldl f l s = .ok s' → P s' := by
intro l
induction l with
| nil => intro s s' hP h; cases h; assumption
| cons a rest ih =>
  intro s s' hP h
  unfold NonSolve.exceptFoldl at h
  cases hf : f s a with
  | error e => rw [hf] at h; cases h
  | ok s1 => rw [hf] at h; exact ih s1 s' (hstep s a s1 hP hf) h

/-- What one successful `propagate_wdl` run preserves and how it changes the
root's visit counter: the arena length, every node's structural fields and
the root board are unchanged; with `count_visit = false` no visit counter
changes, with `count_visit = true` the root's counter grows by exactly one
(the walk stops the first time it reaches index 0). -/
theorem NonSolve.propagateWdl_ok {B M : Type} :
    ∀ (fuel : ℕ) (t : NonSolve.Tree B M) (idx : ℕ) (wdl : WDL) (cv : Bool)
      (t' : NonSolve.Tree B M),
    NonSolve.Tree.propagateWdl fuel t idx wdl cv = .ok t' →
    t'.len = t.len
    ∧ (∀ j, (t'.get j).parent = (t.get j).parent ∧ (t'.get j).children = (t.get j).children
        ∧ (t'.get j).lastMove = (t.get j).lastMove ∧ (t'.get j).netWdl = (t.get j).netWdl
        ∧ (t'.get j).netPolicy = (t.get j).netPolicy)
    ∧ (cv = false → ∀ j, (t'.get j).visits = (t.get j).visits)
    ∧ (cv = true → 0 < t.len → (t'.get 0).visits = (t.get 0).visits + 1)
    ∧ t'.rootBoard = t.rootBoard := by
intro fuel
induction fuel with
| zero =>
  intro t idx wdl cv t' h
  exact absurd h (by simp [NonSolve.Tree.propagateWdl])
| succ fuel ih =>
  intro t idx wdl cv t' h
  unfold NonSolve.Tree.propagateWdl at h
  dsimp only at h
  split at h
  next hidx =>
    subst hidx
    cases h
    refine ⟨by simp [NonSolve.Tree.len], ?_, ?_, ?_, rfl⟩
    · intro j
      simp only [NonSolve.Tree.get, getD_set]
      split
      next hj =>
        obtain ⟨hj0, -⟩ := hj
        subst hj0
        simp
      next => exact ⟨rfl, rfl, rfl, rfl, rfl⟩
    · intro hcv j
      subst hcv
      simp only [NonSolve.Tree.get, getD_set]
      split
      next hj =>
        obtain ⟨hj0, -⟩ := hj
        subst hj0
        simp
      next => rfl
    · intro hcv hlen
      subst hcv
      simp only [NonSolve.Tree.get, getD_set]
      have : (0 = 0 ∧ 0 < t.nodes.length) := ⟨rfl, hlen⟩
      simp [this, NonSolve.Tree.len] at *
  next hidx =>
    have step := ih _ _ _ _ _ h
    obtain ⟨hlen, hstruct, hvf, hvt, hroot⟩ := step
    refine ⟨?_, ?_, ?_, ?_, ?_⟩
    · rw [hlen]; simp [NonSolve.Tree.len]
    · intro j
      have h2 := hstruct j
      simp only [NonSolve.Tree.get, getD_set] at h2 ⊢
      rcases h2 with ⟨h2a, h2b, h2c, h2d, h2e⟩
      rw [h2a, h2b, h2c, h2d, h2e]
      split
      next hj =>
        obtain ⟨hj0, -⟩ := hj
        subst hj0
        simp
      next => exact ⟨rfl, rfl, rfl, rfl, rfl⟩
    · intro hcv j
      have h2 := hvf hcv j
      simp only [NonSolve.Tree.get, getD_set] at h2 ⊢
      rw [h2]
      split
      next hj =>
        obtain ⟨hj0, -⟩ := hj
        subst hj0
        simp [hcv]
      next => rfl
    · intro hcv hlen0
      have h2 := hvt hcv (by simpa [NonSolve.Tree.len] using hlen0)
      simp only [NonSolve.Tree.get, getD_set] at h2 ⊢
      rw [h2]
      have hne : ¬ (idx = 0 ∧ 0 < t.nodes.length) := fun hc => hidx hc.1
      simp [hne]
    · simpa using hroot

/-- Reading an index in a list extended with freshly created nodes sees the
same `visits` counter as before (fresh nodes and the out-of-range default both
have zero visits). -/
theorem getD_append_visits {M : Type} (l : List (NonSolve.Node M)) (extra : List (NonSolve.Node M))
    (hextra : ∀ n ∈ extra, (n : NonSolve.Node M).visits = 0) (j : ℕ) :
    ((l ++ extra).getD j default).visits = (l.getD j default).visits := by
by_cases hj : j < l.length
· rw [List.getD_append _ _ _ _ hj]
· rw [List.getD_eq_getElem?_getD, List.getD_eq_getElem?_getD,
    List.getElem?_append_right (by omega), List.getElem?_eq_none (by omega : l.length ≤ j)]
  cases hx : extra[j - l.length]? with
  | none => simp
  | some n =>
    have hd : (default : NonSolve.Node M).visits = 0 := rfl
    simp [hextra n (List.getElem?_mem hx), hd]

/-- What one successful selection walk changes when it yields a request: the
root board is unchanged, the arena only grows, and no `visits` counter
changes (the expansion only appends fresh children and sets the expanded
node's `children` range and `net_wdl`). -/
theorem NonSolve.walk_ok {B M : Type} (g : GameOps B M) (fsqrt : ℕ → F)
    (st : NonSolve.ZeroSettings) :
    ∀ (fuel : ℕ) (t : NonSolve.Tree B M) (curr : ℕ) (board : B)
      (t' : NonSolve.Tree B M) (node : ℕ) (b' : B),
    NonSolve.walk g fsqrt st fuel t curr board = .ok (.request t' node b') →
    t'.rootBoard = t.rootBoard ∧ t.len ≤ t'.len
    ∧ (∀ j, (t'.get j).visits = (t.get j).visits) := by
intro fuel
induction fuel with
| zero =>
  intro t curr board t' node b' h
  exact absurd h (by simp [NonSolve.walk])
| succ fuel ih =>
  intro t curr board t' node b' h
  unfold NonSolve.walk at h
  dsimp only at h
  split at h
  · cases h
  · split at h
    · split at h
      · cases h
      · cases h
        refine ⟨rfl, by simp [NonSolve.Tree.len], ?_⟩
        intro j
        have hnew : ∀ n ∈ (g.availableMoves board).map
            (fun mv => NonSolve.Node.new curr (some mv) (1 : F)),
            (n : NonSolve.Node M).visits = 0 := by
          intro n hn
          simp at hn
          obtain ⟨mv, -, rfl⟩ := hn
          rfl
        simp only [NonSolve.Tree.get, getD_set]
        split
        next hj =>
          obtain ⟨hj0, -⟩ := hj
          subst hj0
          exact getD_append_visits _ _ hnew _
        next =>
          exact getD_append_visits _ _ hnew _
    · split at h
      · cases h
      · split at h
        · cases h
        · exact ih _ _ _ _ _ _ h

/-- Setting one arena slot to a node with the same visit counter, parent and
child range preserves those fields everywhere (and the root board and
length). -/
theorem NonSolve.set_preserves {B M : Type} (t : NonSolve.Tree B M) (i : ℕ)
    (n' : NonSolve.Node M)
    (hv : n'.visits = (t.get i).visits) (hp : n'.parent = (t.get i).parent)
    (hc : n'.children = (t.get i).children) :
    ({ t with nodes := t.nodes.set i n' } : NonSolve.Tree B M).rootBoard = t.rootBoard
    ∧ ({ t with nodes := t.nodes.set i n' } : NonSolve.Tree B M).len = t.len
    ∧ ∀ j, (({ t with nodes := t.nodes.set i n' } : NonSolve.Tree B M).get j).visits
          = (t.get j).visits
      ∧ (({ t with nodes := t.nodes.set i n' } : NonSolve.Tree B M).get j).parent
          = (t.get j).parent
      ∧ (({ t with nodes := t.nodes.set i n' } : NonSolve.Tree B M).get j).children
          = (t.get j).children := by
refine ⟨rfl, by simp [NonSolve.Tree.len], ?_⟩
intro j
simp only [NonSolve.Tree.get, getD_set]
split
next hj =>
  obtain ⟨hj0, -⟩ := hj
  subst hj0
  exact ⟨hv, hp, hc⟩
next => exact ⟨rfl, rfl, rfl⟩

/-- A successful `storePolicies` (the prior-writing loop of `apply_eval`)
changes only `net_policy` fields: root board, length, visit counters, parent
and child links are unchanged. -/
theorem NonSolve.storePolicies_ok {B M : Type} [DecidableEq M] (g : GameOps B M)
    (t : NonSolve.Tree B M) (currNode : ℕ) (board : B) (pol : List F)
    (t' : NonSolve.Tree B M) :
    NonSolve.storePolicies g t currNode board pol = .ok t' →
    t'.rootBoard = t.rootBoard ∧ t'.len = t.len
    ∧ ∀ j, (t'.get j).visits = (t.get j).visits
      ∧ (t'.get j).parent = (t.get j).parent
      ∧ (t'.get j).children = (t.get j).children := by
intro h
unfold NonSolve.storePolicies at h
split at h
· cases h
· split at h
  · cases h
  · refine exceptFoldl_preserve _
      (fun t2 => t2.rootBoard = t.rootBoard ∧ t2.len = t.len
        ∧ ∀ j, (t2.get j).visits = (t.get j).visits
          ∧ (t2.get j).parent = (t.get j).parent
          ∧ (t2.get j).children = (t.get j).children)
      ?_ _ t t' ⟨rfl, rfl, fun j => ⟨rfl, rfl, rfl⟩⟩ h
    intro s a s' hP hstep
    dsimp only at hstep
    split at hstep
    · cases hstep
    next mv hmv =>
      split at hstep
      · cases hstep
      next index hindex =>
        split at hstep
        · cases hstep
        next children hch =>
          cases hstep
          obtain ⟨hr, hl, hj⟩ := hP
          have hset := NonSolve.set_preserves s (children.get a)
            { s.get (children.get a) with netPolicy := pol.getD index 0 } rfl rfl rfl
          obtain ⟨hr2, hl2, hj2⟩ := hset
          refine ⟨hr2.trans hr, hl2.trans hl, ?_⟩
          intro j
          obtain ⟨h1, h2, h3⟩ := hj2 j
          obtain ⟨h4, h5, h6⟩ := hj j
          exact ⟨h1.trans h4, h2.trans h5, h3.trans h6⟩

/-- A successful `apply_eval` leaves every node's visit counter, parent and
child range unchanged (it writes `net_wdl`, priors, and propagates with
`count_visit = false`), clears `expected_nodes`, and keeps the root board,
arena length, target and settings. -/
theorem NonSolve.applyEval_ok {B M : Type} [DecidableEq M] (g : GameOps B M)
    (st : NonSolve.ZeroState B M) (responses : List (NonSolve.SubResponse B))
    (st' : NonSolve.ZeroState B M) :
    NonSolve.applyEval g st responses = .ok st' →
    st'.tree.rootBoard = st.tree.rootBoard ∧ st'.tree.len = st.tree.len
    ∧ (∀ j, (st'.tree.get j).visits = (st.tree.get j).visits
        ∧ (st'.tree.get j).parent = (st.tree.get j).parent
        ∧ (st'.tree.get j).children = (st.tree.get j).children)
    ∧ st'.targetIterations = st.targetIterations
    ∧ st'.settings = st.settings
    ∧ st'.expectedNodes = [] := by
intro h
unfold NonSolve.applyEval at h
split at h
· cases h
· split at h
  · cases h
  next t2 hfold =>
    cases h
    have hmain := exceptFoldl_preserve _
      (fun tx => tx.rootBoard = st.tree.rootBoard ∧ tx.len = st.tree.len
        ∧ ∀ j, (tx.get j).visits = (st.tree.get j).visits
          ∧ (tx.get j).parent = (st.tree.get j).parent
          ∧ (tx.get j).children = (st.tree.get j).children)
      ?_ _ st.tree t2 ⟨rfl, rfl, fun j => ⟨rfl, rfl, rfl⟩⟩ hfold
    · obtain ⟨hr, hl, hj⟩ := hmain
      exact ⟨hr, hl, hj, rfl, rfl, rfl⟩
    · intro s a s' hP hstep
      dsimp only at hstep
      split at hstep
      · cases hstep
      · split at hstep
        · cases hstep
        · rename_i hnet
          split at hstep
          · cases hstep
          next t3 hstore =>
            obtain ⟨hr, hl, hj⟩ := hP
            have hset := NonSolve.set_preserves s a.1.request.currNode
              { s.get a.1.request.currNode with
                  netWdl := some a.1.evaluation.wdl } rfl rfl rfl
            obtain ⟨hr2, hl2, hj2⟩ := hset
            have hstoreP := NonSolve.storePolicies_ok g _ _ _ _ _ hstore
            obtain ⟨hr3, hl3, hj3⟩ := hstoreP
            have hprop := NonSolve.propagateWdl_ok _ _ _ _ _ _ hstep
            obtain ⟨hl4, hstruct4, hvf4, -, hr4⟩ := hprop
            refine ⟨?_, ?_, ?_⟩
            · exact hr4.trans (hr3.trans (hr2.trans hr))
            · rw [NonSolve.Tree.len] at *
              exact hl4.trans (hl3.trans (hl2.trans hl))
            · intro j
              obtain ⟨h1, h2, h3⟩ := hj2 j
              obtain ⟨h4, h5, h6⟩ := hj j
              obtain ⟨h7, h8, h9⟩ := hj3 j
              obtain ⟨hp4, hc4, -, -, -⟩ := hstruct4 j
              have hv4 := hvf4 rfl j
              exact ⟨hv4.trans (h7.trans (h1.trans h4)),
                hp4.trans (h8.trans (h2.trans h5)),
                hc4.trans (h9.trans (h3.trans h6))⟩

/-- What the request-collection loop of `run_until_result_from_root`
guarantees when it returns: targets and settings are unchanged, the request
list only grows, each collected request accounts for at least one new root
visit, a root-visit budget is never exceeded, and the loop only stops with a
full batch or with the visit target reached. -/
theorem NonSolve.runFromRootAux_ok {B M : Type} (g : GameOps B M) (fsqrt : ℕ → F) :
    ∀ (fuel : ℕ) (st : NonSolve.ZeroState B M) (subs : List (NonSolve.SubRequest B))
      (st' : NonSolve.ZeroState B M) (subs' : List (NonSolve.SubRequest B)),
    NonSolve.runFromRootAux g fsqrt fuel st subs = .ok (st', subs') →
    0 < st.tree.len →
    0 < st'.tree.len
    ∧ st'.targetIterations = st.targetIterations
    ∧ st'.settings = st.settings
    ∧ st'.tree.rootBoard = st.tree.rootBoard
    ∧ (∃ delta, subs' = subs ++ delta
        ∧ (st.tree.get 0).visits + delta.length ≤ (st'.tree.get 0).visits)
    ∧ ((st.tree.get 0).visits ≤ st.targetIterations →
        (st'.tree.get 0).visits ≤ st.targetIterations)
    ∧ (subs'.length = st.settings.batchSize
        ∨ st.targetIterations ≤ (st'.tree.get 0).visits) := by
intro fuel
induction fuel with
| zero =>
  intro st subs st' subs' h
  exact absurd h (by simp [NonSolve.runFromRootAux])
| succ fuel ih =>
  intro st subs st' subs' h hlen
  unfold NonSolve.runFromRootAux at h
  split at h
  next hlt =>
    split at h
    next hbatch =>
      cases h
      exact ⟨hlen, rfl, rfl, rfl, ⟨[], by simp, by simp⟩, fun hle => hle,
        Or.inl hbatch⟩
    next hbatch =>
      split at h
      · cases h
      next node wdl hwalk =>
        split at h
        · cases h
        next t2 hprop =>
          have hp := NonSolve.propagateWdl_ok _ _ _ _ _ _ hprop
          obtain ⟨hpl, -, -, hpv, hpr⟩ := hp
          have hv2 : (t2.get 0).visits = (st.tree.get 0).visits + 1 := hpv rfl hlen
          have hlen2 : 0 < t2.len := by omega
          have ihh := ih { st with tree := t2 } subs st' subs' h hlen2
          dsimp only at ihh
          obtain ⟨ih0, ih1, ih2, ih3, ⟨delta, hdelta, hcount⟩, ihbound, ihstop⟩ := ihh
          refine ⟨ih0, ih1, ih2, ih3.trans hpr, ⟨delta, hdelta, by omega⟩, ?_, ?_⟩
          · intro hle
            exact ihbound (by omega)
          · exact ihstop
      next t2 node board2 hwalk =>
        split at h
        · cases h
        next t3 hprop =>
          have hw := NonSolve.walk_ok g fsqrt st.settings _ _ _ _ _ _ _ hwalk
          obtain ⟨hwr, hwlen, hwv⟩ := hw
          have hp := NonSolve.propagateWdl_ok _ _ _ _ _ _ hprop
          obtain ⟨hpl, -, -, hpv, hpr⟩ := hp
          have hv3 : (t3.get 0).visits = (st.tree.get 0).visits + 1 := by
            rw [hpv rfl (by omega), hwv 0]
          have hlen3 : 0 < t3.len := by omega
          have ihh := ih { st with tree := t3, expectedNodes := st.expectedNodes ++ [node] }
            (subs ++ [⟨board2, node⟩]) st' subs' h hlen3
          dsimp only at ihh
          obtain ⟨ih0, ih1, ih2, ih3, ⟨delta, hdelta, hcount⟩, ihbound, ihstop⟩ := ihh
          refine ⟨ih0, ih1, ih2, ih3.trans (hpr.trans hwr),
            ⟨⟨board2, node⟩ :: delta, by simpa using hdelta, ?_⟩, ?_, ?_⟩
          · simp only [List.length_append, List.length_cons] at hcount ⊢
            omega
          · intro hle
            exact ihbound (by omega)
          · exact ihstop
  next hlt =>
    cases h
    exact ⟨hlen, rfl, rfl, rfl, ⟨[], by simp, by simp⟩, fun hle => hle,
      Or.inr (by omega)⟩

/-- What one `run_until_result` call guarantees: invariant state components
are unchanged, root visits only grow and respect the target bound, each
returned request accounts for a new root visit, and a `Done` result means the
visit target was reached (given a positive batch size). -/
theorem NonSolve.runUntilResult_ok {B M : Type} [DecidableEq M] (g : GameOps B M)
    (fsqrt : ℕ → F) (fuel : ℕ) (st : NonSolve.ZeroState B M)
    (response : Option (List (NonSolve.SubResponse B)))
    (st' : NonSolve.ZeroState B M) (rr : NonSolve.RunResult B) :
    NonSolve.runUntilResult g fsqrt fuel st response = .ok (st', rr) →
    0 < st.tree.len →
    0 < st'.tree.len
    ∧ st'.targetIterations = st.targetIterations
    ∧ st'.settings = st.settings
    ∧ st'.tree.rootBoard = st.tree.rootBoard
    ∧ (st.tree.get 0).visits ≤ (st'.tree.get 0).visits
    ∧ ((st.tree.get 0).visits ≤ st.targetIterations →
        (st'.tree.get 0).visits ≤ st.targetIterations)
    ∧ (∀ subs, rr = .request subs →
        (st.tree.get 0).visits + subs.length ≤ (st'.tree.get 0).visits)
    ∧ (rr = .done → 0 < st.settings.batchSize →
        st.targetIterations ≤ (st'.tree.get 0).visits) := by
intro h hlen
unfold NonSolve.runUntilResult at h
have main : ∀ (st1 : NonSolve.ZeroState B M),
    NonSolve.runFromRoot g fsqrt fuel st1 = .ok (st', rr) →
    0 < st1.tree.len →
    0 < st'.tree.len ∧ st'.targetIterations = st1.targetIterations
    ∧ st'.settings = st1.settings
    ∧ st'.tree.rootBoard = st1.tree.rootBoard
    ∧ (st1.tree.get 0).visits ≤ (st'.tree.get 0).visits
    ∧ ((st1.tree.get 0).visits ≤ st1.targetIterations →
        (st'.tree.get 0).visits ≤ st1.targetIterations)
    ∧ (∀ subs, rr = .request subs →
        (st1.tree.get 0).visits + subs.length ≤ (st'.tree.get 0).visits)
    ∧ (rr = .done → 0 < st1.settings.batchSize →
        st1.targetIterations ≤ (st'.tree.get 0).visits) := by
  intro st1 h1 hlen1
  unfold NonSolve.runFromRoot at h1
  cases haux : NonSolve.runFromRootAux g fsqrt fuel st1 [] with
  | error e =>
    rw [haux] at h1
    cases h1
  | ok pair =>
    obtain ⟨stA, subsA⟩ := pair
    rw [haux] at h1
    cases h1
    have hr := NonSolve.runFromRootAux_ok g fsqrt fuel st1 [] st' subsA haux hlen1
    obtain ⟨h0, h1t, h2, h3, ⟨delta, hdelta, hcount⟩, hbound, hstop⟩ := hr
    have hdelta' : subsA = delta := by simpa using hdelta
    refine ⟨h0, h1t, h2, h3, by omega, hbound, ?_, ?_⟩
    · intro subs hrr
      split at hrr
      · cases hrr
      · cases hrr
        rw [← hdelta'] at hcount
        exact hcount
    · intro hrr hbs
      split at hrr
      next he =>
        rw [List.isEmpty_iff] at he
        rcases hstop with hl | hr2
        · rw [he] at hl
          simp at hl
          omega
        · exact hr2
      next he => cases hrr
cases response with
| none =>
  by_cases hexp : st.expectedNodes.isEmpty
  · simp only [hexp, not_true_eq_false, if_false] at h
    exact main st h hlen
  · simp only [hexp, not_false_eq_true, if_true] at h
    cases h
| some responses2 =>
  by_cases hexp : st.expectedNodes.isEmpty
  · simp only [hexp, if_true] at h
    cases h
  · simp only [hexp, if_false] at h
    rcases happly : NonSolve.applyEval g st responses2 with e | stB
    · rw [happly] at h
      cases h
    · rw [happly] at h
      have ha := NonSolve.applyEval_ok g st responses2 stB happly
      obtain ⟨har, hal, haj, hat, has, -⟩ := ha
      have hm := main stB h (by rw [hal]; exact hlen)
      obtain ⟨m0, m1, m2, m3, m4, m5, m6, m7⟩ := hm
      have hv0 : (stB.tree.get 0).visits = (st.tree.get 0).visits := (haj 0).1
      refine ⟨m0, m1.trans hat, m2.trans has, m3.trans har, by omega, ?_, ?_, ?_⟩
      · intro hle
        rw [hat, hv0] at m5
        exact m5 hle
      · intro subs hrr
        have := m6 subs hrr
        omega
      · intro hrr hbs
        have := m7 hrr (by rw [has]; exact hbs)
        rw [hat] at this
        omega

/-- The driver loop invariant: when `buildLoop` completes (with a positive
batch size, a visit budget that has not been exceeded, and a request counter
bounded by the root visits), the finished tree has exactly `target` root
visits, the total number of submitted requests is at most `target`, and the
root board is the original one. -/
theorem NonSolve.buildLoop_ok {B M : Type} [DecidableEq M] (g : GameOps B M)
    (fsqrt : ℕ → F) (network : B → ZeroEvaluation) (innerFuel : ℕ) :
    ∀ (fuel : ℕ) (st : NonSolve.ZeroState B M)
      (response : Option (List (NonSolve.SubResponse B))) (reqCount : ℕ)
      (t : NonSolve.Tree B M) (reqTotal : ℕ),
    NonSolve.buildLoop g fsqrt network innerFuel fuel st response reqCount
      = .ok (t, reqTotal) →
    0 < st.tree.len →
    (st.tree.get 0).visits ≤ st.targetIterations →
    reqCount ≤ (st.tree.get 0).visits →
    0 < st.settings.batchSize →
    (t.get 0).visits = st.targetIterations ∧ reqTotal ≤ st.targetIterations
    ∧ t.rootBoard = st.tree.rootBoard := by
intro fuel
induction fuel with
| zero =>
  intro st response reqCount t reqTotal h
  exact absurd h (by simp [NonSolve.buildLoop])
| succ fuel ih =>
  intro st response reqCount t reqTotal h hlen hbound hreq hbs
  unfold NonSolve.buildLoop at h
  cases hrun : NonSolve.runUntilResult g fsqrt innerFuel st response with
  | error e =>
    rw [hrun] at h
    cases h
  | ok pair =>
    obtain ⟨st1, rr⟩ := pair
    rw [hrun] at h
    have hu := NonSolve.runUntilResult_ok g fsqrt innerFuel st response st1 rr hrun hlen
    obtain ⟨u0, u1, u2, u3, u4, u5, u6, u7⟩ := hu
    cases rr with
    | done =>
      cases h
      have hge := u7 rfl hbs
      have hle := u5 hbound
      exact ⟨by omega, by omega, u3⟩
    | request subs =>
      have ihh := ih st1 (some (subs.map fun sub => ⟨sub, network sub.currBoard⟩))
        (reqCount + subs.length) t reqTotal h u0
        (by rw [u1]; exact u5 hbound)
        (by have := u6 subs rfl; omega)
        (by rw [u2]; exact hbs)
      rw [u1, u3] at ihh
      exact ihh

/-- C2 (amended): for every search driven to completion by the
`zero_build_tree` driver with visit target `N` and a positive batch size
(no stop condition firing), the root's visit count equals `N` exactly, and
the total number of requests submitted to the network is **at most** `N`
(one request per root visit that did not end at a terminal board; the claimed
lower bound `N` does not hold — see the counterexample). -/
theorem C2_driver_visits_exact_requests_at_most {B M : Type} [DecidableEq M]
    (g : GameOps B M) (fsqrt : ℕ → F) (network : B → ZeroEvaluation)
    (innerFuel outerFuel : ℕ) (board : B) (n : ℕ)
    (settings : NonSolve.ZeroSettings) (t : NonSolve.Tree B M) (requests : ℕ)
    (hbs : 0 < settings.batchSize)
    (h : NonSolve.zeroBuildTree g fsqrt network innerFuel outerFuel board n settings
      = .ok (t, requests)) :
    (t.get 0).visits = n ∧ requests ≤ n := by
unfold NonSolve.zeroBuildTree at h
cases hnew : NonSolve.Tree.new g board with
| error e =>
  rw [hnew] at h
  cases h
| ok t0 =>
  rw [hnew] at h
  unfold NonSolve.Tree.new at hnew
  split at hnew
  · cases hnew
  · cases hnew
    have hb := NonSolve.buildLoop_ok g fsqrt network innerFuel outerFuel
      (NonSolve.ZeroState.new _ n settings) none 0 t requests h
      (by simp [NonSolve.ZeroState.new, NonSolve.Tree.len])
      (by
        have : (NonSolve.Node.new (M := M) 0 none 0).visits = 0 := rfl
        simp [NonSolve.ZeroState.new, NonSolve.Tree.get, this])
      (by
        have : (NonSolve.Node.new (M := M) 0 none 0).visits = 0 := rfl
        simp [NonSolve.ZeroState.new, NonSolve.Tree.get, this])
      (by simpa [NonSolve.ZeroState.new] using hbs)
    simpa [NonSolve.ZeroState.new] using ⟨hb.1, hb.2.1⟩

/-- C2 (witness): the concrete completed `lineGame` search (target 3,
batch size 2) instantiates the amended driver theorem. -/
theorem C2_driver_witness : (NonSolve.lineRunTree.get 0).visits = 3 ∧ 1 ≤ 3 :=
C2_driver_visits_exact_requests_at_most NonSolve.lineGame NonSolve.fsqrtQ
  NonSolve.lineNetwork 20 20 0 3 ⟨2, 2⟩ NonSolve.lineRunTree 1 (by decide) (by rfl)

/-- Folding the `max_by_key` step over elements whose keys all equal the
accumulator's key keeps replacing the accumulator, ending at the last
element. -/
theorem foldl_maxstep_const {α : Type} (key : α → F) :
    ∀ (l : List α) (x : α), (∀ a ∈ l, key a = key x) →
    List.foldl
      (fun acc y =>
        match acc with
        | none => some y
        | some b => if key b ≤ key y then some y else some b)
      (some x) l = (x :: l).getLast? := by
intro l
induction l with
| nil => intro x hx; rfl
| cons y ys ih =>
  intro x hx
  have hxy : key y = key x := hx y (by simp)
  have hle : key x ≤ key y := by
    show F.le (key x) (key y)
    unfold F.le
    rw [hxy]
  simp only [List.foldl_cons, if_pos hle]
  rw [ih y (fun a ha => (hx a (by simp [ha])).trans hxy.symm)]
  rw [List.getLast?_cons_cons]

/-- The last element of a `range'`. -/
theorem getLast?_range' : ∀ (n s : ℕ),
    (List.range' s n).getLast? = if n = 0 then none else some (s + n - 1) := by
intro n
induction n with
| zero => intro s; rfl
| succ n ih =>
  intro s
  rw [List.range'_succ]
  cases n with
  | zero => simp
  | succ m =>
    rw [List.range'_succ, List.getLast?_cons_cons, ← List.range'_succ]
    rw [ih (s + 1)]
    simp only [Nat.succ_ne_zero, if_false]
    congr 1
    omega

/-- C7 (amended): when all children of a node attain the same PUCT score, the
selection `children.iter().max_by_key(...)` of the deterministic
implementation picks the child with the **highest** index (Rust's
`max_by_key` returns the last maximal element), not the lowest. -/
theorem C7_tie_break_highest_index {B M : Type} (t : NonSolve.Tree B M) (ew : F)
    (pv : ℕ) (fsqrt : ℕ → F) (r : NonSolve.IdxRange) (hlen : 0 < r.length)
    (htie : ∀ i ∈ r.iter, ∀ j ∈ r.iter,
      (t.get i).uct ew pv fsqrt = (t.get j).uct ew pv fsqrt) :
    maxByKeyLast r.iter (fun c => (t.get c).uct ew pv fsqrt)
      = some (r.start + r.length - 1) := by
obtain ⟨k, hk⟩ : ∃ k, r.length = k + 1 := ⟨r.length - 1, by omega⟩
have hiter : r.iter = r.start :: List.range' (r.start + 1) k := by
  rw [NonSolve.IdxRange.iter, hk, List.range'_succ]
have hstart : r.start ∈ r.iter := by
  rw [hiter]
  simp
unfold maxByKeyLast
rw [hiter]
simp only [List.foldl_cons]
rw [foldl_maxstep_const _ _ _ ?side]
case side =>
  intro a ha
  exact htie a (by rw [hiter]; simp [ha]) r.start hstart
rw [← List.range'_succ, getLast?_range']
simp only [Nat.succ_ne_zero, if_false]
congr 1
omega

/-- C7 (witness): the amended tie-break theorem applied to the concrete tied
search state: both children score equally and child 2 (the higher index) is
selected. -/
theorem C7_tie_break_witness :
    maxByKeyLast (NonSolve.IdxRange.iter ⟨1, 2⟩)
      (fun c => (NonSolve.tieTree.get c).uct 2 1 NonSolve.fsqrtQ) = some 2 :=
C7_tie_break_highest_index NonSolve.tieTree 2 1 NonSolve.fsqrtQ ⟨1, 2⟩
  (by decide) (by decide)

/-- C1 (amended): along the parent chain `path` from the target node to the
root, `tree_propagate_values` completes one visit, releases one virtual visit
and adds the propagated value **flipped `i + 1` times** to the node at
distance `i` from the target — in particular the target node itself receives
the value flipped once (`parent()` is applied before the first addition), so
`sum_values` holds the mean from the perspective of the player who moved
into the node; every node off the chain is untouched. -/
theorem C1_value_flipped_once_per_hop_and_at_target {B M : Type} :
    ∀ (path : List ℕ) (fuel : ℕ) (t : Step.Tree B M) (values : Step.ZeroValues)
      (target : ℕ),
    path.head? = some target →
    (∀ (i : ℕ) (hi : i + 1 < path.length),
      (t.get (path.get ⟨i, by omega⟩)).parent = some (path.get ⟨i + 1, hi⟩)) →
    (∀ (n : ℕ), path.getLast? = some n → (t.get n).parent = none) →
    (∀ n ∈ path, 0 < (t.get n).virtualVisits) →
    path.Nodup →
    (∀ n ∈ path, n < t.len) →
    path.length ≤ fuel →
    ∃ t', Step.treePropagateValues fuel t target values = .ok t'
    ∧ (∀ (i : ℕ) (hi : i < path.length),
        (t'.get (path.get ⟨i, hi⟩)).sumValues
          = (t.get (path.get ⟨i, hi⟩)).sumValues + values.parentIter (i + 1)
        ∧ (t'.get (path.get ⟨i, hi⟩)).completeVisits
          = (t.get (path.get ⟨i, hi⟩)).completeVisits + 1
        ∧ (t'.get (path.get ⟨i, hi⟩)).virtualVisits
          = (t.get (path.get ⟨i, hi⟩)).virtualVisits - 1)
    ∧ (∀ j, j ∉ path → t'.get j = t.get j) := by
intro path
induction path with
| nil =>
  intro fuel t values target hhead
  cases hhead
| cons n rest ih =>
  intro fuel t values target hhead hlink hlast hvirt hnodup hbound hfuel
  have htarget : n = target := by
    simp only [List.head?_cons, Option.some.injEq] at hhead
    exact hhead
  subst htarget
  obtain ⟨f, hf⟩ : ∃ f, fuel = f + 1 := ⟨fuel - 1, by simp at hfuel; omega⟩
  subst hf
  have hnlen : n < t.len := hbound n (by simp)
  have hnv : 0 < (t.get n).virtualVisits := hvirt n (by simp)
  set n' : Step.Node M := ⟨(t.get n).parent, (t.get n).lastMove, (t.get n).children,
    (t.get n).netValues, (t.get n).netPolicy, (t.get n).completeVisits + 1,
    (t.get n).virtualVisits - 1, (t.get n).sumValues + values.parent⟩ with hn'
  set t1 : Step.Tree B M := { t with nodes := t.nodes.set n n' } with ht1
  have hget1 : ∀ j, j ≠ n → t1.get j = t.get j := by
    intro j hj
    rw [ht1]
    show (t.nodes.set n n').getD j default = t.get j
    rw [getD_set, if_neg (fun hc => hj (hc.1.symm))]
    rfl
  have hget1n : t1.get n = n' := by
    rw [ht1]
    show (t.nodes.set n n').getD n default = n'
    rw [getD_set]
    exact if_pos ⟨rfl, by simpa [Step.Tree.len] using hnlen⟩
  have hlen1 : t1.len = t.len := by simp [ht1, Step.Tree.len]
  cases rest with
  | nil =>
    have hpar : (t.get n).parent = none := hlast n (by simp [List.getLast?])
    have hstep : Step.treePropagateValues (f + 1) t n values = .ok t1 := by
      unfold Step.treePropagateValues
      dsimp only
      rw [if_neg (by omega), hpar, ht1, hn', hpar]
    refine ⟨t1, hstep, ?_, ?_⟩
    · intro i hi
      have hi0 : i = 0 := by simp at hi; omega
      subst hi0
      show (t1.get n).sumValues = _ ∧ (t1.get n).completeVisits = _
        ∧ (t1.get n).virtualVisits = _
      rw [hget1n]
      exact ⟨rfl, rfl, rfl⟩
    · intro j hj
      simp at hj
      exact hget1 j hj
  | cons m rest' =>
    have hpar : (t.get n).parent = some m := by
      have := hlink 0 (by simp)
      simpa using this
    have hstep : Step.treePropagateValues (f + 1) t n values
        = Step.treePropagateValues f t1 m values.parent := by
      conv_lhs => unfold Step.treePropagateValues
      dsimp only
      rw [if_neg (by omega), hpar, ht1, hn', hpar]
    have hnotmem : n ∉ (m :: rest') := (List.nodup_cons.mp hnodup).1
    have ihh := ih f t1 values.parent m ?hd ?lk ?la ?vv ?nd ?bd ?fl
    case hd => rfl
    case lk =>
      intro i hi
      have e1 : t1.get ((m :: rest').get ⟨i, by omega⟩)
          = t.get ((m :: rest').get ⟨i, by omega⟩) := by
        refine hget1 _ ?_
        intro hc
        exact hnotmem (hc ▸ List.get_mem _ _ _)
      have e2 := hlink (i + 1) (by simpa using hi)
      rw [e1]
      simpa using e2
    case la =>
      intro nd hnd
      have e1 : (m :: rest').getLast? = (n :: m :: rest').getLast? := by
        simp [List.getLast?_cons_cons]
      rw [e1] at hnd
      have hpnone := hlast nd hnd
      have hne : nd ≠ n := by
        intro hc
        subst hc
        rw [hpar] at hpnone
        cases hpnone
      rw [hget1 nd hne]
      exact hpnone
    case vv =>
      intro nd hnd
      have hne : nd ≠ n := fun hc => hnotmem (hc ▸ hnd)
      rw [hget1 nd hne]
      exact hvirt nd (by simp [hnd])
    case nd => exact (List.nodup_cons.mp hnodup).2
    case bd =>
      intro nd hnd
      rw [hlen1]
      exact hbound nd (by simp [hnd])
    case fl => simp at hfuel ⊢; omega
    obtain ⟨t', hok, hupd, hframe⟩ := ihh
    refine ⟨t', hstep.trans hok, ?_, ?_⟩
    · intro i hi
      cases i with
      | zero =>
        have hfr : t'.get n = t1.get n := hframe n hnotmem
        show (t'.get n).sumValues = _ ∧ (t'.get n).completeVisits = _
          ∧ (t'.get n).virtualVisits = _
        rw [hfr, hget1n]
        exact ⟨rfl, rfl, rfl⟩
      | succ i' =>
        have hi' : i' < (m :: rest').length := by simpa using hi
        have e0 : (n :: m :: rest').get ⟨i' + 1, hi⟩
            = (m :: rest').get ⟨i', hi'⟩ := rfl
        rw [e0]
        have e1 : t1.get ((m :: rest').get ⟨i', hi'⟩)
            = t.get ((m :: rest').get ⟨i', hi'⟩) := by
          refine hget1 _ ?_
          intro hc
          exact hnotmem (hc ▸ List.get_mem _ _ _)
        obtain ⟨u1, u2, u3⟩ := hupd i' hi'
        rw [e1] at u1 u2 u3
        exact ⟨u1, u2, u3⟩
    · intro j hj
      have hjn : j ≠ n := by simp at hj; tauto
      have hjr : j ∉ (m :: rest') := by simp at hj ⊢; tauto
      rw [hframe j hjr, hget1 j hjn]

/-- C1 (witness): the amended propagation theorem applied to the concrete
freshly expanded root: the response value `+1` arrives at the root's
`sum_values` flipped once. -/
theorem C1_flip_witness :
    Step.treePropagateValues 5 Step.freshRootTree 0 Step.freshRootResponse.values
      = .ok Step.freshPropagated
    ∧ (Step.freshPropagated.get 0).sumValues
      = (Step.freshRootTree.get 0).sumValues
        + Step.freshRootResponse.values.parentIter 1 := by
obtain ⟨t', hok, hupd, -⟩ :=
  C1_value_flipped_once_per_hop_and_at_target [0] 5 Step.freshRootTree
    Step.freshRootResponse.values 0 (by rfl)
    (by intro i hi; simp at hi)
    (by intro nd hnd; simp at hnd; subst hnd; rfl)
    (by intro nd hnd; simp at hnd; subst hnd; decide)
    (by decide)
    (by intro nd hnd; simp at hnd; subst hnd; decide)
    (by decide)
have he : Step.freshPropagated = t' := by
  simp [Step.freshPropagated, hok]
rw [he]
exact ⟨hok, (hupd 0 (by decide)).1⟩

/-- A pure fold preserves any invariant its step preserves. -/
theorem foldl_preserve {A S : Type} (f : S → A → S) (P : S → Prop)
    (hstep : ∀ s a, P s → P (f s a)) : ∀ (l : List A) (s : S), P s → P (l.foldl f s) := by
intro l
induction l with
| nil => intro s hP; exact hP
| cons a rest ih =>
  intro s hP
  exact ih (f s a) (hstep s a hP)

/-- A successful `tree_propagate_values` changes only visit counters and
value sums: length, `children`, `net_values` and `net_policy` are
untouched. -/
theorem Step.propagateValues_ok {B M : Type} :
    ∀ (fuel : ℕ) (t : Step.Tree B M) (idx : ℕ) (v : Step.ZeroValues)
      (t' : Step.Tree B M),
    Step.treePropagateValues fuel t idx v = .ok t' →
    t'.len = t.len
    ∧ ∀ j, (t'.get j).children = (t.get j).children
      ∧ (t'.get j).netValues = (t.get j).netValues
      ∧ (t'.get j).netPolicy = (t.get j).netPolicy := by
intro fuel
induction fuel with
| zero =>
  intro t idx v t' h
  exact absurd h (by simp [Step.treePropagateValues])
| succ fuel ih =>
  intro t idx v t' h
  unfold Step.treePropagateValues at h
  dsimp only at h
  split at h
  · cases h
  · split at h
    next parent hpar =>
      have step := ih _ _ _ _ h
      obtain ⟨hlen, hstruct⟩ := step
      refine ⟨by rw [hlen]; simp [Step.Tree.len], ?_⟩
      intro j
      obtain ⟨h1, h2, h3⟩ := hstruct j
      simp only [Step.Tree.get, getD_set] at h1 h2 h3 ⊢
      rw [h1, h2, h3]
      split
      next hj =>
        obtain ⟨hj0, -⟩ := hj
        subst hj0
        exact ⟨rfl, rfl, rfl⟩
      next => exact ⟨rfl, rfl, rfl⟩
    next hpar =>
      cases h
      refine ⟨by simp [Step.Tree.len], ?_⟩
      intro j
      simp only [Step.Tree.get, getD_set]
      split
      next hj =>
        obtain ⟨hj0, -⟩ := hj
        subst hj0
        exact ⟨rfl, rfl, rfl⟩
      next => exact ⟨rfl, rfl, rfl⟩

/-- Reading the arena after one copy-loop iteration. -/
theorem Step.get_copyStep {B M : Type} (children : NonSolve.IdxRange) (policy : List F)
    (t : Step.Tree B M) (i j : ℕ) :
    (Step.copyStep children policy t i).get j
      = if children.get i = j ∧ j < t.len then
          { t.get (children.get i) with netPolicy := policy.getD i 0 }
        else t.get j := by
unfold Step.copyStep Step.Tree.get
dsimp only
rw [getD_set]
rfl

/-- The length of the arena after one copy-loop iteration. -/
theorem Step.len_copyStep {B M : Type} (children : NonSolve.IdxRange) (policy : List F)
    (t : Step.Tree B M) (i : ℕ) :
    (Step.copyStep children policy t i).len = t.len := by
unfold Step.copyStep Step.Tree.len
simp

/-- The effect of the prior-copy loop of `zero_step_apply`: the `i`-th child
slot receives the `i`-th policy entry, and no `net_values` or `children`
field changes anywhere. -/
theorem Step.copyPolicies_spec {B M : Type} (children : NonSolve.IdxRange)
    (policy : List F) :
    ∀ (t : Step.Tree B M),
    (Step.copyPolicies t children policy).len = t.len
    ∧ (∀ j, ((Step.copyPolicies t children policy).get j).netValues
          = (t.get j).netValues
        ∧ ((Step.copyPolicies t children policy).get j).children
          = (t.get j).children)
    ∧ (children.start + policy.length ≤ t.len →
        ∀ i < policy.length,
        ((Step.copyPolicies t children policy).get (children.get i)).netPolicy
          = policy.getD i 0) := by
have main : ∀ (n : ℕ) (t : Step.Tree B M),
    ((List.range n).foldl (Step.copyStep children policy) t).len = t.len
    ∧ (∀ j, (((List.range n).foldl (Step.copyStep children policy) t).get j).netValues
          = (t.get j).netValues
        ∧ (((List.range n).foldl (Step.copyStep children policy) t).get j).children
          = (t.get j).children)
    ∧ (children.start + n ≤ t.len →
        ∀ i < n,
        (((List.range n).foldl (Step.copyStep children policy) t).get
          (children.get i)).netPolicy = policy.getD i 0) := by
  intro n
  induction n with
  | zero =>
    intro t
    refine ⟨rfl, fun j => ⟨rfl, rfl⟩, ?_⟩
    intro hb i hi
    omega
  | succ n ih =>
    intro t
    obtain ⟨ihlen, ihnv, ihpol⟩ := ih t
    rw [List.range_succ, List.foldl_append]
    simp only [List.foldl_cons, List.foldl_nil]
    set tn := (List.range n).foldl (Step.copyStep children policy) t with htn
    refine ⟨by rw [Step.len_copyStep]; exact ihlen, ?_, ?_⟩
    · intro j
      obtain ⟨e1, e2⟩ := ihnv j
      rw [Step.get_copyStep]
      split
      next hj =>
        obtain ⟨hj0, -⟩ := hj
        subst hj0
        exact ⟨e1, e2⟩
      next => exact ⟨e1, e2⟩
    · intro hb i hi
      by_cases hin : i = n
      · subst hin
        rw [Step.get_copyStep]
        have hcond : children.get i = children.get i ∧ children.get i < tn.len := by
          refine ⟨rfl, ?_⟩
          have hlen' : tn.len = t.len := ihlen
          rw [NonSolve.IdxRange.get, hlen']
          omega
        rw [if_pos hcond]
      · have hi' : i < n := by omega
        have hold := ihpol (by omega) i hi'
        rw [Step.get_copyStep]
        rw [if_neg ?ne]
        case ne =>
          intro hc
          obtain ⟨hc1, -⟩ := hc
          rw [NonSolve.IdxRange.get, NonSolve.IdxRange.get] at hc1
          omega
        exact hold
intro t
exact main policy.length t

/-- C8: `zero_step_apply` rejects a node whose `net_values` is already
present with the corresponding assertion message; otherwise (for a node with
a child range inside the arena) a mismatch between the child count and the
policy length can never produce a successful result, and on success the
node's `net_values` holds the response values and each child's `net_policy`
holds the matching policy entry. -/
theorem C8_apply_rejects_then_sets_and_copies {B M : Type} (fuel : ℕ)
    (t : Step.Tree B M) (resp : Step.ZeroResponse B) :
    ((t.get resp.node).netValues.isSome →
      Step.zeroStepApply fuel t resp
        = .error "Node was already evaluated by the network")
    ∧ (∀ r, (t.get resp.node).children = some r →
        (r.length ≠ resp.policy.length →
          ∀ t', Step.zeroStepApply fuel t resp ≠ .ok t')
        ∧ (∀ t', Step.zeroStepApply fuel t resp = .ok t' →
            resp.node < t.len → r.start + r.length ≤ t.len →
            (t'.get resp.node).netValues = some resp.values
            ∧ r.length = resp.policy.length
            ∧ ∀ i < r.length,
                (t'.get (r.get i)).netPolicy = resp.policy.getD i 0)) := by
constructor
· intro hsome
  unfold Step.zeroStepApply
  rw [if_pos hsome]
· intro r hr
  by_cases hsome : (t.get resp.node).netValues.isSome
  · refine ⟨?_, ?_⟩
    · intro hne t' hok
      unfold Step.zeroStepApply at hok
      rw [if_pos hsome] at hok
      cases hok
    · intro t' hok
      unfold Step.zeroStepApply at hok
      rw [if_pos hsome] at hok
      cases hok
  · set n1 : Step.Node M := { t.get resp.node with netValues := some resp.values } with hn1
    set t1 : Step.Tree B M := { t with nodes := t.nodes.set resp.node n1 } with ht1
    have happly : Step.zeroStepApply fuel t resp
        = match Step.treePropagateValues fuel t1 resp.node resp.values with
          | .error e => Except.error e
          | .ok t2 =>
            match (t2.get resp.node).children with
            | none => .error "Applied node should have initialized children"
            | some children =>
              if children.length ≠ resp.policy.length then .error "Wrong children length"
              else .ok (Step.copyPolicies t2 children resp.policy) := by
      unfold Step.zeroStepApply
      rw [if_neg hsome]
    refine ⟨?_, ?_⟩
    · intro hne t' hok
      rw [happly] at hok
      cases hprop : Step.treePropagateValues fuel t1 resp.node resp.values with
      | error e =>
        rw [hprop] at hok
        cases hok
      | ok t2 =>
        rw [hprop] at hok
        dsimp only at hok
        have hpres := Step.propagateValues_ok fuel t1 resp.node resp.values t2 hprop
        obtain ⟨-, hstruct⟩ := hpres
        have hch2 : (t2.get resp.node).children = some r := by
          rw [(hstruct resp.node).1]
          show ((t.nodes.set resp.node n1).getD resp.node default).children = some r
          rw [getD_set]
          split
          next => exact hr
          next => exact hr
        rw [hch2] at hok
        dsimp only at hok
        rw [if_pos hne] at hok
        cases hok
    · intro t' hok hnode hbounds
      rw [happly] at hok
      cases hprop : Step.treePropagateValues fuel t1 resp.node resp.values with
      | error e =>
        rw [hprop] at hok
        cases hok
      | ok t2 =>
        rw [hprop] at hok
        dsimp only at hok
        have hpres := Step.propagateValues_ok fuel t1 resp.node resp.values t2 hprop
        obtain ⟨hlen2, hstruct⟩ := hpres
        have hget1n : t1.get resp.node = n1 := by
          show ((t.nodes.set resp.node n1).getD resp.node default) = n1
          rw [getD_set]
          exact if_pos ⟨rfl, hnode⟩
        have hch2 : (t2.get resp.node).children = some r := by
          rw [(hstruct resp.node).1, hget1n]
          exact hr
        rw [hch2] at hok
        dsimp only at hok
        by_cases hne : r.length ≠ resp.policy.length
        · rw [if_pos hne] at hok
          cases hok
        · rw [if_neg hne] at hok
          cases hok
          push_neg at hne
          have hlen1 : t1.len = t.len := by
            show (t.nodes.set resp.node n1).length = t.nodes.length
            simp
          have hcopy := Step.copyPolicies_spec r resp.policy t2
          obtain ⟨hclen, hcnv, hcpol⟩ := hcopy
          refine ⟨?_, hne, ?_⟩
          · rw [(hcnv resp.node).1, (hstruct resp.node).2.1, hget1n]
          · intro i hi
            have := hcpol (by omega) i (by omega)
            exact this

/-- C8 (witness): applying the fresh root response to the freshly expanded
root succeeds and stores the values and both child priors. -/
theorem C8_apply_witness :
    (Step.appliedFresh.get 0).netValues = some Step.freshRootResponse.values
    ∧ (⟨1, 2⟩ : NonSolve.IdxRange).length = Step.freshRootResponse.policy.length
    ∧ ∀ i < (⟨1, 2⟩ : NonSolve.IdxRange).length,
        (Step.appliedFresh.get ((⟨1, 2⟩ : NonSolve.IdxRange).get i)).netPolicy
          = Step.freshRootResponse.policy.getD i 0 :=
((C8_apply_rejects_then_sets_and_copies 5 Step.freshRootTree
    Step.freshRootResponse).2 ⟨1, 2⟩ (by rfl)).2 Step.appliedFresh (by rfl)
  (by decide) (by decide)

/-- C4: For every Super-Tic-Tac-Toe board `b` and every symmetry `s` with
inverse `s⁻¹`, mapping `b` through `s` and then through `s⁻¹` is claimed to
yield a board equal to `b`.  Evaluating the code at a board on which `X` has
won macro grid 0 (main_grid = 1) refutes this: `map_symmetry` zeroes the
`main_grid` field, so even the identity symmetry loses it and the round trip
differs from the original board. -/
theorem C4_roundtrip_loses_main_grid :
    Sttt.boardWonGrid.mainGrid = 1
    ∧ ((Sttt.boardWonGrid.mapSymmetry Sttt.Symmetry.idSym).mapSymmetry
        Sttt.Symmetry.idSym.inverse).mainGrid = 0
    ∧ (Sttt.boardWonGrid.mapSymmetry Sttt.Symmetry.idSym).mapSymmetry
        Sttt.Symmetry.idSym.inverse ≠ Sttt.boardWonGrid := by
decide

/-- C2 (counterexample): a full search on the one-move game with
`target_visits = 3` and `batch_size = 2` completes with root visits `3` but
submits only `1` request to the network (every later walk ends at the
terminal child), so the claimed lower bound `N ≤ requests` fails. -/
theorem C2_counterexample :
    Except.map (fun p => (p.2, (p.1.get 0).visits)) NonSolve.lineRun
      = .ok (1, 3)
    ∧ ¬ (3 ≤ 1) := by
constructor
· rfl
· decide

/-- C7 (counterexample): in the search state right after the root evaluation
is applied, the two root children (indices 1 and 2) have equal PUCT scores,
and the selection walk of the deterministic implementation descends into
child 2 — the highest index, not the lowest: Rust's `max_by_key` returns the
last maximal element. -/
theorem C7_counterexample :
    (NonSolve.tieTree.get 0).children = some ⟨1, 2⟩
    ∧ (NonSolve.tieTree.get 1).uct 2 1 NonSolve.fsqrtQ
        = (NonSolve.tieTree.get 2).uct 2 1 NonSolve.fsqrtQ
    ∧ NonSolve.walkRequestNode
        (NonSolve.walk NonSolve.depth2Game NonSolve.fsqrtQ NonSolve.depth2Settings 20
          NonSolve.tieTree 0 0) = some 2 := by
refine ⟨by rfl, by decide, by rfl⟩

/-- C3 (counterexample): the finished two-level tree of the `depth2Game`
search is parent–child consistent, `keep_move` on it succeeds, and the new
tree it returns is **not** parent–child consistent: the copied nodes keep
their parent indices from the old arena (both children of the new root store
parent 2 instead of 0). -/
theorem C3_counterexample :
    NonSolve.parentConsistent NonSolve.depth2FinalTree
    ∧ NonSolve.keepResult3 = .ok (.tree NonSolve.keptTree3)
    ∧ ¬ NonSolve.parentConsistent NonSolve.keptTree3 := by
refine ⟨by decide, by rfl, by decide⟩

/-- C1 (counterexample): applying a response with value `+1` (a win for the
player to move at the target node) to a freshly expanded root adds the value
to the target's `sum_values` **flipped** (`-1`), not un-flipped as claimed:
`tree_propagate_values` applies `parent()` before the first addition. -/
theorem C1_counterexample :
    Step.freshRootResponse.values.value = 1
    ∧ Except.map (fun t => (t.get 0).sumValues.value)
        (Step.zeroStepApply 5 Step.freshRootTree Step.freshRootResponse)
      = .ok (-1) := by
refine ⟨by rfl, by rfl⟩

/-- C6 (counterexample): the encoded input of a concrete board has
`23 × 64 = 1472` entries, not the claimed `19 × 64`: two side-to-move
indicator planes precede the documented planes (and the documented plane list
itself has 21 channels). -/
theorem C6_counterexample :
    (Chess.appendBoardTo [] Chess.emptyPos).length = 1472
    ∧ ¬ ((1472 : ℕ) = 19 * (8 * 8)) := by
refine ⟨by rfl, by decide⟩

/-- C9 (counterexample): a `StartupSettings` command whose payload carries an
unknown field `"bogus_field"` deserializes successfully — `StartupSettings`
does not carry `#[serde(deny_unknown_fields)]`, so unknown fields inside its
payload are ignored, not rejected. -/
theorem C9_counterexample :
    Proto.deserCommand Proto.startupWithUnknownField
      = .ok (.startupSettings
          ⟨"ataxx-7", false, 0, "out", 100, 2, 1, 256, 16, 32⟩) := by
rfl

/-- Any output of the `max_by_key` fold is either the initial accumulator or
an element of the folded list. -/
theorem foldl_maxstep_mem {α : Type} (key : α → F) :
    ∀ (l : List α) (acc : Option α) (x : α),
    List.foldl
      (fun acc y =>
        match acc with
        | none => some y
        | some b => if key b ≤ key y then some y else some b)
      acc l = some x →
    acc = some x ∨ x ∈ l := by
intro l
induction l with
| nil =>
  intro acc x h
  exact Or.inl h
| cons a rest ih =>
  intro acc x h
  rw [List.foldl_cons] at h
  rcases ih _ x h with hacc | hmem
  · cases acc with
    | none =>
      right
      dsimp only at hacc
      cases hacc
      exact List.mem_cons_self a rest
    | some b =>
      dsimp only at hacc
      split at hacc
      · right
        cases hacc
        exact List.mem_cons_self a rest
      · left
        exact hacc
  · right
    exact List.mem_cons_of_mem a hmem

/-- `maxByKeyLast` only returns elements of its list. -/
theorem maxByKeyLast_mem {α : Type} (l : List α) (key : α → F) (x : α)
    (h : maxByKeyLast l key = some x) : x ∈ l := by
unfold maxByKeyLast at h
rcases foldl_maxstep_mem key l none x h with hacc | hmem
· cases hacc
· exact hmem

/-- Reading an appended arena past the original length lands in the appended
block. -/
theorem getD_append_mem {A : Type} [Inhabited A] (l extra : List A) (j : ℕ)
    (h1 : l.length ≤ j) (h2 : j < l.length + extra.length) :
    (l ++ extra).getD j default ∈ extra := by
rw [List.getD_eq_getElem?_getD, List.getElem?_append_right h1]
have h3 : j - l.length < extra.length := by omega
cases hx : extra[j - l.length]? with
| none =>
  rw [List.getElem?_eq_none_iff] at hx
  omega
| some a =>
  exact List.getElem?_mem hx

/-- `Tree::new` produces a parent–child consistent arena (a single root with
no child range). -/
theorem NonSolve.new_parentConsistent {B M : Type} (g : GameOps B M) (b : B)
    (t : NonSolve.Tree B M) (h : NonSolve.Tree.new g b = .ok t) :
    NonSolve.parentConsistent t := by
unfold NonSolve.Tree.new at h
split at h
· cases h
· cases h
  intro i hi r hch c hc
  have hi1 : i < 1 := by simpa [NonSolve.Tree.len] using hi
  have hi0 : i = 0 := by omega
  subst hi0
  simp [NonSolve.Tree.get, NonSolve.Node.new] at hch

/-- `Tree::propagate_wdl` preserves parent–child consistency: it only edits
visit counters and WDL sums. -/
theorem NonSolve.propagateWdl_parentConsistent {B M : Type} (fuel : ℕ)
    (t : NonSolve.Tree B M) (idx : ℕ) (wdl : WDL) (cv : Bool)
    (t' : NonSolve.Tree B M)
    (h : NonSolve.Tree.propagateWdl fuel t idx wdl cv = .ok t')
    (hpc : NonSolve.parentConsistent t) : NonSolve.parentConsistent t' := by
obtain ⟨hlen, hfields, -, -, -⟩ := NonSolve.propagateWdl_ok fuel t idx wdl cv t' h
intro i hi r hch c hc
rw [hlen] at hi
rw [(hfields i).2.1] at hch
have hold := hpc i hi r hch c hc
exact ⟨by rw [hlen]; exact hold.1, by rw [(hfields c).1]; exact hold.2⟩

/-- `ZeroState::apply_eval` preserves parent–child consistency: it only edits
`net_wdl`, `net_policy`, visit counters and WDL sums. -/
theorem NonSolve.applyEval_parentConsistent {B M : Type} [DecidableEq M]
    (g : GameOps B M) (st : NonSolve.ZeroState B M)
    (responses : List (NonSolve.SubResponse B)) (st' : NonSolve.ZeroState B M)
    (h : NonSolve.applyEval g st responses = .ok st')
    (hpc : NonSolve.parentConsistent st.tree) :
    NonSolve.parentConsistent st'.tree := by
obtain ⟨-, hlen, hfields, -, -, -⟩ := NonSolve.applyEval_ok g st responses st' h
intro i hi r hch c hc
rw [hlen] at hi
rw [(hfields i).2.2] at hch
have hold := hpc i hi r hch c hc
exact ⟨by rw [hlen]; exact hold.1, by rw [(hfields c).2.1]; exact hold.2⟩

/-- The selection walk preserves parent–child consistency: the expansion step
appends children that point back to the expanded node, and the rewritten
child range covers exactly the appended block. -/
theorem NonSolve.walk_parentConsistent {B M : Type} (g : GameOps B M) (fsqrt : ℕ → F)
    (st : NonSolve.ZeroSettings) :
    ∀ (fuel : ℕ) (t : NonSolve.Tree B M) (curr : ℕ) (board : B)
      (t' : NonSolve.Tree B M) (node : ℕ) (b' : B),
    NonSolve.walk g fsqrt st fuel t curr board = .ok (.request t' node b') →
    NonSolve.parentConsistent t → curr < t.len →
    NonSolve.parentConsistent t' := by
intro fuel
induction fuel with
| zero =>
  intro t curr board t' node b' h
  exact absurd h (by simp [NonSolve.walk])
| succ fuel ih =>
  intro t curr board t' node b' h hpc hcurr
  unfold NonSolve.walk at h
  dsimp only at h
  split at h
  · cases h
  · split at h
    · split at h
      · cases h
      next r hr =>
        cases h
        set K := (g.availableMoves board).map
          (fun mv => NonSolve.Node.new curr (some mv) (1 : F)) with hK
        unfold NonSolve.IdxRange.new at hr
        split at hr
        next hcond =>
          cases hr
          have hKpar : ∀ n ∈ K,
              (n : NonSolve.Node M).parent = curr ∧ n.children = none := by
            intro n hn
            rw [hK] at hn
            simp only [List.mem_map] at hn
            obtain ⟨mv, -, rfl⟩ := hn
            exact ⟨rfl, rfl⟩
          have hnl : t.nodes.length = t.len := rfl
          have hlen2 := List.length_append t.nodes K
          intro i hi r' hch c hc
          simp only [NonSolve.Tree.len, NonSolve.Tree.get, List.length_set,
            getD_set] at hi hch ⊢
          by_cases hic : curr = i
          · subst hic
            rw [if_pos ⟨rfl, by omega⟩] at hch
            dsimp only at hch
            cases hch
            rw [NonSolve.IdxRange.iter, List.mem_range'_1] at hc
            dsimp only at hc
            constructor
            · omega
            · rw [if_neg ?ne]
              case ne =>
                rintro ⟨rfl, -⟩
                omega
              exact (hKpar _ (getD_append_mem t.nodes K c (by omega) (by omega))).1
          · rw [if_neg (fun hcon => hic hcon.1)] at hch
            by_cases hiN : i < t.len
            · rw [List.getD_append _ _ _ _ (by omega)] at hch
              have hold := hpc i hiN r' hch c hc
              constructor
              · omega
              · by_cases hcc : curr = c
                · rw [if_pos ⟨hcc, by omega⟩]
                  subst hcc
                  dsimp only
                  rw [List.getD_append _ _ _ _ (by omega)]
                  exact hold.2
                · rw [if_neg (fun hcon => hcc hcon.1)]
                  rw [List.getD_append _ _ _ _ (by have h1 := hold.1; omega)]
                  exact hold.2
            · rw [(hKpar _ (getD_append_mem t.nodes K i (by omega) (by omega))).2]
                at hch
              cases hch
        next => cases hr
    next children hchn =>
      split at h
      · cases h
      next selected hsel =>
        split at h
        · cases h
        next mv hmv =>
          refine ih _ _ _ _ _ _ h hpc ?_
          exact (hpc curr hcurr children hchn selected
            (maxByKeyLast_mem _ _ _ hsel)).1

/-- The gather loop preserves parent–child consistency. -/
theorem NonSolve.runFromRootAux_parentConsistent {B M : Type} (g : GameOps B M)
    (fsqrt : ℕ → F) :
    ∀ (fuel : ℕ) (st : NonSolve.ZeroState B M) (subs : List (NonSolve.SubRequest B))
      (st' : NonSolve.ZeroState B M) (subs' : List (NonSolve.SubRequest B)),
    NonSolve.runFromRootAux g fsqrt fuel st subs = .ok (st', subs') →
    NonSolve.parentConsistent st.tree → 0 < st.tree.len →
    NonSolve.parentConsistent st'.tree := by
intro fuel
induction fuel with
| zero =>
  intro st subs st' subs' h
  exact absurd h (by simp [NonSolve.runFromRootAux])
| succ fuel ih =>
  intro st subs st' subs' h hpc hlen
  unfold NonSolve.runFromRootAux at h
  split at h
  · split at h
    · cases h
      exact hpc
    · split at h
      · cases h
      next node wdl hwalk =>
        split at h
        · cases h
        next t1 hprop =>
          have hpc1 := NonSolve.propagateWdl_parentConsistent _ _ _ _ _ _ hprop hpc
          have hlen1 : t1.len = st.tree.len :=
            (NonSolve.propagateWdl_ok _ _ _ _ _ _ hprop).1
          exact ih _ _ _ _ h hpc1 (by dsimp only; omega)
      next t1 node board hwalk =>
        split at h
        · cases h
        next t2 hprop =>
          have hpc1 := NonSolve.walk_parentConsistent g fsqrt st.settings
            _ _ _ _ _ _ _ hwalk hpc hlen
          obtain ⟨-, hle1, -⟩ := NonSolve.walk_ok g fsqrt st.settings
            _ _ _ _ _ _ _ hwalk
          have hpc2 := NonSolve.propagateWdl_parentConsistent _ _ _ _ _ _ hprop hpc1
          have hlen2 : t2.len = t1.len :=
            (NonSolve.propagateWdl_ok _ _ _ _ _ _ hprop).1
          exact ih _ _ _ _ h hpc2 (by dsimp only; omega)
  · cases h
    exact hpc

/-- `run_until_result_from_root` preserves parent–child consistency. -/
theorem NonSolve.runFromRoot_parentConsistent {B M : Type} (g : GameOps B M)
    (fsqrt : ℕ → F) (fuel : ℕ) (st st' : NonSolve.ZeroState B M)
    (rr : NonSolve.RunResult B)
    (h : NonSolve.runFromRoot g fsqrt fuel st = .ok (st', rr))
    (hpc : NonSolve.parentConsistent st.tree) (hlen : 0 < st.tree.len) :
    NonSolve.parentConsistent st'.tree := by
unfold NonSolve.runFromRoot at h
split at h
· cases h
next st1 subs1 haux =>
  have hpc1 := NonSolve.runFromRootAux_parentConsistent g fsqrt fuel st [] st1
    subs1 haux hpc hlen
  cases h
  exact hpc1

/-- `run_until_result` (apply phase followed by gather phase) preserves
parent–child consistency. -/
theorem NonSolve.runUntilResult_parentConsistent {B M : Type} [DecidableEq M]
    (g : GameOps B M) (fsqrt : ℕ → F) (fuel : ℕ)
    (st : NonSolve.ZeroState B M)
    (response : Option (List (NonSolve.SubResponse B)))
    (st' : NonSolve.ZeroState B M) (rr : NonSolve.RunResult B)
    (h : NonSolve.runUntilResult g fsqrt fuel st response = .ok (st', rr))
    (hpc : NonSolve.parentConsistent st.tree) (hlen : 0 < st.tree.len) :
    NonSolve.parentConsistent st'.tree := by
unfold NonSolve.runUntilResult at h
cases response with
| none =>
  by_cases hemp : ¬ st.expectedNodes.isEmpty
  · rw [if_pos hemp] at h
    cases h
  · rw [if_neg hemp] at h
    exact NonSolve.runFromRoot_parentConsistent g fsqrt fuel st st' rr h hpc hlen
| some responses =>
  dsimp only at h
  by_cases hemp : st.expectedNodes.isEmpty
  · rw [if_pos hemp] at h
    cases h
  · rw [if_neg hemp] at h
    cases happ : NonSolve.applyEval g st responses with
    | error e =>
      rw [happ] at h
      cases h
    | ok st1 =>
      rw [happ] at h
      dsimp only at h
      have hpc1 := NonSolve.applyEval_parentConsistent g st responses st1 happ hpc
      have hlen1 : st1.tree.len = st.tree.len :=
        (NonSolve.applyEval_ok g st responses st1 happ).2.1
      exact NonSolve.runFromRoot_parentConsistent g fsqrt fuel st1 st' rr h hpc1
        (by omega)

/-- The driver loop of `zero_build_tree` preserves parent–child
consistency. -/
theorem NonSolve.buildLoop_parentConsistent {B M : Type} [DecidableEq M]
    (g : GameOps B M) (fsqrt : ℕ → F) (network : B → ZeroEvaluation)
    (innerFuel : ℕ) :
    ∀ (fuel : ℕ) (st : NonSolve.ZeroState B M)
      (response : Option (List (NonSolve.SubResponse B))) (reqCount : ℕ)
      (t : NonSolve.Tree B M) (reqTotal : ℕ),
    NonSolve.buildLoop g fsqrt network innerFuel fuel st response reqCount
      = .ok (t, reqTotal) →
    NonSolve.parentConsistent st.tree → 0 < st.tree.len →
    NonSolve.parentConsistent t := by
intro fuel
induction fuel with
| zero =>
  intro st response reqCount t reqTotal h
  exact absurd h (by simp [NonSolve.buildLoop])
| succ fuel ih =>
  intro st response reqCount t reqTotal h hpc hlen
  unfold NonSolve.buildLoop at h
  cases hrun : NonSolve.runUntilResult g fsqrt innerFuel st response with
  | error e =>
    rw [hrun] at h
    cases h
  | ok pair =>
    obtain ⟨st1, rr⟩ := pair
    rw [hrun] at h
    have hpc1 := NonSolve.runUntilResult_parentConsistent g fsqrt innerFuel st
      response st1 rr hrun hpc hlen
    have hlen1 : 0 < st1.tree.len :=
      (NonSolve.runUntilResult_ok g fsqrt innerFuel st response st1 rr hrun hlen).1
    cases rr with
    | done =>
      cases h
      exact hpc1
    | request subs =>
      exact ih st1 _ _ t reqTotal h hpc1 hlen1

/-- `zero_build_tree` always returns a parent–child consistent tree. -/
theorem NonSolve.zeroBuildTree_parentConsistent {B M : Type} [DecidableEq M]
    (g : GameOps B M) (fsqrt : ℕ → F) (network : B → ZeroEvaluation)
    (innerFuel outerFuel : ℕ) (board : B) (n : ℕ)
    (settings : NonSolve.ZeroSettings) (t : NonSolve.Tree B M) (reqs : ℕ)
    (h : NonSolve.zeroBuildTree g fsqrt network innerFuel outerFuel board n settings
      = .ok (t, reqs)) :
    NonSolve.parentConsistent t := by
unfold NonSolve.zeroBuildTree at h
cases hnew : NonSolve.Tree.new g board with
| error e =>
  rw [hnew] at h
  cases h
| ok t0 =>
  rw [hnew] at h
  have hpc0 := NonSolve.new_parentConsistent g board t0 hnew
  have hlen0 : 0 < t0.len := by
    unfold NonSolve.Tree.new at hnew
    split at hnew
    · cases hnew
    · cases hnew
      simp [NonSolve.Tree.len]
  exact NonSolve.buildLoop_parentConsistent g fsqrt network innerFuel outerFuel
    (NonSolve.ZeroState.new t0 n settings) none 0 t reqs h hpc0 hlen0

/-- C3 (amended): parent–child consistency — every child in every node's
child range is in bounds and stores its parent's index — holds for the tree
built by `Tree::new` and is preserved by `propagate_wdl` and by the whole
`zero_build_tree` search driver (gather, expansion and apply phases).  It is
**not** preserved by `keep_move`, which copies the kept subtree into a new
arena without rewriting the copied nodes' `parent` fields — see the
counterexample. -/
theorem C3_parent_consistency_outside_keep_move {B M : Type} [DecidableEq M]
    (g : GameOps B M) (fsqrt : ℕ → F) (network : B → ZeroEvaluation) :
    (∀ (b : B) (t : NonSolve.Tree B M),
      NonSolve.Tree.new g b = .ok t → NonSolve.parentConsistent t)
    ∧ (∀ (fuel : ℕ) (t : NonSolve.Tree B M) (idx : ℕ) (wdl : WDL) (cv : Bool)
        (t' : NonSolve.Tree B M),
        NonSolve.Tree.propagateWdl fuel t idx wdl cv = .ok t' →
        NonSolve.parentConsistent t → NonSolve.parentConsistent t')
    ∧ (∀ (innerFuel outerFuel : ℕ) (board : B) (n : ℕ)
        (settings : NonSolve.ZeroSettings) (t : NonSolve.Tree B M) (reqs : ℕ),
        NonSolve.zeroBuildTree g fsqrt network innerFuel outerFuel board n settings
          = .ok (t, reqs) →
        NonSolve.parentConsistent t) :=
⟨fun b t h => NonSolve.new_parentConsistent g b t h,
 fun fuel t idx wdl cv t' h hpc =>
   NonSolve.propagateWdl_parentConsistent fuel t idx wdl cv t' h hpc,
 fun innerFuel outerFuel board n settings t reqs h =>
   NonSolve.zeroBuildTree_parentConsistent g fsqrt network innerFuel outerFuel
     board n settings t reqs h⟩

/-- C3 (witness): the finished concrete `lineGame` search tree is
parent–child consistent. -/
theorem C3_parent_consistency_witness :
    NonSolve.parentConsistent NonSolve.lineRunTree :=
(C3_parent_consistency_outside_keep_move NonSolve.lineGame NonSolve.fsqrtQ
    NonSolve.lineNetwork).2.2 20 20 0 3 ⟨2, 2⟩ NonSolve.lineRunTree 1 (by rfl)

/-- The encoder traverses exactly 64 squares. -/
theorem Chess.length_squaresPov (c : Chess.Color) :
    (Chess.squaresPov c).length = 64 := by
cases c <;> rfl

/-- The two side-to-move indicator planes hold `2 × 64` entries. -/
theorem Chess.length_stmPlanes (pos : Chess.ChessPos) :
    (Chess.stmPlanes pos).length = 2 * (8 * 8) := by
simp only [Chess.stmPlanes, Chess.ALL_COLORS, List.flatMap_cons, List.flatMap_nil,
  List.append_nil, List.length_append, List.length_replicate]

/-- The documented plane list holds `21 × 64` entries. -/
theorem Chess.length_specPlanes (pos : Chess.ChessPos) :
    (Chess.specPlanes pos).length = 21 * (8 * 8) := by
simp only [Chess.specPlanes, Chess.ALL_PIECES, List.flatMap_cons, List.flatMap_nil,
  List.append_nil, List.length_append, List.length_map, List.length_replicate,
  Chess.length_squaresPov]

/-- C6 (amended): for every board, `append_board_to` extends the buffer with
the two side-to-move indicator planes followed by exactly the documented
plane list (pieces for `{us, them} × {P,N,B,R,Q,K}`, en passant, four
castling planes, two repetition planes, two move counters) — `2` planes plus
`21` planes of `8 × 8` entries each, matching the source's
`INPUT_CHANNELS = 23`, not the `19` channels the spec counts. -/
theorem C6_input_planes_structure (result : List ℚ) (pos : Chess.ChessPos) :
    Chess.appendBoardTo result pos
      = result ++ Chess.stmPlanes pos ++ Chess.specPlanes pos
    ∧ (Chess.stmPlanes pos).length = 2 * (8 * 8)
    ∧ (Chess.specPlanes pos).length = 21 * (8 * 8)
    ∧ Chess.INPUT_CHANNELS = 2 + 21 :=
⟨rfl, Chess.length_stmPlanes pos, Chess.length_specPlanes pos, rfl⟩

/-- A key found in an object is still found after appending more fields. -/
theorem Proto.getField_append (fields extra : List (String × Proto.Json))
    (m : String) (j : Proto.Json) (h : Proto.getField fields m = some j) :
    Proto.getField (fields ++ extra) m = some j := by
unfold Proto.getField at h ⊢
rw [List.find?_append]
cases hf : List.find? (fun kv => kv.1 = m) fields with
| none =>
  rw [hf] at h
  cases h
| some kv =>
  rw [hf] at h
  simpa using h

/-- A required field that parses keeps parsing after appending more
fields. -/
theorem Proto.reqField_append (fields extra : List (String × Proto.Json))
    (m : String) {A : Type} (parse : Proto.Json → Except String A) (x : A)
    (h : Proto.reqField fields m parse = .ok x) :
    Proto.reqField (fields ++ extra) m parse = .ok x := by
unfold Proto.reqField at h ⊢
cases hf : Proto.getField fields m with
| none =>
  rw [hf] at h
  cases h
| some j =>
  rw [Proto.getField_append fields extra m j hf]
  rw [hf] at h
  exact h

/-- `StartupSettings` (no `deny_unknown_fields`) ignores any appended
unknown fields: a payload that deserializes keeps deserializing to the same
value. -/
theorem Proto.deserStartupSettings_ignores_unknown
    (fields extra : List (String × Proto.Json)) (s : Proto.StartupSettings)
    (h : Proto.deserStartupSettings (.obj fields) = .ok s) :
    Proto.deserStartupSettings (.obj (fields ++ extra)) = .ok s := by
unfold Proto.deserStartupSettings at h ⊢
dsimp only at h ⊢
cases h1 : Proto.reqField fields "game" Proto.asStr with
| error e =>
  rw [h1] at h
  cases h
| ok game =>
  rw [h1] at h
  dsimp only at h
  rw [Proto.reqField_append _ _ _ _ _ h1]
  dsimp only
  cases h2 : Proto.reqField fields "muzero" Proto.asBool with
  | error e =>
    rw [h2] at h
    cases h
  | ok muzero =>
    rw [h2] at h
    dsimp only at h
    rw [Proto.reqField_append _ _ _ _ _ h2]
    dsimp only
    cases h3 : Proto.reqField fields "first_gen" Proto.asNat with
    | error e =>
      rw [h3] at h
      cases h
    | ok firstGen =>
      rw [h3] at h
      dsimp only at h
      rw [Proto.reqField_append _ _ _ _ _ h3]
      dsimp only
      cases h4 : Proto.reqField fields "output_folder" Proto.asStr with
      | error e =>
        rw [h4] at h
        cases h
      | ok outputFolder =>
        rw [h4] at h
        dsimp only at h
        rw [Proto.reqField_append _ _ _ _ _ h4]
        dsimp only
        cases h5 : Proto.reqField fields "games_per_gen" Proto.asNat with
        | error e =>
          rw [h5] at h
          cases h
        | ok gamesPerGen =>
          rw [h5] at h
          dsimp only at h
          rw [Proto.reqField_append _ _ _ _ _ h5]
          dsimp only
          cases h6 : Proto.reqField fields "cpu_threads_per_device" Proto.asNat with
          | error e =>
            rw [h6] at h
            cases h
          | ok cpu =>
            rw [h6] at h
            dsimp only at h
            rw [Proto.reqField_append _ _ _ _ _ h6]
            dsimp only
            cases h7 : Proto.reqField fields "gpu_threads_per_device" Proto.asNat with
            | error e =>
              rw [h7] at h
              cases h
            | ok gpu =>
              rw [h7] at h
              dsimp only at h
              rw [Proto.reqField_append _ _ _ _ _ h7]
              dsimp only
              cases h8 : Proto.reqField fields "gpu_batch_size" Proto.asNat with
              | error e =>
                rw [h8] at h
                cases h
              | ok gpuBatch =>
                rw [h8] at h
                dsimp only at h
                rw [Proto.reqField_append _ _ _ _ _ h8]
                dsimp only
                cases h9 : Proto.reqField fields "gpu_batch_size_root" Proto.asNat with
                | error e =>
                  rw [h9] at h
                  cases h
                | ok gpuBatchRoot =>
                  rw [h9] at h
                  dsimp only at h
                  rw [Proto.reqField_append _ _ _ _ _ h9]
                  dsimp only
                  cases h10 : Proto.reqField fields "saved_state_channels" Proto.asNat with
                  | error e =>
                    rw [h10] at h
                    cases h
                  | ok saved =>
                    rw [h10] at h
                    dsimp only at h
                    rw [Proto.reqField_append _ _ _ _ _ h10]
                    dsimp only
                    exact h

/-- `Settings` (`deny_unknown_fields`) rejects any object containing a key
outside its schema. -/
theorem Proto.deserSettings_rejects_unknown (fields : List (String × Proto.Json))
    (kv : String × Proto.Json) (hmem : kv ∈ fields)
    (hunk : ¬ kv.1 ∈ Proto.settingsFieldNames) :
    Proto.deserSettings (.obj fields) = .error "unknown field" := by
unfold Proto.deserSettings
dsimp only
split
next => rfl
next h2 =>
  exfalso
  rw [not_not, List.all_eq_true] at h2
  have := h2 kv hmem
  rw [decide_eq_true_eq] at this
  exact hunk this

/-- The `Command` enum rejects unknown variant names. -/
theorem Proto.deserCommand_unknown_variant (name : String) (payload : Proto.Json)
    (n1 : name ≠ "StartupSettings") (n2 : name ≠ "NewSettings")
    (n3 : name ≠ "NewNetwork") (n4 : name ≠ "WaitForNewNetwork")
    (n5 : name ≠ "Stop") :
    Proto.deserCommand (.obj [(name, payload)]) = .error "unknown variant" := by
unfold Proto.deserCommand
dsimp only
rw [if_neg n1, if_neg n2, if_neg n3, if_neg n4, if_neg n5]

/-- C9 (amended): unknown keys are rejected at the `Command` level (an
unknown variant name fails) and inside a `NewSettings` payload (`Settings`
has `deny_unknown_fields`), but **not** inside a `StartupSettings` payload:
`StartupSettings` lacks the attribute, so any unknown fields appended to a
well-formed payload are silently ignored and deserialization still
succeeds. -/
theorem C9_unknown_field_rejection (fields extra : List (String × Proto.Json))
    (kv : String × Proto.Json) (name : String) (payload : Proto.Json)
    (s : Proto.StartupSettings) :
    (name ≠ "StartupSettings" → name ≠ "NewSettings" → name ≠ "NewNetwork" →
      name ≠ "WaitForNewNetwork" → name ≠ "Stop" →
      Proto.deserCommand (.obj [(name, payload)]) = .error "unknown variant")
    ∧ (kv ∈ fields → ¬ kv.1 ∈ Proto.settingsFieldNames →
      Proto.deserCommand (.obj [("NewSettings", .obj fields)])
        = .error "unknown field")
    ∧ (Proto.deserStartupSettings (.obj fields) = .ok s →
      Proto.deserCommand (.obj [("StartupSettings", .obj (fields ++ extra))])
        = .ok (.startupSettings s)) := by
refine ⟨?_, ?_, ?_⟩
· intro n1 n2 n3 n4 n5
  exact Proto.deserCommand_unknown_variant name payload n1 n2 n3 n4 n5
· intro hmem hunk
  unfold Proto.deserCommand
  dsimp only
  rw [if_neg (by decide), if_pos rfl]
  rw [Proto.deserSettings_rejects_unknown fields kv hmem hunk]
  rfl
· intro hs
  unfold Proto.deserCommand
  dsimp only
  rw [if_pos rfl]
  rw [Proto.deserStartupSettings_ignores_unknown fields extra s hs]
  rfl

/-- C9 (witness): the amended theorem at concrete inputs — the unknown
variant `"Bogus"` fails, a `NewSettings` payload with key `"bogus"` fails,
and the `StartupSettings` payload with `"bogus_field"` appended still
deserializes. -/
theorem C9_unknown_field_rejection_witness :
    Proto.deserCommand (.obj [("Bogus", .null)]) = .error "unknown variant"
    ∧ Proto.deserCommand (.obj [("NewSettings", .obj [("bogus", .null)])])
        = .error "unknown field"
    ∧ Proto.deserCommand (.obj [("StartupSettings", .obj
        ([("game", .str "ataxx-7"),
          ("muzero", .bool false),
          ("first_gen", .num 0),
          ("output_folder", .str "out"),
          ("games_per_gen", .num 100),
          ("cpu_threads_per_device", .num 2),
          ("gpu_threads_per_device", .num 1),
          ("gpu_batch_size", .num 256),
          ("gpu_batch_size_root", .num 16),
          ("saved_state_channels", .num 32)]
         ++ [("bogus_field", .num 42)]))])
        = .ok (.startupSettings
            ⟨"ataxx-7", false, 0, "out", 100, 2, 1, 256, 16, 32⟩) :=
⟨(C9_unknown_field_rejection [] [] ("", .null) "Bogus" .null
    ⟨"", false, 0, "", 0, 0, 0, 0, 0, 0⟩).1
  (by decide) (by decide) (by decide) (by decide) (by decide),
 (C9_unknown_field_rejection [("bogus", .null)] [] ("bogus", .null) "" .null
    ⟨"", false, 0, "", 0, 0, 0, 0, 0, 0⟩).2.1
  (List.mem_cons_self _ _) (by decide),
 (C9_unknown_field_rejection
    [("game", .str "ataxx-7"),
     ("muzero", .bool false),
     ("first_gen", .num 0),
     ("output_folder", .str "out"),
     ("games_per_gen", .num 100),
     ("cpu_threads_per_device", .num 2),
     ("gpu_threads_per_device", .num 1),
     ("gpu_batch_size", .num 256),
     ("gpu_batch_size_root", .num 16),
     ("saved_state_channels", .num 32)]
    [("bogus_field", .num 42)] ("", .null) "" .null
    ⟨"ataxx-7", false, 0, "out", 100, 2, 1, 256, 16, 32⟩).2.2
  (by rfl)⟩

/-- The driver loop leaves the root board unchanged. -/
theorem NonSolve.buildLoop_rootBoard {B M : Type} [DecidableEq M]
    (g : GameOps B M) (fsqrt : ℕ → F) (network : B → ZeroEvaluation)
    (innerFuel : ℕ) :
    ∀ (fuel : ℕ) (st : NonSolve.ZeroState B M)
      (response : Option (List (NonSolve.SubResponse B))) (reqCount : ℕ)
      (t : NonSolve.Tree B M) (reqTotal : ℕ),
    NonSolve.buildLoop g fsqrt network innerFuel fuel st response reqCount
      = .ok (t, reqTotal) →
    0 < st.tree.len →
    t.rootBoard = st.tree.rootBoard := by
intro fuel
induction fuel with
| zero =>
  intro st response reqCount t reqTotal h
  exact absurd h (by simp [NonSolve.buildLoop])
| succ fuel ih =>
  intro st response reqCount t reqTotal h hlen
  unfold NonSolve.buildLoop at h
  cases hrun : NonSolve.runUntilResult g fsqrt innerFuel st response with
  | error e =>
    rw [hrun] at h
    cases h
  | ok pair =>
    obtain ⟨st1, rr⟩ := pair
    rw [hrun] at h
    have hu := NonSolve.runUntilResult_ok g fsqrt innerFuel st response st1 rr
      hrun hlen
    cases rr with
    | done =>
      cases h
      exact hu.2.2.2.1
    | request subs =>
      rw [ih st1 _ _ t reqTotal h hu.1]
      exact hu.2.2.2.1

/-- The one-move game satisfies the game-interface contract. -/
theorem NonSolve.lineGame_wf : GameOps.Wf NonSolve.lineGame := by
intro b
by_cases hb : b = 0
· subst hb
  exact ⟨rfl, fun _ => by simp [NonSolve.lineGame]⟩
· constructor
  · show decide (b ≠ 0) = (if b = 0 then none else some Outcome.draw).isSome
    rw [if_neg hb]
    simp [hb]
  · intro hdone
    exfalso
    simp [NonSolve.lineGame] at hdone
    exact hb hdone

/-- The two-ply game satisfies the game-interface contract. -/
theorem NonSolve.depth2Game_wf : GameOps.Wf NonSolve.depth2Game := by
intro b
by_cases hb : b < 2
· constructor
  · show decide (2 ≤ b) = (if b < 2 then none else some Outcome.draw).isSome
    rw [if_pos hb]
    simp
    omega
  · intro hdone
    show (if b < 2 then [false, true] else []) ≠ []
    rw [if_pos hb]
    simp
· constructor
  · show decide (2 ≤ b) = (if b < 2 then none else some Outcome.draw).isSome
    rw [if_neg hb]
    simp
    omega
  · intro hdone
    exfalso
    simp [NonSolve.depth2Game] at hdone
    omega

/-- C10: every search tree has a non-terminal root board — `Tree::new` on a
decided board fails with the `"Cannot build tree for done board"`
diagnostic; a freshly built tree's root board is the given non-terminal
board; the whole `zero_build_tree` driver keeps the root board (hence its
non-terminality); and `keep_move`, the only operation that replaces the
root board, returns a tree only when the new root board is not terminal
(a terminal move yields `Done(outcome)` instead). -/
theorem C10_root_board_never_terminal {B M : Type} [DecidableEq M]
    (g : GameOps B M) (hwf : GameOps.Wf g) :
    (∀ b : B, g.isDone b = true →
      NonSolve.Tree.new g b = .error "Cannot build tree for done board")
    ∧ (∀ (b : B) (t : NonSolve.Tree B M), NonSolve.Tree.new g b = .ok t →
        t.rootBoard = b ∧ g.isDone t.rootBoard = false)
    ∧ (∀ (fsqrt : ℕ → F) (network : B → ZeroEvaluation)
        (innerFuel outerFuel n reqs : ℕ) (board : B)
        (settings : NonSolve.ZeroSettings) (t : NonSolve.Tree B M),
        NonSolve.zeroBuildTree g fsqrt network innerFuel outerFuel board n settings
          = .ok (t, reqs) →
        t.rootBoard = board ∧ g.isDone t.rootBoard = false)
    ∧ (∀ (t : NonSolve.Tree B M) (mv : M) (t' : NonSolve.Tree B M),
        NonSolve.Tree.keepMove g t mv = .ok (.tree t') →
        g.isDone t'.rootBoard = false) := by
have hnew_ok : ∀ (b : B) (t : NonSolve.Tree B M), NonSolve.Tree.new g b = .ok t →
    t.rootBoard = b ∧ g.isDone t.rootBoard = false := by
  intro b t h
  unfold NonSolve.Tree.new at h
  split at h
  · cases h
  next hnd =>
    cases h
    refine ⟨rfl, ?_⟩
    simpa using hnd
refine ⟨?_, hnew_ok, ?_, ?_⟩
· intro b hdone
  unfold NonSolve.Tree.new
  rw [if_pos hdone]
· intro fsqrt network innerFuel outerFuel n reqs board settings t h
  unfold NonSolve.zeroBuildTree at h
  cases hnew : NonSolve.Tree.new g board with
  | error e =>
    rw [hnew] at h
    cases h
  | ok t0 =>
    rw [hnew] at h
    obtain ⟨hrb, hnd⟩ := hnew_ok board t0 hnew
    have hlen0 : 0 < t0.len := by
      unfold NonSolve.Tree.new at hnew
      split at hnew
      · cases hnew
      · cases hnew
        simp [NonSolve.Tree.len]
    have hroot := NonSolve.buildLoop_rootBoard g fsqrt network innerFuel outerFuel
      (NonSolve.ZeroState.new t0 n settings) none 0 t reqs h hlen0
    constructor
    · rw [hroot]
      exact hrb
    · rw [hroot]
      exact hnd
· intro t mv t' h
  unfold NonSolve.Tree.keepMove at h
  split at h
  · cases h
  · dsimp only at h
    cases hout : g.outcome (g.play t.rootBoard mv) with
    | some outcome =>
      rw [hout] at h
      cases h
    | none =>
      rw [hout] at h
      dsimp only at h
      split at h
      · cases h
      next children hch =>
        split at h
        · cases h
        next picked hpick =>
          split at h
          · cases h
          next newNodes hloop =>
            cases h
            have hd := (hwf (g.play t.rootBoard mv)).1
            rw [hout] at hd
            simpa using hd

/-- C10 (witness): the concrete instances — building on the decided board
`5` of the two-ply game fails; fresh trees, the completed `lineGame` search
tree and the tree kept by `keep_move` all have non-terminal root boards. -/
theorem C10_root_board_never_terminal_witness :
    NonSolve.Tree.new NonSolve.depth2Game 5
      = .error "Cannot build tree for done board"
    ∧ NonSolve.depth2Game.isDone
        ((⟨0, [NonSolve.Node.new 0 none 0]⟩ : NonSolve.Tree ℕ Bool)).rootBoard
        = false
    ∧ NonSolve.lineGame.isDone NonSolve.lineRunTree.rootBoard = false
    ∧ NonSolve.depth2Game.isDone NonSolve.keptTree3.rootBoard = false :=
⟨(C10_root_board_never_terminal NonSolve.depth2Game NonSolve.depth2Game_wf).1
   5 rfl,
 ((C10_root_board_never_terminal NonSolve.depth2Game NonSolve.depth2Game_wf).2.1
   0 ⟨0, [NonSolve.Node.new 0 none 0]⟩ (by rfl)).2,
 ((C10_root_board_never_terminal NonSolve.lineGame NonSolve.lineGame_wf).2.2.1
   NonSolve.fsqrtQ NonSolve.lineNetwork 20 20 3 1 0 ⟨2, 2⟩ NonSolve.lineRunTree
   (by rfl)).2,
 (C10_root_board_never_terminal NonSolve.depth2Game NonSolve.depth2Game_wf).2.2.2
   NonSolve.depth2FinalTree true NonSolve.keptTree3 (by rfl)⟩

/-- `square_pov` is an involution (rank-flip twice is the identity). -/
theorem Chess.squarePov_squarePov (c : Chess.Color) (s : Chess.Square) :
    Chess.squarePov c (Chess.squarePov c s) = s := by
cases c with
| white => rfl
| black =>
  unfold Chess.squarePov
  obtain ⟨⟨r, hr⟩, f⟩ := s
  simp only [Chess.Square.mk.injEq, Fin.mk.injEq]
  constructor
  · omega
  · trivial

/-- `move_pov` is an involution. -/
theorem Chess.movePov_movePov (c : Chess.Color) (m : Chess.ChessMove) :
    Chess.movePov c (Chess.movePov c m) = m := by
unfold Chess.movePov
simp only [Chess.squarePov_squarePov]

/-- A square index is below 64. -/
theorem Chess.toIndex_lt (s : Chess.Square) : s.toIndex < 64 := by
unfold Chess.Square.toIndex
have h1 := s.rank.isLt
have h2 := s.file.isLt
omega

/-- Decoding a square index recovers the square. -/
theorem Chess.squareFromIndex_toIndex (s : Chess.Square) :
    Chess.squareFromIndex s.toIndex = some s := by
obtain ⟨⟨r, hr⟩, ⟨f, hf⟩⟩ := s
unfold Chess.squareFromIndex Chess.Square.toIndex
rw [dif_pos (by omega)]
simp only [Option.some.injEq, Chess.Square.mk.injEq, Fin.mk.injEq]
constructor
· omega
· omega

/-- `square` recovers a known destination square from its source-relative
coordinates. -/
theorem Chess.square_eq_some (s d : Chess.Square) (a b : ℤ)
    (ha : (d.rank.val : ℤ) = s.rank.val + a)
    (hb : (d.file.val : ℤ) = s.file.val + b) :
    Chess.square ((s.rank.val : ℤ) + a) ((s.file.val : ℤ) + b) = some d := by
obtain ⟨⟨r, hr⟩, ⟨f, hf⟩⟩ := d
dsimp only at ha hb
rw [← ha, ← hb]
unfold Chess.square
rw [dif_pos (by omega)]
simp only [Option.some.injEq, Chess.Square.mk.injEq, Fin.mk.injEq]
constructor
· omega
· omega

/-- `from_channel` inverts `to_channel`. -/
theorem Chess.fromChannel_toChannel (cls : Chess.ClassifiedPovMove) (ch : ℕ)
    (h : cls.toChannel = some ch) :
    Chess.ClassifiedPovMove.fromChannel ch = some cls ∧ ch < 73 := by
cases cls with
| queen d m =>
  unfold Chess.ClassifiedPovMove.toChannel at h
  dsimp only at h
  by_cases hb : d < 8 ∧ m < 7
  · rw [if_pos hb] at h
    cases h
    unfold Chess.ClassifiedPovMove.fromChannel Chess.QUEEN_CHANNELS
    rw [if_pos (by omega)]
    have h1 : (d * 7 + m) / 7 = d := by omega
    have h2 : (d * 7 + m) % 7 = m := by omega
    rw [h1, h2]
    exact ⟨rfl, by omega⟩
  · rw [if_neg hb] at h
    cases h
| knight d =>
  unfold Chess.ClassifiedPovMove.toChannel at h
  dsimp only at h
  by_cases hb : d < 8
  · rw [if_pos hb] at h
    cases h
    have hQ : Chess.QUEEN_CHANNELS = 7 * 8 := rfl
    unfold Chess.ClassifiedPovMove.fromChannel Chess.QUEEN_CHANNELS
      Chess.KNIGHT_CHANNELS
    rw [if_neg (by omega), if_pos (by omega)]
    have h1 : 7 * 8 + d - 7 * 8 = d := by omega
    rw [h1]
    exact ⟨rfl, by omega⟩
  · rw [if_neg hb] at h
    cases h
| underPromotion d p =>
  unfold Chess.ClassifiedPovMove.toChannel at h
  dsimp only at h
  by_cases hb : d < 3 ∧ p < 3
  · rw [if_pos hb] at h
    cases h
    have hQ : Chess.QUEEN_CHANNELS = 7 * 8 := rfl
    have hK : Chess.KNIGHT_CHANNELS = 8 := rfl
    unfold Chess.ClassifiedPovMove.fromChannel Chess.QUEEN_CHANNELS
      Chess.KNIGHT_CHANNELS Chess.POLICY_CHANNELS Chess.UNDERPROMOTION_CHANNELS
    rw [if_neg (by omega), if_neg (by omega), if_pos (by omega)]
    have h1 : (7 * 8 + 8 + d * 3 + p - (7 * 8 + 8)) / 3 = d := by omega
    have h2 : (7 * 8 + 8 + d * 3 + p - (7 * 8 + 8)) % 3 = p := by omega
    rw [h1, h2]
    exact ⟨rfl, by omega⟩
  · rw [if_neg hb] at h
    cases h

/-- The decode pipeline: when the POV form of a move classifies, the
classification has a channel, and `to_move` reconstructs the POV move from
the channel data, then the full `move_to_index`/`index_to_move` round trip
returns the original absolute move. -/
theorem Chess.roundtrip_of_classified (pos : Chess.ChessPos)
    (mvAbs : Chess.ChessMove) (cls : Chess.ClassifiedPovMove) (ch : ℕ)
    (hfm : Chess.ClassifiedPovMove.fromMove (Chess.movePov pos.sideToMove mvAbs)
      = some cls)
    (hch : cls.toChannel = some ch)
    (htm : cls.toMove (decide (pos.pieceOn mvAbs.source = some Chess.Piece.pawn))
        (Chess.movePov pos.sideToMove mvAbs).source
      = some (Chess.movePov pos.sideToMove mvAbs)) :
    (Chess.moveToIndex pos mvAbs).bind (Chess.indexToMove pos) = some mvAbs := by
obtain ⟨hfc, hlt⟩ := Chess.fromChannel_toChannel cls ch hch
have h64 := Chess.toIndex_lt (Chess.movePov pos.sideToMove mvAbs).source
have hPC : Chess.POLICY_CHANNELS = 73 := rfl
have hPS : Chess.POLICY_SIZE = 73 * 8 * 8 := rfl
have hmti : Chess.moveToIndex pos mvAbs
    = some (ch * 8 * 8 + (Chess.movePov pos.sideToMove mvAbs).source.toIndex) := by
  unfold Chess.moveToIndex
  dsimp only
  rw [hfm]
  dsimp only
  rw [hch]
  dsimp only
  rw [if_pos (by omega), if_pos (by omega)]
rw [hmti, Option.some_bind]
unfold Chess.indexToMove
dsimp only
have ha1 : (ch * 8 * 8 + (Chess.movePov pos.sideToMove mvAbs).source.toIndex)
    / (8 * 8) = ch := by omega
have ha2 : (ch * 8 * 8 + (Chess.movePov pos.sideToMove mvAbs).source.toIndex)
    % (8 * 8) = (Chess.movePov pos.sideToMove mvAbs).source.toIndex := by omega
rw [ha1, ha2, hfc]
dsimp only
rw [Chess.squareFromIndex_toIndex (Chess.movePov pos.sideToMove mvAbs).source]
dsimp only
have hfa : Chess.squarePov pos.sideToMove
    (Chess.movePov pos.sideToMove mvAbs).source = mvAbs.source :=
  Chess.squarePov_squarePov pos.sideToMove mvAbs.source
rw [hfa, htm]
dsimp only
rw [Chess.movePov_movePov]

/-- The knight classification case: a knight-delta move without promotion
classifies as a knight channel and decodes back. -/
theorem Chess.knight_case (mv : Chess.ChessMove) (pawn : Bool)
    (hmem : (((mv.dest.rank.val : ℤ) - (mv.source.rank.val : ℤ)),
             ((mv.dest.file.val : ℤ) - (mv.source.file.val : ℤ)))
      ∈ Chess.KNIGHT_DELTAS)
    (hpromo : mv.promotion = none) :
    ∃ i, Chess.ClassifiedPovMove.fromMove mv = some (.knight i)
    ∧ (Chess.ClassifiedPovMove.knight i).toChannel
        = some (Chess.QUEEN_CHANNELS + i)
    ∧ (Chess.ClassifiedPovMove.knight i).toMove pawn mv.source = some mv := by
simp only [Chess.KNIGHT_DELTAS, List.mem_cons, List.not_mem_nil, or_false] at hmem
rcases hmem with h | h | h | h | h | h | h | h
· rw [Prod.mk.injEq] at h
  obtain ⟨h1, h2⟩ := h
  refine ⟨0, ?_, rfl, ?_⟩
  · unfold Chess.ClassifiedPovMove.fromMove
    dsimp only
    rw [hpromo]
    dsimp only
    rw [h1, h2]
    rfl
  · unfold Chess.ClassifiedPovMove.toMove
    dsimp only
    rw [show Chess.KNIGHT_DELTAS.get? 0 = some (2, 1) from rfl]
    dsimp only
    rw [Chess.square_eq_some mv.source mv.dest 2 1 (by omega) (by omega)]
    dsimp only
    rw [← hpromo]
· rw [Prod.mk.injEq] at h
  obtain ⟨h1, h2⟩ := h
  refine ⟨1, ?_, rfl, ?_⟩
  · unfold Chess.ClassifiedPovMove.fromMove
    dsimp only
    rw [hpromo]
    dsimp only
    rw [h1, h2]
    rfl
  · unfold Chess.ClassifiedPovMove.toMove
    dsimp only
    rw [show Chess.KNIGHT_DELTAS.get? 1 = some (1, 2) from rfl]
    dsimp only
    rw [Chess.square_eq_some mv.source mv.dest 1 2 (by omega) (by omega)]
    dsimp only
    rw [← hpromo]
· rw [Prod.mk.injEq] at h
  obtain ⟨h1, h2⟩ := h
  refine ⟨2, ?_, rfl, ?_⟩
  · unfold Chess.ClassifiedPovMove.fromMove
    dsimp only
    rw [hpromo]
    dsimp only
    rw [h1, h2]
    rfl
  · unfold Chess.ClassifiedPovMove.toMove
    dsimp only
    rw [show Chess.KNIGHT_DELTAS.get? 2 = some ((-1), 2) from rfl]
    dsimp only
    rw [Chess.square_eq_some mv.source mv.dest (-1) 2 (by omega) (by omega)]
    dsimp only
    rw [← hpromo]
· rw [Prod.mk.injEq] at h
  obtain ⟨h1, h2⟩ := h
  refine ⟨3, ?_, rfl, ?_⟩
  · unfold Chess.ClassifiedPovMove.fromMove
    dsimp only
    rw [hpromo]
    dsimp only
    rw [h1, h2]
    rfl
  · unfold Chess.ClassifiedPovMove.toMove
    dsimp only
    rw [show Chess.KNIGHT_DELTAS.get? 3 = some ((-2), 1) from rfl]
    dsimp only
    rw [Chess.square_eq_some mv.source mv.dest (-2) 1 (by omega) (by omega)]
    dsimp only
    rw [← hpromo]
· rw [Prod.mk.injEq] at h
  obtain ⟨h1, h2⟩ := h
  refine ⟨4, ?_, rfl, ?_⟩
  · unfold Chess.ClassifiedPovMove.fromMove
    dsimp only
    rw [hpromo]
    dsimp only
    rw [h1, h2]
    rfl
  · unfold Chess.ClassifiedPovMove.toMove
    dsimp only
    rw [show Chess.KNIGHT_DELTAS.get? 4 = some ((-2), (-1)) from rfl]
    dsimp only
    rw [Chess.square_eq_some mv.source mv.dest (-2) (-1) (by omega) (by omega)]
    dsimp only
    rw [← hpromo]
· rw [Prod.mk.injEq] at h
  obtain ⟨h1, h2⟩ := h
  refine ⟨5, ?_, rfl, ?_⟩
  · unfold Chess.ClassifiedPovMove.fromMove
    dsimp only
    rw [hpromo]
    dsimp only
    rw [h1, h2]
    rfl
  · unfold Chess.ClassifiedPovMove.toMove
    dsimp only
    rw [show Chess.KNIGHT_DELTAS.get? 5 = some ((-1), (-2)) from rfl]
    dsimp only
    rw [Chess.square_eq_some mv.source mv.dest (-1) (-2) (by omega) (by omega)]
    dsimp only
    rw [← hpromo]
· rw [Prod.mk.injEq] at h
  obtain ⟨h1, h2⟩ := h
  refine ⟨6, ?_, rfl, ?_⟩
  · unfold Chess.ClassifiedPovMove.fromMove
    dsimp only
    rw [hpromo]
    dsimp only
    rw [h1, h2]
    rfl
  · unfold Chess.ClassifiedPovMove.toMove
    dsimp only
    rw [show Chess.KNIGHT_DELTAS.get? 6 = some (1, (-2)) from rfl]
    dsimp only
    rw [Chess.square_eq_some mv.source mv.dest 1 (-2) (by omega) (by omega)]
    dsimp only
    rw [← hpromo]
· rw [Prod.mk.injEq] at h
  obtain ⟨h1, h2⟩ := h
  refine ⟨7, ?_, rfl, ?_⟩
  · unfold Chess.ClassifiedPovMove.fromMove
    dsimp only
    rw [hpromo]
    dsimp only
    rw [h1, h2]
    rfl
  · unfold Chess.ClassifiedPovMove.toMove
    dsimp only
    rw [show Chess.KNIGHT_DELTAS.get? 7 = some (2, (-1)) from rfl]
    dsimp only
    rw [Chess.square_eq_some mv.source mv.dest 2 (-1) (by omega) (by omega)]
    dsimp only
    rw [← hpromo]

/-- `square` at the promotion rank recovers a known destination square. -/
theorem Chess.square7_eq_some (s d : Chess.Square) (b : ℤ)
    (ha : (d.rank.val : ℤ) = 7) (hb : (d.file.val : ℤ) = s.file.val + b) :
    Chess.square 7 ((s.file.val : ℤ) + b) = some d := by
rw [← hb]
obtain ⟨⟨r, hr⟩, ⟨f, hf⟩⟩ := d
dsimp only at ha hb ⊢
unfold Chess.square
rw [dif_pos (by omega)]
simp only [Option.some.injEq, Chess.Square.mk.injEq, Fin.mk.injEq]
constructor
· omega
· omega

/-- The under-promotion classification case: a pawn stepping from the seventh
to the eighth POV rank with a rook, bishop or knight promotion classifies as
an under-promotion channel and decodes back. -/
theorem Chess.under_case (mv : Chess.ChessMove) (pawn : Bool) (q : Chess.Piece)
    (hq : q ∈ Chess.UNDERPROMOTION_PIECES)
    (hpromo : mv.promotion = some q)
    (hdr : (mv.dest.rank.val : ℤ) - (mv.source.rank.val : ℤ) = 1)
    (hdf : ((mv.dest.file.val : ℤ) - (mv.source.file.val : ℤ)).natAbs ≤ 1)
    (hr6 : mv.source.rank.val = 6) :
    ∃ d p, Chess.ClassifiedPovMove.fromMove mv = some (.underPromotion d p)
    ∧ (Chess.ClassifiedPovMove.underPromotion d p).toChannel
        = some (Chess.QUEEN_CHANNELS + Chess.KNIGHT_CHANNELS + d * 3 + p)
    ∧ (Chess.ClassifiedPovMove.underPromotion d p).toMove pawn mv.source
        = some mv := by
have hdf3 : (mv.dest.file.val : ℤ) - (mv.source.file.val : ℤ) = -1
    ∨ (mv.dest.file.val : ℤ) - (mv.source.file.val : ℤ) = 0
    ∨ (mv.dest.file.val : ℤ) - (mv.source.file.val : ℤ) = 1 := by omega
simp only [Chess.UNDERPROMOTION_PIECES, List.mem_cons, List.not_mem_nil,
  or_false] at hq
rcases hq with rfl | rfl | rfl <;> rcases hdf3 with hdfv | hdfv | hdfv
· refine ⟨0, 0, ?_, rfl, ?_⟩
  · unfold Chess.ClassifiedPovMove.fromMove
    dsimp only
    rw [hpromo]
    dsimp only
    rw [hdfv]
    rfl
  · unfold Chess.ClassifiedPovMove.toMove
    dsimp only
    rw [Chess.square7_eq_some mv.source mv.dest (((0 : ℕ) : ℤ) - 1)
      (by omega) (by omega)]
    dsimp only
    rw [show Chess.UNDERPROMOTION_PIECES.get? 0 = some Chess.Piece.rook from rfl]
    dsimp only
    rw [← hpromo]
· refine ⟨1, 0, ?_, rfl, ?_⟩
  · unfold Chess.ClassifiedPovMove.fromMove
    dsimp only
    rw [hpromo]
    dsimp only
    rw [hdfv]
    rfl
  · unfold Chess.ClassifiedPovMove.toMove
    dsimp only
    rw [Chess.square7_eq_some mv.source mv.dest (((1 : ℕ) : ℤ) - 1)
      (by omega) (by omega)]
    dsimp only
    rw [show Chess.UNDERPROMOTION_PIECES.get? 0 = some Chess.Piece.rook from rfl]
    dsimp only
    rw [← hpromo]
· refine ⟨2, 0, ?_, rfl, ?_⟩
  · unfold Chess.ClassifiedPovMove.fromMove
    dsimp only
    rw [hpromo]
    dsimp only
    rw [hdfv]
    rfl
  · unfold Chess.ClassifiedPovMove.toMove
    dsimp only
    rw [Chess.square7_eq_some mv.source mv.dest (((2 : ℕ) : ℤ) - 1)
      (by omega) (by omega)]
    dsimp only
    rw [show Chess.UNDERPROMOTION_PIECES.get? 0 = some Chess.Piece.rook from rfl]
    dsimp only
    rw [← hpromo]
· refine ⟨0, 1, ?_, rfl, ?_⟩
  · unfold Chess.ClassifiedPovMove.fromMove
    dsimp only
    rw [hpromo]
    dsimp only
    rw [hdfv]
    rfl
  · unfold Chess.ClassifiedPovMove.toMove
    dsimp only
    rw [Chess.square7_eq_some mv.source mv.dest (((0 : ℕ) : ℤ) - 1)
      (by omega) (by omega)]
    dsimp only
    rw [show Chess.UNDERPROMOTION_PIECES.get? 1 = some Chess.Piece.bishop from rfl]
    dsimp only
    rw [← hpromo]
· refine ⟨1, 1, ?_, rfl, ?_⟩
  · unfold Chess.ClassifiedPovMove.fromMove
    dsimp only
    rw [hpromo]
    dsimp only
    rw [hdfv]
    rfl
  · unfold Chess.ClassifiedPovMove.toMove
    dsimp only
    rw [Chess.square7_eq_some mv.source mv.dest (((1 : ℕ) : ℤ) - 1)
      (by omega) (by omega)]
    dsimp only
    rw [show Chess.UNDERPROMOTION_PIECES.get? 1 = some Chess.Piece.bishop from rfl]
    dsimp only
    rw [← hpromo]
· refine ⟨2, 1, ?_, rfl, ?_⟩
  · unfold Chess.ClassifiedPovMove.fromMove
    dsimp only
    rw [hpromo]
    dsimp only
    rw [hdfv]
    rfl
  · unfold Chess.ClassifiedPovMove.toMove
    dsimp only
    rw [Chess.square7_eq_some mv.source mv.dest (((2 : ℕ) : ℤ) - 1)
      (by omega) (by omega)]
    dsimp only
    rw [show Chess.UNDERPROMOTION_PIECES.get? 1 = some Chess.Piece.bishop from rfl]
    dsimp only
    rw [← hpromo]
· refine ⟨0, 2, ?_, rfl, ?_⟩
  · unfold Chess.ClassifiedPovMove.fromMove
    dsimp only
    rw [hpromo]
    dsimp only
    rw [hdfv]
    rfl
  · unfold Chess.ClassifiedPovMove.toMove
    dsimp only
    rw [Chess.square7_eq_some mv.source mv.dest (((0 : ℕ) : ℤ) - 1)
      (by omega) (by omega)]
    dsimp only
    rw [show Chess.UNDERPROMOTION_PIECES.get? 2 = some Chess.Piece.knight from rfl]
    dsimp only
    rw [← hpromo]
· refine ⟨1, 2, ?_, rfl, ?_⟩
  · unfold Chess.ClassifiedPovMove.fromMove
    dsimp only
    rw [hpromo]
    dsimp only
    rw [hdfv]
    rfl
  · unfold Chess.ClassifiedPovMove.toMove
    dsimp only
    rw [Chess.square7_eq_some mv.source mv.dest (((1 : ℕ) : ℤ) - 1)
      (by omega) (by omega)]
    dsimp only
    rw [show Chess.UNDERPROMOTION_PIECES.get? 2 = some Chess.Piece.knight from rfl]
    dsimp only
    rw [← hpromo]
· refine ⟨2, 2, ?_, rfl, ?_⟩
  · unfold Chess.ClassifiedPovMove.fromMove
    dsimp only
    rw [hpromo]
    dsimp only
    rw [hdfv]
    rfl
  · unfold Chess.ClassifiedPovMove.toMove
    dsimp only
    rw [Chess.square7_eq_some mv.source mv.dest (((2 : ℕ) : ℤ) - 1)
      (by omega) (by omega)]
    dsimp only
    rw [show Chess.UNDERPROMOTION_PIECES.get? 2 = some Chess.Piece.knight from rfl]
    dsimp only
    rw [← hpromo]

/-- The queen-line classification case: a straight or diagonal move whose
promotion is a queen exactly when a pawn reaches the POV back rank
classifies as a queen channel and decodes back. -/
theorem Chess.queen_case (mv : Chess.ChessMove) (pawn : Bool)
    (hne : ¬ (((mv.dest.rank.val : ℤ) - (mv.source.rank.val : ℤ)) = 0 ∧ ((mv.dest.file.val : ℤ) - (mv.source.file.val : ℤ)) = 0))
    (hdr : ((mv.dest.rank.val : ℤ) - (mv.source.rank.val : ℤ)) = ((mv.dest.rank.val : ℤ) - (mv.source.rank.val : ℤ)).sign * (((max ((mv.dest.rank.val : ℤ) - (mv.source.rank.val : ℤ)).natAbs ((mv.dest.file.val : ℤ) - (mv.source.file.val : ℤ)).natAbs) : ℕ) : ℤ))
    (hdf : ((mv.dest.file.val : ℤ) - (mv.source.file.val : ℤ)) = ((mv.dest.file.val : ℤ) - (mv.source.file.val : ℤ)).sign * (((max ((mv.dest.rank.val : ℤ) - (mv.source.rank.val : ℤ)).natAbs ((mv.dest.file.val : ℤ) - (mv.source.file.val : ℤ)).natAbs) : ℕ) : ℤ))
    (hpromo : mv.promotion
      = if pawn = true ∧ mv.dest.rank.val = 7 then some Chess.Piece.queen
        else none) :
    ∃ i m, Chess.ClassifiedPovMove.fromMove mv = some (.queen i m)
    ∧ (Chess.ClassifiedPovMove.queen i m).toChannel = some (i * 7 + m)
    ∧ (Chess.ClassifiedPovMove.queen i m).toMove pawn mv.source = some mv := by
have hb1 := mv.dest.rank.isLt
have hb2 := mv.source.rank.isLt
have hb3 := mv.dest.file.isLt
have hb4 := mv.source.file.isLt
have hD1 : 1 ≤ (max ((mv.dest.rank.val : ℤ) - (mv.source.rank.val : ℤ)).natAbs ((mv.dest.file.val : ℤ) - (mv.source.file.val : ℤ)).natAbs) := by omega
have hD7 : (max ((mv.dest.rank.val : ℤ) - (mv.source.rank.val : ℤ)).natAbs ((mv.dest.file.val : ℤ) - (mv.source.file.val : ℤ)).natAbs) ≤ 7 := by omega
rcases lt_trichotomy ((mv.dest.rank.val : ℤ) - (mv.source.rank.val : ℤ)) 0 with hr | hr | hr <;>
  rcases lt_trichotomy ((mv.dest.file.val : ℤ) - (mv.source.file.val : ℤ)) 0 with hf | hf | hf
· have hsr : ((mv.dest.rank.val : ℤ) - (mv.source.rank.val : ℤ)).sign = (-1 : ℤ) := Int.sign_eq_neg_one_of_neg hr
  have hsf : ((mv.dest.file.val : ℤ) - (mv.source.file.val : ℤ)).sign = (-1 : ℤ) := Int.sign_eq_neg_one_of_neg hf
  rw [hsr] at hdr
  rw [hsf] at hdf
  refine ⟨5, (((((max ((mv.dest.rank.val : ℤ) - (mv.source.rank.val : ℤ)).natAbs ((mv.dest.file.val : ℤ) - (mv.source.file.val : ℤ)).natAbs) : ℕ) : ℤ) - 1).toNat), ?_, ?_, ?_⟩
  · unfold Chess.ClassifiedPovMove.fromMove
    dsimp only
    by_cases hback : pawn = true ∧ mv.dest.rank.val = 7
    · rw [if_pos hback] at hpromo
      rw [hpromo]
      dsimp only
      rw [show Chess.UNDERPROMOTION_PIECES.indexOf? Chess.Piece.queen = none from rfl]
      dsimp only [Option.map]
      rw [hsr, hsf]
      rw [show Chess.QUEEN_DIRECTIONS.indexOf? ((-1 : ℤ), (-1 : ℤ)) = some 5 from rfl]
      dsimp only
      rw [show Chess.QUEEN_DIRECTIONS.getD 5 (0, 0) = ((-1 : ℤ), (-1 : ℤ)) from rfl]
      dsimp only
      rw [if_pos ⟨hdr, hdf⟩]
    · rw [if_neg hback] at hpromo
      rw [hpromo]
      dsimp only
      rw [hsr, hsf]
      rw [show Chess.QUEEN_DIRECTIONS.indexOf? ((-1 : ℤ), (-1 : ℤ)) = some 5 from rfl]
      dsimp only
      rw [show Chess.QUEEN_DIRECTIONS.getD 5 (0, 0) = ((-1 : ℤ), (-1 : ℤ)) from rfl]
      dsimp only
      rw [if_pos ⟨hdr, hdf⟩]
  · unfold Chess.ClassifiedPovMove.toChannel
    dsimp only
    rw [if_pos ⟨by omega, by omega⟩]
  · unfold Chess.ClassifiedPovMove.toMove
    dsimp only
    rw [show Chess.QUEEN_DIRECTIONS.get? 5 = some ((-1 : ℤ), (-1 : ℤ)) from rfl]
    dsimp only
    rw [Chess.square_eq_some mv.source mv.dest ((((((((max ((mv.dest.rank.val : ℤ) - (mv.source.rank.val : ℤ)).natAbs ((mv.dest.file.val : ℤ) - (mv.source.file.val : ℤ)).natAbs) : ℕ) : ℤ) - 1).toNat) : ℤ) + 1) * (-1 : ℤ))
      ((((((((max ((mv.dest.rank.val : ℤ) - (mv.source.rank.val : ℤ)).natAbs ((mv.dest.file.val : ℤ) - (mv.source.file.val : ℤ)).natAbs) : ℕ) : ℤ) - 1).toNat) : ℤ) + 1) * (-1 : ℤ)) (by omega) (by omega)]
    dsimp only
    have hfin : (if pawn = true ∧ mv.dest.rank.val = 7 then some Chess.Piece.queen
        else none) = mv.promotion := hpromo.symm
    rw [hfin]
· have hsr : ((mv.dest.rank.val : ℤ) - (mv.source.rank.val : ℤ)).sign = (-1 : ℤ) := Int.sign_eq_neg_one_of_neg hr
  have hsf : ((mv.dest.file.val : ℤ) - (mv.source.file.val : ℤ)).sign = (0 : ℤ) := by rw [hf]; exact Int.sign_zero
  rw [hsr] at hdr
  rw [hsf] at hdf
  refine ⟨4, (((((max ((mv.dest.rank.val : ℤ) - (mv.source.rank.val : ℤ)).natAbs ((mv.dest.file.val : ℤ) - (mv.source.file.val : ℤ)).natAbs) : ℕ) : ℤ) - 1).toNat), ?_, ?_, ?_⟩
  · unfold Chess.ClassifiedPovMove.fromMove
    dsimp only
    by_cases hback : pawn = true ∧ mv.dest.rank.val = 7
    · rw [if_pos hback] at hpromo
      rw [hpromo]
      dsimp only
      rw [show Chess.UNDERPROMOTION_PIECES.indexOf? Chess.Piece.queen = none from rfl]
      dsimp only [Option.map]
      rw [hsr, hsf]
      rw [show Chess.QUEEN_DIRECTIONS.indexOf? ((-1 : ℤ), (0 : ℤ)) = some 4 from rfl]
      dsimp only
      rw [show Chess.QUEEN_DIRECTIONS.getD 4 (0, 0) = ((-1 : ℤ), (0 : ℤ)) from rfl]
      dsimp only
      rw [if_pos ⟨hdr, hdf⟩]
    · rw [if_neg hback] at hpromo
      rw [hpromo]
      dsimp only
      rw [hsr, hsf]
      rw [show Chess.QUEEN_DIRECTIONS.indexOf? ((-1 : ℤ), (0 : ℤ)) = some 4 from rfl]
      dsimp only
      rw [show Chess.QUEEN_DIRECTIONS.getD 4 (0, 0) = ((-1 : ℤ), (0 : ℤ)) from rfl]
      dsimp only
      rw [if_pos ⟨hdr, hdf⟩]
  · unfold Chess.ClassifiedPovMove.toChannel
    dsimp only
    rw [if_pos ⟨by omega, by omega⟩]
  · unfold Chess.ClassifiedPovMove.toMove
    dsimp only
    rw [show Chess.QUEEN_DIRECTIONS.get? 4 = some ((-1 : ℤ), (0 : ℤ)) from rfl]
    dsimp only
    rw [Chess.square_eq_some mv.source mv.dest ((((((((max ((mv.dest.rank.val : ℤ) - (mv.source.rank.val : ℤ)).natAbs ((mv.dest.file.val : ℤ) - (mv.source.file.val : ℤ)).natAbs) : ℕ) : ℤ) - 1).toNat) : ℤ) + 1) * (-1 : ℤ))
      ((((((((max ((mv.dest.rank.val : ℤ) - (mv.source.rank.val : ℤ)).natAbs ((mv.dest.file.val : ℤ) - (mv.source.file.val : ℤ)).natAbs) : ℕ) : ℤ) - 1).toNat) : ℤ) + 1) * (0 : ℤ)) (by omega) (by omega)]
    dsimp only
    have hfin : (if pawn = true ∧ mv.dest.rank.val = 7 then some Chess.Piece.queen
        else none) = mv.promotion := hpromo.symm
    rw [hfin]
· have hsr : ((mv.dest.rank.val : ℤ) - (mv.source.rank.val : ℤ)).sign = (-1 : ℤ) := Int.sign_eq_neg_one_of_neg hr
  have hsf : ((mv.dest.file.val : ℤ) - (mv.source.file.val : ℤ)).sign = (1 : ℤ) := Int.sign_eq_one_of_pos hf
  rw [hsr] at hdr
  rw [hsf] at hdf
  refine ⟨3, (((((max ((mv.dest.rank.val : ℤ) - (mv.source.rank.val : ℤ)).natAbs ((mv.dest.file.val : ℤ) - (mv.source.file.val : ℤ)).natAbs) : ℕ) : ℤ) - 1).toNat), ?_, ?_, ?_⟩
  · unfold Chess.ClassifiedPovMove.fromMove
    dsimp only
    by_cases hback : pawn = true ∧ mv.dest.rank.val = 7
    · rw [if_pos hback] at hpromo
      rw [hpromo]
      dsimp only
      rw [show Chess.UNDERPROMOTION_PIECES.indexOf? Chess.Piece.queen = none from rfl]
      dsimp only [Option.map]
      rw [hsr, hsf]
      rw [show Chess.QUEEN_DIRECTIONS.indexOf? ((-1 : ℤ), (1 : ℤ)) = some 3 from rfl]
      dsimp only
      rw [show Chess.QUEEN_DIRECTIONS.getD 3 (0, 0) = ((-1 : ℤ), (1 : ℤ)) from rfl]
      dsimp only
      rw [if_pos ⟨hdr, hdf⟩]
    · rw [if_neg hback] at hpromo
      rw [hpromo]
      dsimp only
      rw [hsr, hsf]
      rw [show Chess.QUEEN_DIRECTIONS.indexOf? ((-1 : ℤ), (1 : ℤ)) = some 3 from rfl]
      dsimp only
      rw [show Chess.QUEEN_DIRECTIONS.getD 3 (0, 0) = ((-1 : ℤ), (1 : ℤ)) from rfl]
      dsimp only
      rw [if_pos ⟨hdr, hdf⟩]
  · unfold Chess.ClassifiedPovMove.toChannel
    dsimp only
    rw [if_pos ⟨by omega, by omega⟩]
  · unfold Chess.ClassifiedPovMove.toMove
    dsimp only
    rw [show Chess.QUEEN_DIRECTIONS.get? 3 = some ((-1 : ℤ), (1 : ℤ)) from rfl]
    dsimp only
    rw [Chess.square_eq_some mv.source mv.dest ((((((((max ((mv.dest.rank.val : ℤ) - (mv.source.rank.val : ℤ)).natAbs ((mv.dest.file.val : ℤ) - (mv.source.file.val : ℤ)).natAbs) : ℕ) : ℤ) - 1).toNat) : ℤ) + 1) * (-1 : ℤ))
      ((((((((max ((mv.dest.rank.val : ℤ) - (mv.source.rank.val : ℤ)).natAbs ((mv.dest.file.val : ℤ) - (mv.source.file.val : ℤ)).natAbs) : ℕ) : ℤ) - 1).toNat) : ℤ) + 1) * (1 : ℤ)) (by omega) (by omega)]
    dsimp only
    have hfin : (if pawn = true ∧ mv.dest.rank.val = 7 then some Chess.Piece.queen
        else none) = mv.promotion := hpromo.symm
    rw [hfin]
· have hsr : ((mv.dest.rank.val : ℤ) - (mv.source.rank.val : ℤ)).sign = (0 : ℤ) := by rw [hr]; exact Int.sign_zero
  have hsf : ((mv.dest.file.val : ℤ) - (mv.source.file.val : ℤ)).sign = (-1 : ℤ) := Int.sign_eq_neg_one_of_neg hf
  rw [hsr] at hdr
  rw [hsf] at hdf
  refine ⟨6, (((((max ((mv.dest.rank.val : ℤ) - (mv.source.rank.val : ℤ)).natAbs ((mv.dest.file.val : ℤ) - (mv.source.file.val : ℤ)).natAbs) : ℕ) : ℤ) - 1).toNat), ?_, ?_, ?_⟩
  · unfold Chess.ClassifiedPovMove.fromMove
    dsimp only
    by_cases hback : pawn = true ∧ mv.dest.rank.val = 7
    · rw [if_pos hback] at hpromo
      rw [hpromo]
      dsimp only
      rw [show Chess.UNDERPROMOTION_PIECES.indexOf? Chess.Piece.queen = none from rfl]
      dsimp only [Option.map]
      rw [hsr, hsf]
      rw [show Chess.QUEEN_DIRECTIONS.indexOf? ((0 : ℤ), (-1 : ℤ)) = some 6 from rfl]
      dsimp only
      rw [show Chess.QUEEN_DIRECTIONS.getD 6 (0, 0) = ((0 : ℤ), (-1 : ℤ)) from rfl]
      dsimp only
      rw [if_pos ⟨hdr, hdf⟩]
    · rw [if_neg hback] at hpromo
      rw [hpromo]
      dsimp only
      rw [hsr, hsf]
      rw [show Chess.QUEEN_DIRECTIONS.indexOf? ((0 : ℤ), (-1 : ℤ)) = some 6 from rfl]
      dsimp only
      rw [show Chess.QUEEN_DIRECTIONS.getD 6 (0, 0) = ((0 : ℤ), (-1 : ℤ)) from rfl]
      dsimp only
      rw [if_pos ⟨hdr, hdf⟩]
  · unfold Chess.ClassifiedPovMove.toChannel
    dsimp only
    rw [if_pos ⟨by omega, by omega⟩]
  · unfold Chess.ClassifiedPovMove.toMove
    dsimp only
    rw [show Chess.QUEEN_DIRECTIONS.get? 6 = some ((0 : ℤ), (-1 : ℤ)) from rfl]
    dsimp only
    rw [Chess.square_eq_some mv.source mv.dest ((((((((max ((mv.dest.rank.val : ℤ) - (mv.source.rank.val : ℤ)).natAbs ((mv.dest.file.val : ℤ) - (mv.source.file.val : ℤ)).natAbs) : ℕ) : ℤ) - 1).toNat) : ℤ) + 1) * (0 : ℤ))
      ((((((((max ((mv.dest.rank.val : ℤ) - (mv.source.rank.val : ℤ)).natAbs ((mv.dest.file.val : ℤ) - (mv.source.file.val : ℤ)).natAbs) : ℕ) : ℤ) - 1).toNat) : ℤ) + 1) * (-1 : ℤ)) (by omega) (by omega)]
    dsimp only
    have hfin : (if pawn = true ∧ mv.dest.rank.val = 7 then some Chess.Piece.queen
        else none) = mv.promotion := hpromo.symm
    rw [hfin]
· exact absurd ⟨hr, hf⟩ hne
· have hsr : ((mv.dest.rank.val : ℤ) - (mv.source.rank.val : ℤ)).sign = (0 : ℤ) := by rw [hr]; exact Int.sign_zero
  have hsf : ((mv.dest.file.val : ℤ) - (mv.source.file.val : ℤ)).sign = (1 : ℤ) := Int.sign_eq_one_of_pos hf
  rw [hsr] at hdr
  rw [hsf] at hdf
  refine ⟨2, (((((max ((mv.dest.rank.val : ℤ) - (mv.source.rank.val : ℤ)).natAbs ((mv.dest.file.val : ℤ) - (mv.source.file.val : ℤ)).natAbs) : ℕ) : ℤ) - 1).toNat), ?_, ?_, ?_⟩
  · unfold Chess.ClassifiedPovMove.fromMove
    dsimp only
    by_cases hback : pawn = true ∧ mv.dest.rank.val = 7
    · rw [if_pos hback] at hpromo
      rw [hpromo]
      dsimp only
      rw [show Chess.UNDERPROMOTION_PIECES.indexOf? Chess.Piece.queen = none from rfl]
      dsimp only [Option.map]
      rw [hsr, hsf]
      rw [show Chess.QUEEN_DIRECTIONS.indexOf? ((0 : ℤ), (1 : ℤ)) = some 2 from rfl]
      dsimp only
      rw [show Chess.QUEEN_DIRECTIONS.getD 2 (0, 0) = ((0 : ℤ), (1 : ℤ)) from rfl]
      dsimp only
      rw [if_pos ⟨hdr, hdf⟩]
    · rw [if_neg hback] at hpromo
      rw [hpromo]
      dsimp only
      rw [hsr, hsf]
      rw [show Chess.QUEEN_DIRECTIONS.indexOf? ((0 : ℤ), (1 : ℤ)) = some 2 from rfl]
      dsimp only
      rw [show Chess.QUEEN_DIRECTIONS.getD 2 (0, 0) = ((0 : ℤ), (1 : ℤ)) from rfl]
      dsimp only
      rw [if_pos ⟨hdr, hdf⟩]
  · unfold Chess.ClassifiedPovMove.toChannel
    dsimp only
    rw [if_pos ⟨by omega, by omega⟩]
  · unfold Chess.ClassifiedPovMove.toMove
    dsimp only
    rw [show Chess.QUEEN_DIRECTIONS.get? 2 = some ((0 : ℤ), (1 : ℤ)) from rfl]
    dsimp only
    rw [Chess.square_eq_some mv.source mv.dest ((((((((max ((mv.dest.rank.val : ℤ) - (mv.source.rank.val : ℤ)).natAbs ((mv.dest.file.val : ℤ) - (mv.source.file.val : ℤ)).natAbs) : ℕ) : ℤ) - 1).toNat) : ℤ) + 1) * (0 : ℤ))
      ((((((((max ((mv.dest.rank.val : ℤ) - (mv.source.rank.val : ℤ)).natAbs ((mv.dest.file.val : ℤ) - (mv.source.file.val : ℤ)).natAbs) : ℕ) : ℤ) - 1).toNat) : ℤ) + 1) * (1 : ℤ)) (by omega) (by omega)]
    dsimp only
    have hfin : (if pawn = true ∧ mv.dest.rank.val = 7 then some Chess.Piece.queen
        else none) = mv.promotion := hpromo.symm
    rw [hfin]
· have hsr : ((mv.dest.rank.val : ℤ) - (mv.source.rank.val : ℤ)).sign = (1 : ℤ) := Int.sign_eq_one_of_pos hr
  have hsf : ((mv.dest.file.val : ℤ) - (mv.source.file.val : ℤ)).sign = (-1 : ℤ) := Int.sign_eq_neg_one_of_neg hf
  rw [hsr] at hdr
  rw [hsf] at hdf
  refine ⟨7, (((((max ((mv.dest.rank.val : ℤ) - (mv.source.rank.val : ℤ)).natAbs ((mv.dest.file.val : ℤ) - (mv.source.file.val : ℤ)).natAbs) : ℕ) : ℤ) - 1).toNat), ?_, ?_, ?_⟩
  · unfold Chess.ClassifiedPovMove.fromMove
    dsimp only
    by_cases hback : pawn = true ∧ mv.dest.rank.val = 7
    · rw [if_pos hback] at hpromo
      rw [hpromo]
      dsimp only
      rw [show Chess.UNDERPROMOTION_PIECES.indexOf? Chess.Piece.queen = none from rfl]
      dsimp only [Option.map]
      rw [hsr, hsf]
      rw [show Chess.QUEEN_DIRECTIONS.indexOf? ((1 : ℤ), (-1 : ℤ)) = some 7 from rfl]
      dsimp only
      rw [show Chess.QUEEN_DIRECTIONS.getD 7 (0, 0) = ((1 : ℤ), (-1 : ℤ)) from rfl]
      dsimp only
      rw [if_pos ⟨hdr, hdf⟩]
    · rw [if_neg hback] at hpromo
      rw [hpromo]
      dsimp only
      rw [hsr, hsf]
      rw [show Chess.QUEEN_DIRECTIONS.indexOf? ((1 : ℤ), (-1 : ℤ)) = some 7 from rfl]
      dsimp only
      rw [show Chess.QUEEN_DIRECTIONS.getD 7 (0, 0) = ((1 : ℤ), (-1 : ℤ)) from rfl]
      dsimp only
      rw [if_pos ⟨hdr, hdf⟩]
  · unfold Chess.ClassifiedPovMove.toChannel
    dsimp only
    rw [if_pos ⟨by omega, by omega⟩]
  · unfold Chess.ClassifiedPovMove.toMove
    dsimp only
    rw [show Chess.QUEEN_DIRECTIONS.get? 7 = some ((1 : ℤ), (-1 : ℤ)) from rfl]
    dsimp only
    rw [Chess.square_eq_some mv.source mv.dest ((((((((max ((mv.dest.rank.val : ℤ) - (mv.source.rank.val : ℤ)).natAbs ((mv.dest.file.val : ℤ) - (mv.source.file.val : ℤ)).natAbs) : ℕ) : ℤ) - 1).toNat) : ℤ) + 1) * (1 : ℤ))
      ((((((((max ((mv.dest.rank.val : ℤ) - (mv.source.rank.val : ℤ)).natAbs ((mv.dest.file.val : ℤ) - (mv.source.file.val : ℤ)).natAbs) : ℕ) : ℤ) - 1).toNat) : ℤ) + 1) * (-1 : ℤ)) (by omega) (by omega)]
    dsimp only
    have hfin : (if pawn = true ∧ mv.dest.rank.val = 7 then some Chess.Piece.queen
        else none) = mv.promotion := hpromo.symm
    rw [hfin]
· have hsr : ((mv.dest.rank.val : ℤ) - (mv.source.rank.val : ℤ)).sign = (1 : ℤ) := Int.sign_eq_one_of_pos hr
  have hsf : ((mv.dest.file.val : ℤ) - (mv.source.file.val : ℤ)).sign = (0 : ℤ) := by rw [hf]; exact Int.sign_zero
  rw [hsr] at hdr
  rw [hsf] at hdf
  refine ⟨0, (((((max ((mv.dest.rank.val : ℤ) - (mv.source.rank.val : ℤ)).natAbs ((mv.dest.file.val : ℤ) - (mv.source.file.val : ℤ)).natAbs) : ℕ) : ℤ) - 1).toNat), ?_, ?_, ?_⟩
  · unfold Chess.ClassifiedPovMove.fromMove
    dsimp only
    by_cases hback : pawn = true ∧ mv.dest.rank.val = 7
    · rw [if_pos hback] at hpromo
      rw [hpromo]
      dsimp only
      rw [show Chess.UNDERPROMOTION_PIECES.indexOf? Chess.Piece.queen = none from rfl]
      dsimp only [Option.map]
      rw [hsr, hsf]
      rw [show Chess.QUEEN_DIRECTIONS.indexOf? ((1 : ℤ), (0 : ℤ)) = some 0 from rfl]
      dsimp only
      rw [show Chess.QUEEN_DIRECTIONS.getD 0 (0, 0) = ((1 : ℤ), (0 : ℤ)) from rfl]
      dsimp only
      rw [if_pos ⟨hdr, hdf⟩]
    · rw [if_neg hback] at hpromo
      rw [hpromo]
      dsimp only
      rw [hsr, hsf]
      rw [show Chess.QUEEN_DIRECTIONS.indexOf? ((1 : ℤ), (0 : ℤ)) = some 0 from rfl]
      dsimp only
      rw [show Chess.QUEEN_DIRECTIONS.getD 0 (0, 0) = ((1 : ℤ), (0 : ℤ)) from rfl]
      dsimp only
      rw [if_pos ⟨hdr, hdf⟩]
  · unfold Chess.ClassifiedPovMove.toChannel
    dsimp only
    rw [if_pos ⟨by omega, by omega⟩]
  · unfold Chess.ClassifiedPovMove.toMove
    dsimp only
    rw [show Chess.QUEEN_DIRECTIONS.get? 0 = some ((1 : ℤ), (0 : ℤ)) from rfl]
    dsimp only
    rw [Chess.square_eq_some mv.source mv.dest ((((((((max ((mv.dest.rank.val : ℤ) - (mv.source.rank.val : ℤ)).natAbs ((mv.dest.file.val : ℤ) - (mv.source.file.val : ℤ)).natAbs) : ℕ) : ℤ) - 1).toNat) : ℤ) + 1) * (1 : ℤ))
      ((((((((max ((mv.dest.rank.val : ℤ) - (mv.source.rank.val : ℤ)).natAbs ((mv.dest.file.val : ℤ) - (mv.source.file.val : ℤ)).natAbs) : ℕ) : ℤ) - 1).toNat) : ℤ) + 1) * (0 : ℤ)) (by omega) (by omega)]
    dsimp only
    have hfin : (if pawn = true ∧ mv.dest.rank.val = 7 then some Chess.Piece.queen
        else none) = mv.promotion := hpromo.symm
    rw [hfin]
· have hsr : ((mv.dest.rank.val : ℤ) - (mv.source.rank.val : ℤ)).sign = (1 : ℤ) := Int.sign_eq_one_of_pos hr
  have hsf : ((mv.dest.file.val : ℤ) - (mv.source.file.val : ℤ)).sign = (1 : ℤ) := Int.sign_eq_one_of_pos hf
  rw [hsr] at hdr
  rw [hsf] at hdf
  refine ⟨1, (((((max ((mv.dest.rank.val : ℤ) - (mv.source.rank.val : ℤ)).natAbs ((mv.dest.file.val : ℤ) - (mv.source.file.val : ℤ)).natAbs) : ℕ) : ℤ) - 1).toNat), ?_, ?_, ?_⟩
  · unfold Chess.ClassifiedPovMove.fromMove
    dsimp only
    by_cases hback : pawn = true ∧ mv.dest.rank.val = 7
    · rw [if_pos hback] at hpromo
      rw [hpromo]
      dsimp only
      rw [show Chess.UNDERPROMOTION_PIECES.indexOf? Chess.Piece.queen = none from rfl]
      dsimp only [Option.map]
      rw [hsr, hsf]
      rw [show Chess.QUEEN_DIRECTIONS.indexOf? ((1 : ℤ), (1 : ℤ)) = some 1 from rfl]
      dsimp only
      rw [show Chess.QUEEN_DIRECTIONS.getD 1 (0, 0) = ((1 : ℤ), (1 : ℤ)) from rfl]
      dsimp only
      rw [if_pos ⟨hdr, hdf⟩]
    · rw [if_neg hback] at hpromo
      rw [hpromo]
      dsimp only
      rw [hsr, hsf]
      rw [show Chess.QUEEN_DIRECTIONS.indexOf? ((1 : ℤ), (1 : ℤ)) = some 1 from rfl]
      dsimp only
      rw [show Chess.QUEEN_DIRECTIONS.getD 1 (0, 0) = ((1 : ℤ), (1 : ℤ)) from rfl]
      dsimp only
      rw [if_pos ⟨hdr, hdf⟩]
  · unfold Chess.ClassifiedPovMove.toChannel
    dsimp only
    rw [if_pos ⟨by omega, by omega⟩]
  · unfold Chess.ClassifiedPovMove.toMove
    dsimp only
    rw [show Chess.QUEEN_DIRECTIONS.get? 1 = some ((1 : ℤ), (1 : ℤ)) from rfl]
    dsimp only
    rw [Chess.square_eq_some mv.source mv.dest ((((((((max ((mv.dest.rank.val : ℤ) - (mv.source.rank.val : ℤ)).natAbs ((mv.dest.file.val : ℤ) - (mv.source.file.val : ℤ)).natAbs) : ℕ) : ℤ) - 1).toNat) : ℤ) + 1) * (1 : ℤ))
      ((((((((max ((mv.dest.rank.val : ℤ) - (mv.source.rank.val : ℤ)).natAbs ((mv.dest.file.val : ℤ) - (mv.source.file.val : ℤ)).natAbs) : ℕ) : ℤ) - 1).toNat) : ℤ) + 1) * (1 : ℤ)) (by omega) (by omega)]
    dsimp only
    have hfin : (if pawn = true ∧ mv.dest.rank.val = 7 then some Chess.Piece.queen
        else none) = mv.promotion := hpromo.symm
    rw [hfin]

/-- C5: for every board position and every move whose geometry is one a legal
chess move can have (knight jump without promotion; queen-line move promoting
to a queen exactly when a pawn reaches the back rank; under-promotion of a
pawn stepping from the seventh to the eighth POV rank), decoding the policy
index produced by encoding the move recovers the move exactly:
`index_to_move(board, move_to_index(board, m)) == m`. -/
theorem C5_policy_roundtrip (pos : Chess.ChessPos) (mvAbs : Chess.ChessMove)
    (h : Chess.LegalShape pos mvAbs) :
    (Chess.moveToIndex pos mvAbs).bind (Chess.indexToMove pos) = some mvAbs := by
unfold Chess.LegalShape at h
dsimp only at h
rcases h with ⟨hmem, hpromo⟩ | ⟨hne, hdr, hdf, hpromo⟩
  | ⟨q, hq, hpromo, hpawn, hdr, hdfA, hr6⟩
· obtain ⟨i, hfm, hch, htm⟩ := Chess.knight_case
    (Chess.movePov pos.sideToMove mvAbs)
    (decide (pos.pieceOn mvAbs.source = some Chess.Piece.pawn)) hmem hpromo
  exact Chess.roundtrip_of_classified pos mvAbs (.knight i)
    (Chess.QUEEN_CHANNELS + i) hfm hch htm
· have hpromo' : (Chess.movePov pos.sideToMove mvAbs).promotion
      = if (decide (pos.pieceOn mvAbs.source = some Chess.Piece.pawn)) = true
          ∧ (Chess.movePov pos.sideToMove mvAbs).dest.rank.val = 7
        then some Chess.Piece.queen else none := by
    show mvAbs.promotion = _
    rw [hpromo]
    by_cases hP : pos.pieceOn mvAbs.source = some Chess.Piece.pawn <;>
      by_cases hQ : (Chess.movePov pos.sideToMove mvAbs).dest.rank.val = 7 <;>
      simp [hP, hQ]
  obtain ⟨i, m, hfm, hch, htm⟩ := Chess.queen_case
    (Chess.movePov pos.sideToMove mvAbs)
    (decide (pos.pieceOn mvAbs.source = some Chess.Piece.pawn)) hne hdr hdf hpromo'
  exact Chess.roundtrip_of_classified pos mvAbs (.queen i m) (i * 7 + m)
    hfm hch htm
· obtain ⟨d, p, hfm, hch, htm⟩ := Chess.under_case
    (Chess.movePov pos.sideToMove mvAbs)
    (decide (pos.pieceOn mvAbs.source = some Chess.Piece.pawn)) q hq hpromo
    hdr hdfA hr6
  exact Chess.roundtrip_of_classified pos mvAbs (.underPromotion d p)
    (Chess.QUEEN_CHANNELS + Chess.KNIGHT_CHANNELS + d * 3 + p) hfm hch htm

/-- C5 (witness): the double pawn push e2–e4 on the one-pawn board encodes
and decodes back to itself. -/
theorem C5_policy_roundtrip_witness :
    (Chess.moveToIndex Chess.e2PawnPos Chess.e2e4).bind
      (Chess.indexToMove Chess.e2PawnPos) = some Chess.e2e4 :=
C5_policy_roundtrip Chess.e2PawnPos Chess.e2e4 (by decide)

end Spec2Proof
